import Mathlib

/-!
# Order placement core of `ecommerce-api`

A shallow embedding of the code that places and reads orders: the repository
layer (`internal/repo/order.go`, `internal/repo/variants.go`) over an abstract
relational store, the order use cases and handlers, `errortools`, and the
response and pagination helpers of `utils`; followed by theorems about them.

Conventions of the embedding:

* a table is a list of rows, in insertion order; `UPDATE` maps over the rows,
  `SELECT` filters them and `INSERT` appends;
* a `*sql.Tx` is a working copy of the store; `Commit` installs the working
  copy, `Rollback` (and a failed `Commit`) discards it;
* every call into `database/sql` may fail; whether it does is read from a
  script (`TxScript`), which also carries the identifier the store assigns to
  a new order. A statement that fails has no effect on the working copy;
* Go's `(value, error)` results are `Except GoError value`;
* `float64` prices and totals are carried as rationals: the core stores them
  and compares them with zero, it performs no arithmetic on them;
* a Go `int` is an integer, and arithmetic that can leave 64 bits goes through
  `wrap64`;
* the two conversions from text to UUID that the code relies on
  (`uuid.Parse` of github.com/google/uuid and PostgreSQL's `::uuid` cast) are
  code of other projects and are taken as parameters (`Ext`).
-/

namespace Ecommerce

/-! ## Errors -/

/-- Go `error` values as the repository layer builds them. -/
inductive GoError where
  /-- an error value produced outside this repository (database/sql, the driver, uuid) -/
  | lib (detail : String)
  /-- `fmt.Errorf(msg)` without a wrapped cause -/
  | errorf (msg : String)
  /-- `fmt.Errorf(msg + ": %w", cause)` -/
  | wrapf (msg : String) (cause : GoError)
  deriving DecidableEq, Repr

/-! ## Entities (`internal/entities/order.go`) -/

/-- `entities.OrderItem`. -/
structure OrderItem where
  VariantID : String
  Quantity : Int
  Price : Rat
  VariantName : String := ""
  ProductName : String := ""
  deriving DecidableEq, Repr

/-- `entities.Order`. -/
structure Order where
  ID : String := ""
  Status : String := ""
  Items : List OrderItem
  Total : Rat
  deriving DecidableEq, Repr

/-- `consts.OrderStatusAccepted`. -/
def OrderStatusAccepted : String := "Accepted"

/-! ## The store -/

/-- A row of table `variants` (the columns the order core reads or writes, and
the price column as a representative of the columns it never touches). -/
structure VariantRow where
  ID : String
  Name : String
  MRP : Rat
  Quantity : Int
  IsActive : Bool
  deriving DecidableEq, Repr

/-- A row of table `products`. -/
structure ProductRow where
  ID : String
  Name : String
  deriving DecidableEq, Repr

/-- A row of table `product_variant_mapping`. -/
structure MappingRow where
  ProductID : String
  VariantID : String
  deriving DecidableEq, Repr

/-- A row of table `orders`. -/
structure OrderRow where
  ID : String
  Status : String
  Total : Rat
  deriving DecidableEq, Repr

/-- A row of table `order_items`. -/
structure OrderItemRow where
  OrderID : String
  VariantID : String
  Quantity : Int
  Price : Rat
  deriving DecidableEq, Repr

/-- The persisted state: the five tables the order core touches. -/
structure Store where
  variants : List VariantRow
  products : List ProductRow
  mapping : List MappingRow
  orders : List OrderRow
  orderItems : List OrderItemRow
  deriving DecidableEq, Repr

/-- Conversions from text to UUID performed outside this repository. Both give
the canonical text of the UUID, or nothing when the text is not a UUID. -/
structure Ext where
  /-- `uuid.Parse` (github.com/google/uuid), rendered back as text -/
  uuidParse : String → Option String
  /-- PostgreSQL's cast of a text parameter to `uuid`, rendered back as text -/
  pgUuid : String → Option String

/-- What the outside world decides during one run of `CreateOrderTransaction`:
which calls into `database/sql` fail, which identifier the store assigns to the
new order, and which join row an `UPDATE ... FROM` uses for a variant that
joins to several rows of the `VALUES` list. -/
structure TxScript where
  beginErr : Option GoError := none
  checkQueryErr : Option GoError := none
  updateExecErr : Option GoError := none
  insertOrderErr : Option GoError := none
  insertItemsErr : Option GoError := none
  commitErr : Option GoError := none
  newOrderID : String
  joinPick : String → Nat := fun _ => 0

/-! ## `internal/repo/variants.go` -/

/-- The rows of `SELECT id, quantity FROM variants WHERE id = ANY($1::uuid[])`. -/
def selectInventory (ids : List String) (vs : List VariantRow) : List (String × Int) :=
  (vs.filter (fun v => decide (v.ID ∈ ids))).map (fun v => (v.ID, v.Quantity))

/-- The Go map `inventory` after the scan loop: `inventory[variantID] = quantity`
for each row in turn, a later row overwriting an earlier one with the same key. -/
def buildInventory (rows : List (String × Int)) : String → Option Int :=
  rows.foldl (fun m r => fun k => if k = r.1 then some r.2 else m k) (fun _ => none)

/-- The validation loop of `CheckInventoryAvailability`: it returns `false` at
the first line with `!ok || qty < item.Quantity`, and `true` after the last. -/
def checkLines (inventory : String → Option Int) : List OrderItem → Bool
  | [] => true
  | item :: rest =>
    match inventory item.VariantID with
    | none => false
    | some qty => if qty < item.Quantity then false else checkLines inventory rest

/-- `CheckInventoryAvailability` from the point where the query has returned
`rows`: build the map, then validate each line. -/
def availabilityVerdict (rows : List (String × Int)) (items : List OrderItem) : Bool :=
  checkLines (buildInventory rows) items

/-- The array parameter `$1::uuid[]`: every element is cast, and one element
that is not a UUID fails the whole query. -/
def castAll (cast : String → Option String) : List String → Option (List String)
  | [] => some []
  | s :: rest =>
    match cast s, castAll cast rest with
    | some u, some us => some (u :: us)
    | _, _ => none

/-- `CheckInventoryAvailability`. It reads through `repo.db`, that is, the
committed store, not the transaction. -/
def CheckInventoryAvailability (ext : Ext) (queryErr : Option GoError) (db : Store)
    (items : List OrderItem) : Except GoError Bool :=
  let varIDs := items.map (fun item => item.VariantID)
  match queryErr with
  | some e => .error (.wrapf "could not check inventory availability" e)
  | none =>
    match castAll ext.pgUuid varIDs with
    | none =>
      .error (.wrapf "could not check inventory availability"
        (.lib "invalid input syntax for type uuid"))
    | some ids => .ok (availabilityVerdict (selectInventory ids db.variants) items)

/-- The loop of `UpdateInventoryBatch` that parses each `VariantID` and collects
the arguments `(parsedID, item.Quantity)`; it returns at the first identifier
that does not parse. -/
def batchArgs (ext : Ext) : List OrderItem → Except GoError (List (String × Int))
  | [] => .ok []
  | item :: rest =>
    match ext.uuidParse item.VariantID with
    | none => .error (.wrapf "invalid variant ID format" (.lib "invalid UUID"))
    | some parsedID =>
      match batchArgs ext rest with
      | .error e => .error e
      | .ok args => .ok ((parsedID, item.Quantity) :: args)

/-- The join rows of one variant in
`UPDATE variants ... FROM (VALUES ...) AS tmp(variant_id, quantity)
 WHERE variants.id = tmp.variant_id AND variants.quantity >= tmp.quantity`. -/
def joinRows (tmp : List (String × Int)) (v : VariantRow) : List (String × Int) :=
  tmp.filter (fun t => decide (v.ID = t.1) && decide (v.Quantity ≥ t.2))

/-- The effect of the batched update on one row of `variants`: a row with no
join row is left alone; otherwise exactly one join row is used (PostgreSQL
uses only one when there are several, `pick` says which) and
`quantity = variants.quantity - tmp.quantity`. -/
def applyDecrement (pick : String → Nat) (tmp : List (String × Int)) (v : VariantRow) :
    VariantRow :=
  let js := joinRows tmp v
  match js.get? (pick v.ID % js.length) with
  | none => v
  | some t => { v with Quantity := v.Quantity - t.2 }

/-- `UpdateInventoryBatch` on the working copy `tx`. The result of
`tx.ExecContext` is discarded apart from its error. -/
def UpdateInventoryBatch (ext : Ext) (s : TxScript) (tx : Store) (items : List OrderItem) :
    Except GoError Store :=
  if items.length = 0 then .ok tx
  else
    match batchArgs ext items with
    | .error e => .error e
    | .ok args =>
      match s.updateExecErr with
      | some e => .error (.wrapf "could not batch update inventory" e)
      | none => .ok { tx with variants := tx.variants.map (applyDecrement s.joinPick args) }

/-- The working copy after `UpdateInventoryBatch` has returned: the updated
copy when it returned `nil`, the copy as it was when it returned an error. -/
def afterUpdate (ext : Ext) (s : TxScript) (tx : Store) (items : List OrderItem) : Store :=
  match UpdateInventoryBatch ext s tx items with
  | .ok tx1 => tx1
  | .error _ => tx

/-! ## `internal/repo/order.go` -/

/-- `InsertOrder`: one row in `orders` with status `consts.OrderStatusAccepted`
and the caller's `order.Total`; the identifier is the one the store assigns. -/
def InsertOrder (s : TxScript) (tx : Store) (order : Order) : Except GoError (String × Store) :=
  match s.insertOrderErr with
  | some e => .error (.wrapf "could not insert order" e)
  | none =>
    .ok (s.newOrderID,
      { tx with orders := tx.orders ++ [⟨s.newOrderID, OrderStatusAccepted, order.Total⟩] })

/-- The rows of the batched `INSERT INTO order_items`, one per item and in the
order of the items; the identifier columns are of type `uuid`, so one text that
is not a UUID fails the statement. -/
def itemRows (ext : Ext) (orderID : String) : List OrderItem → Option (List OrderItemRow)
  | [] => some []
  | item :: rest =>
    match ext.pgUuid orderID, ext.pgUuid item.VariantID, itemRows ext orderID rest with
    | some oid, some vid, some rows => some (⟨oid, vid, item.Quantity, item.Price⟩ :: rows)
    | _, _, _ => none

/-- `InsertOrderItemsBatch`. -/
def InsertOrderItemsBatch (ext : Ext) (s : TxScript) (tx : Store) (orderID : String)
    (items : List OrderItem) : Except GoError Store :=
  if items.length = 0 then .ok tx
  else
    match s.insertItemsErr with
    | some e => .error (.wrapf "could not batch insert order items" e)
    | none =>
      match itemRows ext orderID items with
      | none =>
        .error (.wrapf "could not batch insert order items"
          (.lib "invalid input syntax for type uuid"))
      | some rows => .ok { tx with orderItems := tx.orderItems ++ rows }

/-- Which of `tx.Commit()` and `tx.Rollback()` the deferred function of
`CreateOrderTransaction` invoked (`none`: the transaction never began). -/
inductive TxEnd where
  | none
  | commit
  | rollback
  deriving DecidableEq, Repr

/-- What a run of `CreateOrderTransaction` leaves behind: the values it
returned, the committed store, and the call that ended the transaction. -/
structure TxOutcome where
  result : Except GoError String
  store : Store
  finish : TxEnd

/-- The deferred function of `CreateOrderTransaction`,
`if err != nil { tx.Rollback() } else { err = tx.Commit() }`, where `err` is
the variable declared by `tx, err := repo.db.BeginTx(ctx, nil)`. The function's
results are unnamed, so the assignment `err = tx.Commit()` does not reach the
caller. A `Commit` that fails leaves the store as it was. -/
def deferred (s : TxScript) (db tx : Store) (err : Option GoError) : Store × TxEnd :=
  match err with
  | some _ => (db, .rollback)
  | none =>
    match s.commitErr with
    | some _ => (db, .commit)
    | none => (tx, .commit)

/-- `CreateOrderTransaction`. The three `if ...; err != nil` statements declare
an `err` of their own (`:=` in the statement's initialiser), so the `err` the
deferred function tests is `nil` on those paths; only
`orderID, err := repo.InsertOrder(...)` assigns the outer `err`. -/
def CreateOrderTransaction (ext : Ext) (s : TxScript) (db : Store) (order : Order) :
    TxOutcome :=
  match s.beginErr with
  | some e => ⟨.error (.wrapf "could not begin transaction" e), db, .none⟩
  | none =>
    let tx := db
    match CheckInventoryAvailability ext s.checkQueryErr db order.Items with
    | .error e =>
      let d := deferred s db tx none
      ⟨.error e, d.1, d.2⟩
    | .ok false =>
      let d := deferred s db tx none
      ⟨.error (.errorf "insufficient inventory for one or more items"), d.1, d.2⟩
    | .ok true =>
      match UpdateInventoryBatch ext s tx order.Items with
      | .error e =>
        let d := deferred s db tx none
        ⟨.error e, d.1, d.2⟩
      | .ok tx1 =>
        match InsertOrder s tx1 order with
        | .error e =>
          let d := deferred s db tx1 (some e)
          ⟨.error e, d.1, d.2⟩
        | .ok (orderID, tx2) =>
          match InsertOrderItemsBatch ext s tx2 orderID order.Items with
          | .error e =>
            let d := deferred s db tx2 none
            ⟨.error e, d.1, d.2⟩
          | .ok tx3 =>
            let d := deferred s db tx3 none
            ⟨.ok orderID, d.1, d.2⟩

/-- Which calls of `FetchOrderWithDetails` into `database/sql` fail. -/
structure FetchScript where
  orderQueryErr : Option GoError := none
  itemsQueryErr : Option GoError := none
  rowsErr : Option GoError := none

/-- The rows that one row of `order_items` contributes to the items query of
`FetchOrderWithDetails`: the row joined (inner joins) to `variants`, to
`product_variant_mapping` and to `products`, table by table in row order. -/
def enrich (db : Store) (oi : OrderItemRow) : List OrderItem :=
  (db.variants.filter (fun v => decide (oi.VariantID = v.ID))).flatMap fun v =>
    (db.mapping.filter (fun pvm => decide (v.ID = pvm.VariantID))).flatMap fun pvm =>
      (db.products.filter (fun p => decide (pvm.ProductID = p.ID))).map fun p =>
        { VariantID := oi.VariantID, Quantity := oi.Quantity, Price := oi.Price,
          VariantName := v.Name, ProductName := p.Name }

/-- The rows of the items query of `FetchOrderWithDetails`, restricted to one
order by `WHERE oi.order_id = $1`. -/
def joinedItems (db : Store) (orderID : String) : List OrderItem :=
  (db.orderItems.filter (fun oi => decide (oi.OrderID = orderID))).flatMap (enrich db)

/-- `FetchOrderWithDetails`. -/
def FetchOrderWithDetails (ext : Ext) (f : FetchScript) (db : Store) (orderID : String) :
    Except GoError Order :=
  match f.orderQueryErr with
  | some e => .error (.wrapf "could not fetch order" e)
  | none =>
    match ext.pgUuid orderID with
    | none => .error (.wrapf "could not fetch order" (.lib "invalid input syntax for type uuid"))
    | some oid =>
      match db.orders.find? (fun o => decide (o.ID = oid)) with
      | none => .error (.errorf "order not found")
      | some o =>
        match f.itemsQueryErr with
        | some e => .error (.wrapf "could not fetch order items" e)
        | none =>
          match f.rowsErr with
          | some e => .error (.wrapf "error occurred during rows iteration" e)
          | none =>
            .ok { ID := o.ID, Status := o.Status, Items := joinedItems db oid, Total := o.Total }

/-! ## Reading the ledger, and concrete data for the examples -/

/-- The remaining quantity of the variant with identifier `id`. -/
def remaining (db : Store) (id : String) : Option Int :=
  (db.variants.find? (fun v => decide (v.ID = id))).map (fun v => v.Quantity)

/-- Lower-case hexadecimal digit of a character, if it is a hexadecimal digit. -/
def hexLower (c : Char) : Option Char :=
  if c.isDigit then some c
  else if 'a'.toNat ≤ c.toNat ∧ c.toNat ≤ 'f'.toNat then some c
  else if 'A'.toNat ≤ c.toNat ∧ c.toNat ≤ 'F'.toNat then some (Char.ofNat (c.toNat + 32))
  else none

/-- Canonical form of the characters of a UUID in the standard layout
`xxxxxxxx-xxxx-xxxx-xxxx-xxxxxxxxxxxx`, position by position. -/
def stdUuidChars : Nat → List Char → Option (List Char)
  | 36, [] => some []
  | _, [] => none
  | i, c :: cs =>
    if i = 8 ∨ i = 13 ∨ i = 18 ∨ i = 23 then
      if c = '-' then (stdUuidChars (i + 1) cs).map (fun r => '-' :: r) else none
    else
      match hexLower c, stdUuidChars (i + 1) cs with
      | some h, some r => some (h :: r)
      | _, _ => none

/-- A text-to-UUID conversion for the examples: it recognises the standard
36-character layout in either letter case (which both `uuid.Parse` and
PostgreSQL accept) and yields the lower-case text. -/
def stdUuid (s : String) : Option String :=
  (stdUuidChars 0 s.data).map String.mk

/-- The conversions used in the examples. -/
def stdExt : Ext := ⟨stdUuid, stdUuid⟩

/-- Identifier of the first example variant. -/
def variantA : String := "aaaaaaaa-aaaa-4aaa-8aaa-aaaaaaaaaaaa"

/-- Identifier of the second example variant. -/
def variantB : String := "bbbbbbbb-bbbb-4bbb-8bbb-bbbbbbbbbbbb"

/-- Identifier the store assigns in the examples. -/
def orderOne : String := "11111111-1111-4111-8111-111111111111"

/-- A ledger with two variants, 3 units of the first and 1 of the second,
neither of them mapped to a product. -/
def ledgerAB : Store :=
  { variants := [⟨variantA, "A", 10, 3, true⟩, ⟨variantB, "B", 5, 1, true⟩],
    products := [], mapping := [], orders := [], orderItems := [] }

/-- A basket with one line: 2 units of the first variant. -/
def basketA2 : Order :=
  { Items := [{ VariantID := variantA, Quantity := 2, Price := 10 }], Total := 20 }

/-- A basket that names the first variant on two lines, 2 units each. -/
def basketTwice : Order :=
  { Items := [{ VariantID := variantA, Quantity := 2, Price := 10 },
              { VariantID := variantA, Quantity := 2, Price := 10 }],
    Total := 40 }

/-- A basket that asks for 3 units of the second variant. -/
def basketB3 : Order :=
  { Items := [{ VariantID := variantB, Quantity := 3, Price := 5 }], Total := 15 }

/-- A run in which only the batched insert of the order lines fails. -/
def itemsFaultRun : TxScript :=
  { newOrderID := orderOne, insertItemsErr := some (.lib "connection reset by peer") }

/-- A run in which only `Commit` fails. -/
def commitFaultRun : TxScript :=
  { newOrderID := orderOne, commitErr := some (.lib "connection reset by peer") }

/-- A run in which only the inventory query fails. -/
def queryFaultRun : TxScript :=
  { newOrderID := orderOne, checkQueryErr := some (.lib "connection reset by peer") }

/-- A run in which only the batched inventory update fails. -/
def updateFaultRun : TxScript :=
  { newOrderID := orderOne, updateExecErr := some (.lib "connection reset by peer") }

/-- A run in which only the insert of the order header fails. -/
def headerFaultRun : TxScript :=
  { newOrderID := orderOne, insertOrderErr := some (.lib "connection reset by peer") }

/-- The basket of the round-trip example: 2 units of the first variant at 10
and 1 unit of the second at 5, total 25. -/
def basketRoundTrip : Order :=
  { Items := [{ VariantID := variantA, Quantity := 2, Price := 10 },
              { VariantID := variantB, Quantity := 1, Price := 5 }],
    Total := 25 }

/-- Identifier of the example product. -/
def productP : String := "cccccccc-cccc-4ccc-8ccc-cccccccccccc"

/-- The two-variant ledger with both variants mapped to one product. -/
def catalogAB : Store :=
  { ledgerAB with
    products := [⟨productP, "P"⟩],
    mapping := [⟨productP, variantA⟩, ⟨productP, variantB⟩] }

/-- A read in which nothing fails. -/
def quietFetch : FetchScript := {}

/-- What the round trip compares: variant identifier, quantity and price. -/
def lineOf (item : OrderItem) : String × Int × Rat :=
  (item.VariantID, item.Quantity, item.Price)

/-- A run in which nothing fails. -/
def quietRun : TxScript := { newOrderID := orderOne }

/-! ## `errortools` -/

namespace errortools

/-- `errortools.InternalServerErrCode`. -/
def InternalServerErrCode : String := "ECM500"

/-- `errortools.ValidationFailure`. -/
def ValidationFailure : String := "ECM400"

/-- `errortools.BindingError`. -/
def BindingError : String := "ECM401"

/-- `errortools.MissingQueryParam`. -/
def MissingQueryParam : String := "ECM402"

/-- `errortools.MinLengthError`. -/
def MinLengthError : String := "ECM403"

/-- `errortools.MissingField`. -/
def MissingField : String := "ECM404"

/-- `errortools.BadFormat`. -/
def BadFormat : String := "ECM405"

/-- `errortools.DataFetchFail`. -/
def DataFetchFail : String := "ECM406"

/-- `errortools.JSONSyntaxError`. -/
def JSONSyntaxError : String := "ECM407"

/-- `errortools.NoRecord`. -/
def NoRecord : String := "ECM408"

/-- `errortools.InvalidFieldType`. -/
def InvalidFieldType : String := "ECM409"

/-- `errortools.NotFound`. -/
def NotFound : String := "ECM410"

/-- `errortools.Invalid`. -/
def Invalid : String := "ECM411"

/-- `errortools.InvalidUUID`. -/
def InvalidUUID : String := "ECM412"

/-- `errortools.Inactive`. -/
def Inactive : String := "ECM413"

/-- `errortools.HasActiveProduct`. -/
def HasActiveProduct : String := "ECM414"

/-- `errortools.HasVariants`. -/
def HasVariants : String := "ECM415"

/-- `errortools.Required`. -/
def Required : String := "ECM416"

/-- `errortools.UnauthorizedAccess`. -/
def UnauthorizedAccess : String := "ECM600"

/-- The table `errorCodeNames`, as an association list. -/
def errorCodeNames : List (String × String) :=
  [ (InternalServerErrCode, "internal server error"),
    (MissingQueryParam, "mandatory to pass the query param"),
    (ValidationFailure, "Validation error"),
    (MinLengthError, "minimum length should be %v characters"),
    (BindingError,
      "The request parameter was not bound correctly.\n\tplease check the input params and try again"),
    (MissingField, "%s is mandatory."),
    (BadFormat, "Please check the format of the field"),
    (DataFetchFail, "Couldn't get the  requested details. Please check the inputs"),
    (JSONSyntaxError, "JSON syntax error at byte offset"),
    (NoRecord, "No records found"),
    (UnauthorizedAccess, "Unauthorized access"),
    (NotFound, "Project not found"),
    (Invalid, "Invalid %s"),
    (InvalidUUID, "Invalid value for uuid type for %s"),
    (Inactive, "%s is already inactive"),
    (HasActiveProduct, "Invalid operation, has active products associated with it."),
    (HasVariants, "Invalid operation, has active variants associated with it."),
    (Required, "Require the %s") ]

/-- The table `errorHTTPCodes`, as an association list. -/
def errorHTTPCodes : List (String × Nat) :=
  [ (InternalServerErrCode, 500),
    (ValidationFailure, 400),
    (UnauthorizedAccess, 401),
    (NotFound, 404) ]

/-- `errorCode.Name`: the entry of `errorCodeNames`, the empty string for a code
that has none. -/
def Name (erCode : String) : String :=
  ((errorCodeNames.find? (fun kv => decide (kv.1 = erCode))).map (fun kv => kv.2)).getD ""

/-- `errorCode.HTTPCode`: the entry of `errorHTTPCodes`, 0 for a code that has
none. -/
def HTTPCode (erCode : String) : Nat :=
  ((errorHTTPCodes.find? (fun kv => decide (kv.1 = erCode))).map (fun kv => kv.2)).getD 0

/-- `errRecord`. -/
structure errRecord where
  Code : String
  Message : String
  deriving DecidableEq, Repr

/-- `errortools.Error`. The map `ValidationFails` is an association list with
one entry per key. -/
structure Error where
  Code : String := ""
  Msg : String := ""
  Detail : String := ""
  HelpLink : String := ""
  ValidationFails : List (String × List errRecord) := []
  deriving DecidableEq, Repr

/-- `errortools.Init`. -/
def Init : Error := {}

/-- `fmt.Sprintf` for the formats of `errorCodeNames` and string arguments:
each `%s` or `%v` takes the next argument, a verb without an argument and the
arguments without a verb are reported the way `fmt` reports them. -/
def sprintfChars : List Char → List String → List Char
  | [], [] => []
  | [], a :: args =>
    "%!(EXTRA ".data ++
      (", ".intercalate ((a :: args).map (fun x => "string=" ++ x))).data ++ [')']
  | '%' :: 's' :: rest, a :: args => a.data ++ sprintfChars rest args
  | '%' :: 'v' :: rest, a :: args => a.data ++ sprintfChars rest args
  | '%' :: 's' :: rest, [] => "%!s(MISSING)".data ++ sprintfChars rest []
  | '%' :: 'v' :: rest, [] => "%!v(MISSING)".data ++ sprintfChars rest []
  | c :: rest, args => c :: sprintfChars rest args

/-- `fmt.Sprintf(msg, args...)`. -/
def Sprintf (msg : String) (args : List String) : String :=
  String.mk (sprintfChars msg.data args)

/-- The assignment `fails[fieldName] = append(fails[fieldName], rec)`. -/
def appendRecord (fails : List (String × List errRecord)) (fieldName : String)
    (rec : errRecord) : List (String × List errRecord) :=
  if fails.any (fun kv => decide (kv.1 = fieldName)) then
    fails.map (fun kv => if kv.1 = fieldName then (kv.1, kv.2 ++ [rec]) else kv)
  else fails ++ [(fieldName, [rec])]

/-- `(*Error).AddValidationError`. -/
def AddValidationError (err : Error) (fieldName : String) (code : String)
    (args : List String) : Error :=
  let err1 :=
    if err.Code = "" then { err with Code := ValidationFailure, Msg := Name ValidationFailure }
    else err
  let msg := if args.length > 0 then Sprintf (Name code) args else Name code
  { err1 with ValidationFails := appendRecord err1.ValidationFails fieldName ⟨code, msg⟩ }

/-- `(*Error).Nil` on a non-nil pointer. -/
def Nil (err : Error) : Bool :=
  decide (err.Code = "") && decide (err.ValidationFails.length = 0)

/-- The options of `errortools.New`: `WithDetail` and `WithValidationFails`. -/
inductive Option where
  | WithDetail (detail : String)
  | WithFails (fails : List (String × List errRecord))
  deriving DecidableEq, Repr

/-- The method `apply` of an option. -/
def Option.apply (o : Option) (err : Error) : Error :=
  match o with
  | .WithDetail detail =>
    let err1 := { err with Detail := detail }
    if err1.Msg = "" then { err1 with Msg := err1.Detail } else err1
  | .WithFails fails => { err with ValidationFails := fails }

/-- `errortools.New`. -/
def New (code : String) (opts : List Option) : Error :=
  opts.foldl (fun e o => o.apply e) { Code := code, Msg := Name code, ValidationFails := [] }

end errortools

/-! ## Errors above the repository -/

/-- `(error).Error()` for the errors of the repository layer. -/
def GoError.Error : GoError → String
  | .lib detail => detail
  | .errorf msg => msg
  | .wrapf msg cause => msg ++ ": " ++ cause.Error

/-- An `error` value as the use cases return it: a `*errortools.Error`, or an
error of the repository layer (possibly wrapped again by `fmt.Errorf`), whose
chain holds no `*errortools.Error` on the order paths. -/
inductive AppError where
  | typed (e : errortools.Error)
  | plain (e : GoError)
  deriving DecidableEq, Repr

/-- `errors.As(err, &srvErr)` with `srvErr` of type `*errortools.Error`. -/
def AppError.asServerError : AppError → Option errortools.Error
  | .typed e => some e
  | .plain _ => none

/-! ## `internal/consts` -/

namespace consts

/-- `consts.OrderID`. -/
def OrderID : String := "order id"

/-- `consts.OrderItems`. -/
def OrderItems : String := "order items"

/-- `consts.OrderQuantity`. -/
def OrderQuantity : String := "order quantity"

/-- `consts.OrderPrice`. -/
def OrderPrice : String := "order price"

/-- `consts.OrderTotal`. -/
def OrderTotal : String := "order total"

/-- `consts.Order`. -/
def Order : String := "order"

/-- `consts.OrderCreateSuccess`. -/
def OrderCreateSuccess : String := "Order created successfully"

/-- `consts.OrderFetchSuccess`. -/
def OrderFetchSuccess : String := "Order fetched successfully"

/-- `consts.DefaultPage`. -/
def DefaultPage : Int := 1

/-- `consts.DefaultLimit`. -/
def DefaultLimit : Int := 10

/-- `consts.MaxLimit`. -/
def MaxLimit : Int := 100

end consts

/-! ## `internal/usecases/order.go` -/

/-- The loop of `validateOrderData` over the items: a record under
`<VariantID>.order quantity` for a quantity `<= 0`, then one under
`<VariantID>.order price` for a price `<= 0`. -/
def validateItems (err : errortools.Error) : List OrderItem → errortools.Error
  | [] => err
  | item :: rest =>
    let err1 :=
      if item.Quantity ≤ 0 then
        errortools.AddValidationError err (item.VariantID ++ "." ++ consts.OrderQuantity)
          errortools.Invalid [consts.OrderQuantity]
      else err
    let err2 :=
      if item.Price ≤ 0 then
        errortools.AddValidationError err1 (item.VariantID ++ "." ++ consts.OrderPrice)
          errortools.Invalid [consts.OrderPrice]
      else err1
    validateItems err2 rest

/-- The value of `validationErr` when `validateOrderData` reaches its test
`!validationErr.Nil()`. -/
def buildValidationErr (order : Order) : errortools.Error :=
  let err0 := errortools.Init
  let err1 :=
    if order.Items.length = 0 then
      errortools.AddValidationError err0 consts.OrderItems errortools.Required
        [consts.OrderItems]
    else err0
  let err2 :=
    if order.Total ≤ 0 then
      errortools.AddValidationError err1 consts.OrderTotal errortools.Invalid
        [consts.OrderTotal]
    else err1
  validateItems err2 order.Items

/-- `validateOrderData`: the validation error, or nothing (`nil`) when no rule
is violated. -/
def validateOrderData (order : Order) : Option errortools.Error :=
  if !errortools.Nil (buildValidationErr order) then some (buildValidationErr order) else none

/-- What a call of the `CreateOrder` use case leaves behind: its results (the
identifier is empty whenever the error is set), the store, and the run of
`CreateOrderTransaction` if the repository was invoked. -/
structure CreateOrderOutcome where
  result : Except AppError String
  store : Store
  repoCall : Option TxOutcome

namespace usecases

/-- The use case `CreateOrder`. -/
def CreateOrder (ext : Ext) (s : TxScript) (db : Store) (order : Order) : CreateOrderOutcome :=
  match validateOrderData order with
  | some verr => ⟨.error (.typed verr), db, none⟩
  | none =>
    let out := CreateOrderTransaction ext s db order
    match out.result with
    | .error e => ⟨.error (.plain (.wrapf "could not create order" e)), out.store, some out⟩
    | .ok orderID => ⟨.ok orderID, out.store, some out⟩

/-- The use case `GetOrderByID`; `utils.ValidateUUID` is `uuid.Parse` without
an error. -/
def GetOrderByID (ext : Ext) (f : FetchScript) (db : Store) (orderID : String) :
    Except AppError Order :=
  if (ext.uuidParse orderID).isNone then
    .error (.typed (errortools.AddValidationError errortools.Init consts.OrderID
      errortools.InvalidUUID [consts.OrderID]))
  else
    match FetchOrderWithDetails ext f db orderID with
    | .error e => .error (.plain (.wrapf "could not fetch order" e))
    | .ok order => .ok order

end usecases

/-! ## `utils/response.go` -/

/-- `utils.APIResponse`, with the type of the values of `Data` as a parameter. -/
structure APIResponse (α : Type) where
  Status : String := ""
  Message : String := ""
  Data : List (String × α) := []
  Error : Option errortools.Error := none
  deriving DecidableEq, Repr

/-- `utils.SuccessGenerator` for a value that is not `nil`. -/
def SuccessGenerator {α : Type} (data : α) (key msg : String) : APIResponse α :=
  { Status := "success", Message := msg, Data := [(key, data)] }

/-- `utils.ErrorGenerator`: the status code and the body it hands to
`ctx.AbortWithStatusJSON` (`α` is the type of the values of `Data`, of which
an error body has none). -/
def ErrorGenerator (α : Type) (err : AppError) : Nat × APIResponse α :=
  match err with
  | .typed srvErr =>
    let code := errortools.HTTPCode srvErr.Code
    let code := if code = 0 then 400 else code
    (code, { Status := "failure", Error := some srvErr })
  | .plain e =>
    (500, { Status := "failure",
            Error := some (errortools.New "internal_error"
              [errortools.Option.WithDetail e.Error]) })

/-! ## `internal/controllers/order.go` -/

/-- What a handler leaves behind: the status code and body of the response,
and the store. -/
structure HttpOutcome (α : Type) where
  status : Nat
  body : APIResponse α
  store : Store

namespace controllers

/-- The handler `CreateOrder`, from the point where `BindJSON` has filled
`orderRequest`. -/
def CreateOrder (ext : Ext) (s : TxScript) (db : Store) (orderRequest : Order) :
    HttpOutcome Order :=
  let out := usecases.CreateOrder ext s db orderRequest
  match out.result with
  | .error err => ⟨(ErrorGenerator Order err).1, (ErrorGenerator Order err).2, out.store⟩
  | .ok orderID =>
    let orderRequest := { orderRequest with ID := orderID, Status := OrderStatusAccepted }
    ⟨201, SuccessGenerator orderRequest consts.Order consts.OrderCreateSuccess, out.store⟩

/-- The handler `GetOrderByID`. -/
def GetOrderByID (ext : Ext) (f : FetchScript) (db : Store) (orderID : String) :
    HttpOutcome Order :=
  match usecases.GetOrderByID ext f db orderID with
  | .error err => ⟨(ErrorGenerator Order err).1, (ErrorGenerator Order err).2, db⟩
  | .ok order => ⟨200, SuccessGenerator order consts.Order consts.OrderFetchSuccess, db⟩

end controllers

/-! ## Pagination (`utils/utils.go`, `entities.MetaData`) -/

/-- The value of a Go `int` (64 bits, two's complement) that an arithmetic
result wraps to. -/
def wrap64 (x : Int) : Int := (x + 2 ^ 63) % 2 ^ 64 - 2 ^ 63

/-- `entities.MetaData`. -/
structure MetaData where
  Total : Int
  PerPage : Int
  CurrentPage : Int
  Next : Int := 0
  Prev : Int := 0
  deriving DecidableEq, Repr

/-- `utils.Paginate`. -/
def Paginate (page limit defaultLimit : Int) : Int × Int :=
  let page := if page ≤ 0 then consts.DefaultPage else page
  let limit :=
    if (limit ≤ 0 ∨ limit > consts.MaxLimit) ∧ defaultLimit > 0 then defaultLimit
    else if limit ≤ 0 then consts.DefaultLimit
    else limit
  (page, limit)

/-- `utils.MetaDataInfo`; `nil` is `none`. The product and the two sums are
computed in `int`. -/
def MetaDataInfo (metaData : MetaData) : Option MetaData :=
  if metaData.Total < 1 then none
  else
    let m1 :=
      if wrap64 (metaData.CurrentPage * metaData.PerPage) < metaData.Total then
        { metaData with Next := wrap64 (metaData.CurrentPage + 1) }
      else metaData
    let m2 :=
      if m1.CurrentPage > 1 then { m1 with Prev := wrap64 (m1.CurrentPage - 1) }
      else m1
    some m2

/-! ## `FetchOrdersWithDetails` and the use case `GetAllOrders` -/

/-- What the store decides during one call of `FetchOrdersWithDetails`: which of
the three queries fail, how `ILIKE` matches a product name against
`'%' || $1 || '%'`, and in which order the query without `ORDER BY` returns its
groups. -/
structure ListScript where
  countErr : Option GoError := none
  ordersQueryErr : Option GoError := none
  itemsQueryErr : Option GoError := none
  ilike : String → String → Bool
  arrange : List OrderRow → List OrderRow := fun l => l

/-- The `WHERE` clause on the joins `orders` to `order_items` to
`product_variant_mapping` to `products`: some join row of the order has a
product whose name matches. An order without such a join row has `p.name`
null and does not match. -/
def matchesSearch (s : ListScript) (db : Store) (searchQuery : String) (o : OrderRow) : Bool :=
  db.orderItems.any fun oi =>
    decide (o.ID = oi.OrderID) && db.mapping.any fun pvm =>
      decide (oi.VariantID = pvm.VariantID) && db.products.any fun p =>
        decide (pvm.ProductID = p.ID) && s.ilike p.Name searchQuery

/-- The rows of `orders` that survive the filter; without a search text there is
no `WHERE` clause. -/
def matchingOrders (s : ListScript) (db : Store) (searchQuery : String) : List OrderRow :=
  if searchQuery ≠ "" then db.orders.filter (matchesSearch s db searchQuery) else db.orders

/-- `GROUP BY o.id`: one row per identifier not seen before. -/
def groupByID (seen : List String) : List OrderRow → List OrderRow
  | [] => []
  | o :: rest =>
    if o.ID ∈ seen then groupByID seen rest else o :: groupByID (o.ID :: seen) rest

/-- The rows of the items query of `FetchOrdersWithDetails`
(`WHERE oi.order_id = ANY($1)`), each with its `order_id`. -/
def itemsOfOrders (db : Store) (orderIDs : List String) : List (String × OrderItem) :=
  (db.orderItems.filter (fun oi => decide (oi.OrderID ∈ orderIDs))).flatMap fun oi =>
    (enrich db oi).map fun item => (oi.OrderID, item)

/-- The loop that hands each item row to `orderMap[orderID]`. The map holds, for
an identifier, the last order of the page that carries it, so an order followed
by another one with the same identifier receives nothing. -/
def assignItems (rows : List (String × OrderItem)) : List OrderRow → List Order
  | [] => []
  | o :: rest =>
    { ID := o.ID, Status := o.Status, Total := o.Total,
      Items :=
        if rest.any (fun r => decide (r.ID = o.ID)) then []
        else (rows.filter (fun r => decide (r.1 = o.ID))).map (fun r => r.2) } ::
      assignItems rows rest

/-- `FetchOrdersWithDetails`. PostgreSQL rejects a negative `LIMIT` or
`OFFSET`. -/
def FetchOrdersWithDetails (s : ListScript) (db : Store) (searchQuery : String)
    (limit offset : Int) : Except GoError (List Order × Int) :=
  let groups := groupByID [] (matchingOrders s db searchQuery)
  match s.countErr with
  | some e => .error (.wrapf "could not fetch total record count" e)
  | none =>
    let totalRecords : Int := groups.length
    match s.ordersQueryErr with
    | some e => .error (.wrapf "could not fetch orders" e)
    | none =>
      if limit < 0 then
        .error (.wrapf "could not fetch orders" (.lib "LIMIT must not be negative"))
      else if offset < 0 then
        .error (.wrapf "could not fetch orders" (.lib "OFFSET must not be negative"))
      else
        let page := ((s.arrange groups).drop offset.toNat).take limit.toNat
        if page.length = 0 then .ok ([], totalRecords)
        else
          match s.itemsQueryErr with
          | some e => .error (.wrapf "could not fetch order items" e)
          | none =>
            .ok (assignItems (itemsOfOrders db (page.map (fun o => o.ID))) page, totalRecords)

namespace usecases

/-- The use case `GetAllOrders`; its parameter `offset` is the page number the
handler read. The offset handed to the repository is computed in `int`. -/
def GetAllOrders (s : ListScript) (db : Store) (searchQuery : String) (limit offset : Int) :
    Except AppError (List Order × Option MetaData) :=
  let page := (Paginate offset limit consts.DefaultLimit).1
  let limit := (Paginate offset limit consts.DefaultLimit).2
  let offset := wrap64 ((page - 1) * limit)
  match FetchOrdersWithDetails s db searchQuery limit offset with
  | .error e => .error (.plain (.wrapf "could not fetch orders" e))
  | .ok (orders, total) =>
    .ok (orders, MetaDataInfo { Total := total, PerPage := limit, CurrentPage := page })

end usecases

/-- A stand-in for `ILIKE` in the examples: the search text occurs in the name,
letter case included. -/
def containsText (name searchQuery : String) : Bool :=
  decide (searchQuery.data <:+: name.data)

/-- A listing in which nothing fails and the groups come in table order. -/
def quietList : ListScript := { ilike := containsText }

/-- Identifier of a second order in the examples. -/
def orderTwo : String := "22222222-2222-4222-8222-222222222222"

/-- A store with two orders on the mapped catalog: the first with a line for
each variant, the second without lines. -/
def shopAB : Store :=
  { catalogAB with
    orders := [⟨orderOne, "Accepted", 25⟩, ⟨orderTwo, "Accepted", 7⟩],
    orderItems := [⟨orderOne, variantA, 2, 10⟩, ⟨orderOne, variantB, 1, 5⟩] }

/-! ## The statements of the two batched writes -/

/-- An argument handed to `database/sql` with a statement. -/
inductive SqlArg where
  /-- a Go `string` -/
  | text (s : String)
  /-- a `uuid.UUID`, by its canonical text -/
  | uuid (u : String)
  /-- a Go `int` -/
  | int (n : Int)
  /-- a Go `float64` -/
  | float (r : Rat)
  deriving DecidableEq, Repr

/-- A call of `tx.ExecContext(ctx, query, args...)`. -/
structure Statement where
  query : String
  args : List SqlArg
  deriving DecidableEq, Repr

/-- `fmt.Sprintf("($%d, $%d, $%d, $%d)", i*4+1, i*4+2, i*4+3, i*4+4)`. -/
def itemPlaceholders (i : Nat) : String :=
  "($" ++ toString (i * 4 + 1) ++ ", $" ++ toString (i * 4 + 2) ++ ", $" ++
    toString (i * 4 + 3) ++ ", $" ++ toString (i * 4 + 4) ++ ")"

/-- The loop of `InsertOrderItemsBatch` from index `i` on: the value strings and
the arguments it appends. -/
def insertItemsLoop (orderID : String) : Nat → List OrderItem → List String × List SqlArg
  | _, [] => ([], [])
  | i, item :: rest =>
    (itemPlaceholders i :: (insertItemsLoop orderID (i + 1) rest).1,
      [.text orderID, .text item.VariantID, .int item.Quantity, .float item.Price] ++
        (insertItemsLoop orderID (i + 1) rest).2)

/-- The statements `InsertOrderItemsBatch` hands to `tx.ExecContext`: none for
an empty list, otherwise the one batched insert. -/
def insertItemsStatements (orderID : String) (items : List OrderItem) : List Statement :=
  if items.length = 0 then []
  else
    [{ query :=
        "\n        INSERT INTO order_items (order_id, variant_id, quantity, price)\n        VALUES "
          ++ ", ".intercalate (insertItemsLoop orderID 0 items).1,
       args := (insertItemsLoop orderID 0 items).2 }]

/-- `fmt.Sprintf("($%d::uuid, $%d::integer)", i*2+1, i*2+2)`. -/
def inventoryPlaceholders (i : Nat) : String :=
  "($" ++ toString (i * 2 + 1) ++ "::uuid, $" ++ toString (i * 2 + 2) ++ "::integer)"

/-- The loop of `UpdateInventoryBatch` from index `i` on: the value strings and
the arguments it appends, or the error of the first identifier that does not
parse. -/
def updateInventoryLoop (ext : Ext) :
    Nat → List OrderItem → Except GoError (List String × List SqlArg)
  | _, [] => .ok ([], [])
  | i, item :: rest =>
    match ext.uuidParse item.VariantID with
    | none => .error (.wrapf "invalid variant ID format" (.lib "invalid UUID"))
    | some parsedID =>
      match updateInventoryLoop ext (i + 1) rest with
      | .error e => .error e
      | .ok r =>
        .ok (inventoryPlaceholders i :: r.1, [.uuid parsedID, .int item.Quantity] ++ r.2)

/-- The statements `UpdateInventoryBatch` hands to `tx.ExecContext`: none for an
empty list or when an identifier does not parse, otherwise the one batched
update. -/
def updateInventoryStatements (ext : Ext) (items : List OrderItem) :
    Except GoError (List Statement) :=
  if items.length = 0 then .ok []
  else
    match updateInventoryLoop ext 0 items with
    | .error e => .error e
    | .ok r =>
      .ok [{ query :=
              "\n        UPDATE variants\n        SET quantity = variants.quantity - tmp.quantity\n        FROM (VALUES "
                ++ ", ".intercalate r.1 ++
                ") AS tmp(variant_id, quantity)\n              WHERE variants.id = tmp.variant_id AND variants.quantity >= tmp.quantity",
             args := r.2 }]

/-- The offset the use case `GetAllOrders` hands to `FetchOrdersWithDetails`:
`(page - 1) * limit` on the paginated values, computed in `int`. -/
def pageOffset (limit page : Int) : Int :=
  wrap64 (((Paginate page limit consts.DefaultLimit).1 - 1) *
    (Paginate page limit consts.DefaultLimit).2)

/-- The first example variant's identifier spelled in upper case. -/
def variantAUpper : String := "AAAAAAAA-AAAA-4AAA-8AAA-AAAAAAAAAAAA"

/-- A listing in which nothing fails and the groups come in reverse table
order. -/
def reversedList : ListScript := { ilike := containsText, arrange := List.reverse }

/-- The identifiers of the orders on a page that `FetchOrdersWithDetails`
returned (none when it returned an error). -/
def pageIDs (r : Except GoError (List Order × Int)) : List String :=
  match r with
  | .ok (orders, _) => orders.map (fun o => o.ID)
  | .error _ => []

/-! ## `ApiVersioning` (`internal/middlewares`, `utils.PrepareVersionName`) -/

/-- `utils.PrepareVersionName`: `strings.ReplaceAll(version, ".", "_")`. -/
def PrepareVersionName (version : String) : String :=
  String.mk (version.data.map (fun c => if c = '.' then '_' else c))

/-- `strings.ToUpper`, which maps every character through `unicode.ToUpper`
(taken as the parameter `upper`). -/
def ToUpper (upper : Char → Char) (s : String) : String :=
  String.mk (s.data.map upper)

/-- The values `ApiVersioning` has set on the context when it calls `c.Next()`. -/
structure VersionContext where
  acceptedVersion : String
  systemAcceptedVersions : List String
  acceptedVersionIndex : Nat
  deriving DecidableEq, Repr

/-- How `ApiVersioning` leaves a request: aborted with a status and an error
text, panicking because the configuration did not load, or passed on. -/
inductive VersioningResult where
  | abort (status : Nat) (error : String)
  | panicked
  | next (ctx : VersionContext)
  deriving DecidableEq, Repr

/-- The loop of `ApiVersioning` over the accepted versions from `index` on:
the index stored last, if any (`found` holds the one stored so far). -/
def versionLoop (upper : Char → Char) (apiVersion : String) :
    Nat → List String → Option Nat → Option Nat
  | _, [], found => found
  | index, version :: rest, found =>
    if ToUpper upper version = apiVersion then
      versionLoop upper apiVersion (index + 1) rest (some index)
    else versionLoop upper apiVersion (index + 1) rest found

/-- `ApiVersioning`, for the URL parameter `version` and the accepted versions
that `config.LoadConfig` yields (`none` when it returns an error). -/
def ApiVersioning (upper : Char → Char) (cfg : Option (List String)) (version : String) :
    VersioningResult :=
  if version = "" then .abort 400 "Missing version parameter"
  else
    let apiVersion := ToUpper upper (PrepareVersionName version)
    match cfg with
    | none => .panicked
    | some systemAcceptedVersionsList =>
      match versionLoop upper apiVersion 0 systemAcceptedVersionsList none with
      | none => .abort 400 "Given version is not supported by the system"
      | some index => .next ⟨apiVersion, systemAcceptedVersionsList, index⟩

/-- Upper case of the ASCII letters, for the examples. -/
def asciiUpper (c : Char) : Char :=
  match c with
  | 'a' => 'A'
  | 'b' => 'B'
  | 'c' => 'C'
  | 'd' => 'D'
  | 'e' => 'E'
  | 'f' => 'F'
  | 'g' => 'G'
  | 'h' => 'H'
  | 'i' => 'I'
  | 'j' => 'J'
  | 'k' => 'K'
  | 'l' => 'L'
  | 'm' => 'M'
  | 'n' => 'N'
  | 'o' => 'O'
  | 'p' => 'P'
  | 'q' => 'Q'
  | 'r' => 'R'
  | 's' => 'S'
  | 't' => 'T'
  | 'u' => 'U'
  | 'v' => 'V'
  | 'w' => 'W'
  | 'x' => 'X'
  | 'y' => 'Y'
  | 'z' => 'Z'
  | other => other

/-! ## The other write operations of the repository -/

/-- `UpdateVariant`: the columns of the active variant with the given identifier
are overwritten with the caller's values, `quantity` among them. -/
def UpdateVariant (ext : Ext) (execErr : Option GoError) (db : Store) (variant : VariantRow) :
    Except GoError Store :=
  match execErr with
  | some e => .error (.wrapf "could not update variant" e)
  | none =>
    match ext.pgUuid variant.ID with
    | none => .error (.wrapf "could not update variant" (.lib "invalid input syntax for type uuid"))
    | some id =>
      .ok { db with
        variants := db.variants.map fun v =>
          if v.ID = id ∧ v.IsActive = true then
            { v with Name := variant.Name, MRP := variant.MRP, Quantity := variant.Quantity }
          else v }

/-- `DeleteVariant`: the active variant with the given identifier is marked
inactive. -/
def DeleteVariant (ext : Ext) (execErr : Option GoError) (db : Store) (variantID : String) :
    Except GoError Store :=
  match execErr with
  | some e => .error (.wrapf "could not delete variant" e)
  | none =>
    match ext.pgUuid variantID with
    | none => .error (.wrapf "could not delete variant" (.lib "invalid input syntax for type uuid"))
    | some id =>
      .ok { db with
        variants := db.variants.map fun v =>
          if v.ID = id ∧ v.IsActive = true then { v with IsActive := false } else v }

/-- `InsertVariant`: a new active row with the identifier the store assigns. -/
def InsertVariant (queryErr : Option GoError) (newID : String) (db : Store)
    (variant : VariantRow) : Except GoError (String × Store) :=
  match queryErr with
  | some e => .error (.wrapf "could not insert variant" e)
  | none =>
    .ok (newID,
      { db with
        variants := db.variants ++ [⟨newID, variant.Name, variant.MRP, variant.Quantity, true⟩] })

/-- `InsertProduct`, as one transaction: a row in `products` and, for a
non-empty `ChildVariants`, one row in `product_variant_mapping` per element. -/
def InsertProduct (ext : Ext) (fault : Option GoError) (newID : String) (db : Store)
    (name : String) (childVariants : List String) : Except GoError (String × Store) :=
  match fault with
  | some e => .error (.wrapf "could not insert product" e)
  | none =>
    match castAll ext.pgUuid childVariants with
    | none =>
      .error (.wrapf "could not insert product-variant mappings"
        (.lib "invalid input syntax for type uuid"))
    | some ids =>
      .ok (newID,
        { db with
          products := db.products ++ [⟨newID, name⟩],
          mapping := db.mapping ++ ids.map (fun vid => ⟨newID, vid⟩) })

/-- `UpdateProduct`, as one transaction: the name of the product is
overwritten and, for a non-empty `ChildVariants`, its rows in
`product_variant_mapping` are replaced. -/
def UpdateProduct (ext : Ext) (fault : Option GoError) (db : Store) (productID name : String)
    (childVariants : List String) : Except GoError Store :=
  match fault with
  | some e => .error (.wrapf "could not update product" e)
  | none =>
    match ext.pgUuid productID, castAll ext.pgUuid childVariants with
    | some id, some ids =>
      .ok { db with
        products := db.products.map (fun p => if p.ID = id then { p with Name := name } else p),
        mapping :=
          if childVariants.length > 0 then
            db.mapping.filter (fun m => !decide (m.ProductID = id)) ++
              ids.map (fun vid => ⟨id, vid⟩)
          else db.mapping }
    | _, _ => .error (.wrapf "could not update product" (.lib "invalid input syntax for type uuid"))

/-- The operations of `EcommerceRepoImply`. The operations on categories write
`categories`, `category_mapping` and `product_category_mapping`, and
`DeleteProduct` writes `products.is_active`; none of these is among the tables
and columns of `Store`. `query` stands for the seventeen operations that issue
`SELECT` statements only (`GetCategoryDetails`, `FetchCategories`,
`ValidateChildCategories`, `CheckCategoryIsActive`, `GetProductDetails`,
`FetchProducts`, `ValidateProducts`, `HasActiveProducts`, `CheckProductIsActive`,
`GetVariantByID`, `FetchVariants`, `ValidateVariants`, `HasVariants`,
`CheckVariantIsActive`, `CheckInventoryAvailability`, `FetchOrderWithDetails`,
`FetchOrdersWithDetails`). -/
inductive RepoOp where
  | InsertCategory
  | UpdateCategory
  | DeleteCategory
  | InsertProduct (newID name : String) (childVariants : List String)
  | UpdateProduct (productID name : String) (childVariants : List String)
  | DeleteProduct (productID : String)
  | InsertVariant (newID : String) (variant : VariantRow)
  | UpdateVariant (variant : VariantRow)
  | DeleteVariant (variantID : String)
  | UpdateInventoryBatch (items : List OrderItem)
  | CreateOrderTransaction (order : Order)
  | InsertOrder (order : Order)
  | InsertOrderItemsBatch (orderID : String) (items : List OrderItem)
  | query

/-- The store after an operation of the repository (for the operations that
take a `*sql.Tx`, the working copy after it); an operation that returns an
error leaves it as it was. `fault` is the failure, if any, of the operations
that have no script of their own. -/
def RepoOp.run (ext : Ext) (s : TxScript) (fault : Option GoError) (db : Store) :
    RepoOp → Store
  | .InsertCategory => db
  | .UpdateCategory => db
  | .DeleteCategory => db
  | .InsertProduct newID name childVariants =>
    match Ecommerce.InsertProduct ext fault newID db name childVariants with
    | .ok r => r.2
    | .error _ => db
  | .UpdateProduct productID name childVariants =>
    match Ecommerce.UpdateProduct ext fault db productID name childVariants with
    | .ok db1 => db1
    | .error _ => db
  | .DeleteProduct _ => db
  | .InsertVariant newID variant =>
    match Ecommerce.InsertVariant fault newID db variant with
    | .ok r => r.2
    | .error _ => db
  | .UpdateVariant variant =>
    match Ecommerce.UpdateVariant ext fault db variant with
    | .ok db1 => db1
    | .error _ => db
  | .DeleteVariant variantID =>
    match Ecommerce.DeleteVariant ext fault db variantID with
    | .ok db1 => db1
    | .error _ => db
  | .UpdateInventoryBatch items => afterUpdate ext s db items
  | .CreateOrderTransaction order => (Ecommerce.CreateOrderTransaction ext s db order).store
  | .InsertOrder order =>
    match Ecommerce.InsertOrder s db order with
    | .ok r => r.2
    | .error _ => db
  | .InsertOrderItemsBatch orderID items =>
    match Ecommerce.InsertOrderItemsBatch ext s db orderID items with
    | .ok db1 => db1
    | .error _ => db
  | .query => db

/-- The operations whose statements assign to `variants.quantity` of existing
rows: `UpdateVariant`, `UpdateInventoryBatch`, and `CreateOrderTransaction`,
which calls `UpdateInventoryBatch`. -/
def RepoOp.writesQuantity : RepoOp → Bool
  | .UpdateVariant _ => true
  | .UpdateInventoryBatch _ => true
  | .CreateOrderTransaction _ => true
  | _ => false

/-- The ledger as a list of identifier and remaining quantity. -/
def quantities (db : Store) : List (String × Int) :=
  db.variants.map (fun v => (v.ID, v.Quantity))

/-! ## Reading a validation error -/

/-- The records a validation error holds under a key (`ValidationFails[key]`). -/
def recordsAt (e : errortools.Error) (key : String) : List errortools.errRecord :=
  ((e.ValidationFails.find? (fun kv => decide (kv.1 = key))).map (fun kv => kv.2)).getD []

/-- The number of records a validation error holds, over all keys. -/
def recordCount (e : errortools.Error) : Nat :=
  (e.ValidationFails.map (fun kv => kv.2.length)).sum

/-- The number of rules of `validateOrderData` that an order violates: no item,
a total `<= 0`, and per item a quantity `<= 0` and a price `<= 0`. -/
def violations (order : Order) : Nat :=
  (if order.Items = [] then 1 else 0) + (if order.Total ≤ 0 then 1 else 0) +
    (order.Items.map (fun item =>
      (if item.Quantity ≤ 0 then 1 else 0) + (if item.Price ≤ 0 then 1 else 0))).sum

/-- The record `AddValidationError` builds for a code and one argument. -/
def recordOf (code arg : String) : errortools.errRecord :=
  ⟨code, errortools.Sprintf (errortools.Name code) [arg]⟩

/-- The records one item contributes under the key `k`. -/
def itemRecordsAt (k : String) (item : OrderItem) : List errortools.errRecord :=
  (if item.Quantity ≤ 0 ∧ k = item.VariantID ++ "." ++ consts.OrderQuantity then
      [recordOf errortools.Invalid consts.OrderQuantity] else []) ++
    (if item.Price ≤ 0 ∧ k = item.VariantID ++ "." ++ consts.OrderPrice then
      [recordOf errortools.Invalid consts.OrderPrice] else [])

/-- The sum over the items of quantity times price, which the core never
computes; it appears in statements only. -/
def lineSum (items : List OrderItem) : Rat :=
  (items.map (fun item => (item.Quantity : Rat) * item.Price)).sum

/-- The one-line basket of 2 units at 10 with a supplied total of 999. -/
def basketMismatch : Order :=
  { Items := [{ VariantID := variantA, Quantity := 2, Price := 10 }], Total := 999 }

/-- A read in which only the query for the order header fails. -/
def headerQueryFaultFetch : FetchScript :=
  { orderQueryErr := some (.lib "connection reset by peer") }

/-- The error of the use case `CreateOrder` for a batched update that failed
with a deadlock. -/
def deadlockFault : GoError :=
  .wrapf "could not create order"
    (.wrapf "could not batch update inventory" (.lib "pq: deadlock detected"))

/-- The error of the use case `CreateOrder` for a batched update that failed
because the connection was refused. -/
def refusedFault : GoError :=
  .wrapf "could not create order"
    (.wrapf "could not batch update inventory"
      (.lib "dial tcp 10.0.0.5:5432: connect: connection refused"))

/-- The states of the error under construction: untouched, or carrying the
validation code. -/
def validationState (e : errortools.Error) : Prop :=
  (e.Code = "" ∧ e.ValidationFails = []) ∨ e.Code = errortools.ValidationFailure

/-- An order that breaks four rules: total 0, a line with quantity 0, and a
line of the same variant with quantity -1 and price 0. -/
def orderFourViolations : Order :=
  { Items := [{ VariantID := variantA, Quantity := 0, Price := 10 },
              { VariantID := variantA, Quantity := -1, Price := 0 }],
    Total := 0 }

/-- Two lines of the first variant: 5 units, more than the 3 in stock on the
two-variant ledger, and 2 units, which are in stock. -/
def itemsOverAndFit : List OrderItem :=
  [{ VariantID := variantA, Quantity := 5, Price := 10 },
   { VariantID := variantA, Quantity := 2, Price := 10 }]

end Ecommerce

namespace Ecommerce

/-! ## Lemmas about the availability check -/

theorem foldl_inventory_some (rows : List (String × Int)) (m : String → Option Int)
    (k : String) (q : Int)
    (h : rows.foldl (fun m r => fun k => if k = r.1 then some r.2 else m k) m k = some q) :
    (k, q) ∈ rows ∨ m k = some q := by
  induction rows generalizing m with
  | nil => exact Or.inr h
  | cons r rest ih =>
    rw [List.foldl_cons] at h
    rcases ih _ h with h1 | h1
    · exact Or.inl (List.mem_cons_of_mem _ h1)
    · by_cases hk : k = r.1
      · simp only [hk, if_true] at h1
        left
        have : (k, q) = r := by
          cases r with
          | mk a b =>
            simp only [Option.some.injEq] at h1
            simp only at hk
            rw [hk, h1]
        rw [this]
        exact List.mem_cons_self _ _
      · simp only [hk, if_false] at h1
        exact Or.inr h1

theorem buildInventory_some (rows : List (String × Int)) (k : String) (q : Int)
    (h : buildInventory rows k = some q) : (k, q) ∈ rows := by
  rcases foldl_inventory_some rows (fun _ => none) k q h with h1 | h1
  · exact h1
  · exact absurd h1 (by simp)

theorem foldl_inventory_absent (rows : List (String × Int)) (m : String → Option Int)
    (k : String) (h : k ∉ rows.map Prod.fst) :
    rows.foldl (fun m r => fun k => if k = r.1 then some r.2 else m k) m k = m k := by
  induction rows generalizing m with
  | nil => rfl
  | cons r rest ih =>
    rw [List.foldl_cons]
    simp only [List.map_cons, List.mem_cons, not_or] at h
    rw [ih _ h.2]
    simp only [h.1, if_false]

theorem foldl_inventory_nodup (rows : List (String × Int)) (m : String → Option Int)
    (k : String) (q : Int) (hn : (rows.map Prod.fst).Nodup) (hm : (k, q) ∈ rows) :
    rows.foldl (fun m r => fun k => if k = r.1 then some r.2 else m k) m k = some q := by
  induction rows generalizing m with
  | nil => exact absurd hm (List.not_mem_nil _)
  | cons r rest ih =>
    rw [List.foldl_cons]
    simp only [List.map_cons, List.nodup_cons] at hn
    rcases List.mem_cons.mp hm with h1 | h1
    · subst h1
      rw [foldl_inventory_absent rest _ k hn.1]
      simp
    · exact ih _ hn.2 h1

theorem buildInventory_nodup (rows : List (String × Int)) (k : String) (q : Int)
    (hn : (rows.map Prod.fst).Nodup) (hm : (k, q) ∈ rows) :
    buildInventory rows k = some q :=
  foldl_inventory_nodup rows _ k q hn hm

theorem checkLines_iff (inv : String → Option Int) (items : List OrderItem) :
    checkLines inv items = true ↔
      ∀ item ∈ items, ∃ q, inv item.VariantID = some q ∧ item.Quantity ≤ q := by
  induction items with
  | nil => simp [checkLines]
  | cons item rest ih =>
    unfold checkLines
    cases hq : inv item.VariantID with
    | none => simp [hq]
    | some qty =>
      by_cases hlt : qty < item.Quantity
      · simp only [hlt, if_true, List.mem_cons, forall_eq_or_imp, hq, Option.some.injEq,
          exists_eq_left', Bool.false_eq_true, false_iff, not_and]
        intro h
        exact absurd h (not_le.mpr hlt)
      · simp only [hlt, if_false, List.mem_cons, forall_eq_or_imp, hq, Option.some.injEq,
          exists_eq_left', ih]
        constructor
        · intro h
          exact ⟨not_lt.mp hlt, h⟩
        · intro h
          exact h.2

theorem mem_selectInventory (ids : List String) (vs : List VariantRow) (k : String) (q : Int) :
    (k, q) ∈ selectInventory ids vs ↔ ∃ v ∈ vs, v.ID ∈ ids ∧ v.ID = k ∧ v.Quantity = q := by
  unfold selectInventory
  simp only [List.mem_map, List.mem_filter, decide_eq_true_eq, Prod.mk.injEq]
  constructor
  · rintro ⟨v, ⟨hv, hi⟩, hk, hq⟩
    exact ⟨v, hv, hi, hk, hq⟩
  · rintro ⟨v, hv, hi, hk, hq⟩
    exact ⟨v, ⟨hv, hi⟩, hk, hq⟩

theorem selectInventory_keys_nodup (ids : List String) (vs : List VariantRow)
    (hn : (vs.map (fun v => v.ID)).Nodup) :
    ((selectInventory ids vs).map Prod.fst).Nodup := by
  unfold selectInventory
  rw [List.map_map]
  have : (Prod.fst ∘ fun v : VariantRow => (v.ID, v.Quantity)) = fun v => v.ID := rfl
  rw [this]
  exact (List.Nodup.sublist ((List.filter_sublist _).map _) hn)

/-- A verdict of `true` means that every line names a row of the ledger, by the
text of its identifier, that holds at least the requested quantity. -/
theorem verdict_true_sound (ids : List String) (vs : List VariantRow) (items : List OrderItem)
    (h : availabilityVerdict (selectInventory ids vs) items = true) :
    ∀ item ∈ items, ∃ v ∈ vs, v.ID = item.VariantID ∧ item.Quantity ≤ v.Quantity := by
  intro item hi
  obtain ⟨q, hq, hle⟩ := (checkLines_iff _ _).mp h item hi
  obtain ⟨v, hv, _, hk, hvq⟩ := (mem_selectInventory _ _ _ _).mp (buildInventory_some _ _ _ hq)
  exact ⟨v, hv, hk, by rw [hvq]; exact hle⟩

/-! ## Lemmas about the conditional decrement -/

/-- The batched update leaves a row alone or subtracts the quantity of one
argument tuple that carries the row's identifier and does not exceed its
remaining quantity. -/
theorem applyDecrement_cases (pick : String → Nat) (tmp : List (String × Int)) (v : VariantRow) :
    (applyDecrement pick tmp v = v ∧ joinRows tmp v = []) ∨
      ∃ t ∈ tmp, t.1 = v.ID ∧ t.2 ≤ v.Quantity ∧
        applyDecrement pick tmp v = { v with Quantity := v.Quantity - t.2 } := by
  unfold applyDecrement
  cases hj : joinRows tmp v with
  | nil => left; simp
  | cons j js =>
    right
    have hlt : pick v.ID % (j :: js).length < (j :: js).length :=
      Nat.mod_lt _ (by simp)
    obtain ⟨t, ht⟩ : ∃ t, (j :: js).get? (pick v.ID % (j :: js).length) = some t :=
      ⟨_, List.get?_eq_get hlt⟩
    have hmem : t ∈ joinRows tmp v := by
      rw [hj]
      exact List.get?_mem ht
    unfold joinRows at hmem
    simp only [List.mem_filter, Bool.and_eq_true, decide_eq_true_eq, ge_iff_le] at hmem
    refine ⟨t, hmem.1, hmem.2.1.symm, hmem.2.2, ?_⟩
    simp only [ht]

theorem batchArgs_mem (ext : Ext) (items : List OrderItem) (args : List (String × Int))
    (h : batchArgs ext items = .ok args) :
    ∀ t ∈ args, ∃ item ∈ items,
      ext.uuidParse item.VariantID = some t.1 ∧ item.Quantity = t.2 := by
  induction items generalizing args with
  | nil =>
    simp only [batchArgs, Except.ok.injEq] at h
    subst h
    intro t ht
    exact absurd ht (List.not_mem_nil _)
  | cons item rest ih =>
    unfold batchArgs at h
    cases hp : ext.uuidParse item.VariantID with
    | none => simp [hp] at h
    | some parsedID =>
      simp only [hp] at h
      cases hr : batchArgs ext rest with
      | error e => simp [hr] at h
      | ok args1 =>
        simp only [hr, Except.ok.injEq] at h
        subst h
        intro t ht
        rcases List.mem_cons.mp ht with h1 | h1
        · subst h1
          exact ⟨item, List.mem_cons_self _ _, hp, rfl⟩
        · obtain ⟨it, hit, h2⟩ := ih args1 hr t h1
          exact ⟨it, List.mem_cons_of_mem _ hit, h2⟩

/-- What `UpdateInventoryBatch` leaves in the working copy: the ledger as it
was, or every row mapped through the batched update with the parsed
arguments. -/
theorem afterUpdate_variants (ext : Ext) (s : TxScript) (tx : Store) (items : List OrderItem) :
    (afterUpdate ext s tx items) = tx ∨
      ∃ args, batchArgs ext items = .ok args ∧
        afterUpdate ext s tx items =
          { tx with variants := tx.variants.map (applyDecrement s.joinPick args) } := by
  unfold afterUpdate UpdateInventoryBatch
  by_cases h0 : items.length = 0
  · left; simp [h0]
  · simp only [h0, if_false]
    cases hb : batchArgs ext items with
    | error e => left; rfl
    | ok args =>
      cases he : s.updateExecErr with
      | some e => left; rfl
      | none => right; exact ⟨args, rfl, rfl⟩

theorem batchArgs_complete (ext : Ext) (items : List OrderItem) (args : List (String × Int))
    (h : batchArgs ext items = .ok args) :
    ∀ item ∈ items, ∃ p, ext.uuidParse item.VariantID = some p ∧ (p, item.Quantity) ∈ args := by
  induction items generalizing args with
  | nil =>
    intro item hi
    exact absurd hi (List.not_mem_nil _)
  | cons it rest ih =>
    unfold batchArgs at h
    cases hp : ext.uuidParse it.VariantID with
    | none => simp [hp] at h
    | some parsedID =>
      simp only [hp] at h
      cases hr : batchArgs ext rest with
      | error e => simp [hr] at h
      | ok args1 =>
        simp only [hr, Except.ok.injEq] at h
        subst h
        intro item hi
        rcases List.mem_cons.mp hi with h1 | h1
        · subst h1
          exact ⟨parsedID, hp, List.mem_cons_self _ _⟩
        · obtain ⟨p, hp1, hm⟩ := ih args1 hr item h1
          exact ⟨p, hp1, List.mem_cons_of_mem _ hm⟩

/-- A row without join rows is one for which the guard of every line naming it
is false. -/
theorem joinRows_nil_guard (ext : Ext) (items : List OrderItem) (args : List (String × Int))
    (h : batchArgs ext items = .ok args) (v : VariantRow) (hj : joinRows args v = []) :
    ∀ item ∈ items, ext.uuidParse item.VariantID = some v.ID → v.Quantity < item.Quantity := by
  intro item hi hp
  obtain ⟨p, hp1, hm⟩ := batchArgs_complete ext items args h item hi
  rw [hp] at hp1
  have hpv : v.ID = p := Option.some.inj hp1
  by_contra hlt
  have : (p, item.Quantity) ∈ joinRows args v := by
    unfold joinRows
    simp only [List.mem_filter, Bool.and_eq_true, decide_eq_true_eq, ge_iff_le]
    exact ⟨hm, hpv, not_lt.mp hlt⟩
  rw [hj] at this
  exact absurd this (List.not_mem_nil _)

theorem applyDecrement_ID (pick : String → Nat) (tmp : List (String × Int)) (v : VariantRow) :
    (applyDecrement pick tmp v).ID = v.ID ∧ (applyDecrement pick tmp v).Name = v.Name := by
  rcases applyDecrement_cases pick tmp v with ⟨h, _⟩ | ⟨t, _, _, _, h⟩ <;> rw [h] <;> simp

/-- The single line that asks for all that remains of a variant brings the
variant to zero. -/
theorem applyDecrement_exact (pick : String → Nat) (v : VariantRow) :
    applyDecrement pick [(v.ID, v.Quantity)] v = { v with Quantity := 0 } := by
  have hj : joinRows [(v.ID, v.Quantity)] v = [(v.ID, v.Quantity)] := by
    simp [joinRows]
  unfold applyDecrement
  simp [hj, Nat.mod_one]

/-! ## Lemmas about a ledger keyed by variant identifier -/

theorem key_unique (vs : List VariantRow) (hkey : (vs.map (fun v => v.ID)).Nodup)
    (u v : VariantRow) (hu : u ∈ vs) (hv : v ∈ vs) (h : u.ID = v.ID) : u = v :=
  List.inj_on_of_nodup_map hkey hu hv h

theorem find_key (vs : List VariantRow) (hkey : (vs.map (fun v => v.ID)).Nodup)
    (v : VariantRow) (hv : v ∈ vs) :
    vs.find? (fun u => decide (u.ID = v.ID)) = some v := by
  induction vs with
  | nil => exact absurd hv (List.not_mem_nil _)
  | cons a rest ih =>
    simp only [List.map_cons, List.nodup_cons] at hkey
    rcases List.mem_cons.mp hv with h1 | h1
    · subst h1
      simp
    · have hne : a.ID ≠ v.ID := by
        intro hEq
        apply hkey.1
        rw [hEq]
        exact List.mem_map_of_mem (fun v => v.ID) h1
      rw [List.find?_cons]
      simp only [hne, decide_False]
      exact ih hkey.2 h1

theorem filter_key (vs : List VariantRow) (hkey : (vs.map (fun v => v.ID)).Nodup)
    (v : VariantRow) (hv : v ∈ vs) :
    vs.filter (fun u => decide (v.ID = u.ID)) = [v] := by
  induction vs with
  | nil => exact absurd hv (List.not_mem_nil _)
  | cons a rest ih =>
    simp only [List.map_cons, List.nodup_cons] at hkey
    rcases List.mem_cons.mp hv with h1 | h1
    · subst h1
      have hrest : rest.filter (fun u => decide (v.ID = u.ID)) = [] := by
        rw [List.filter_eq_nil_iff]
        intro u hu hEq
        simp only [decide_eq_true_eq] at hEq
        apply hkey.1
        rw [hEq]
        exact List.mem_map_of_mem (fun v => v.ID) hu
      simp [List.filter_cons, hrest]
    · have hne : ¬ (v.ID = a.ID) := by
        intro hEq
        apply hkey.1
        rw [← hEq]
        exact List.mem_map_of_mem (fun v => v.ID) h1
      simp only [List.filter_cons, hne, decide_False]
      exact ih hkey.2 h1

/-! ## Lemmas about the coordinator -/

/-- A verdict of `false` ends the run with the insufficient-inventory error and
the store as it was. -/
theorem run_insufficient (ext : Ext) (s : TxScript) (db : Store) (order : Order)
    (hb : s.beginErr = none)
    (hc : CheckInventoryAvailability ext s.checkQueryErr db order.Items = .ok false) :
    (CreateOrderTransaction ext s db order).result =
        .error (.errorf "insufficient inventory for one or more items") ∧
      (CreateOrderTransaction ext s db order).store = db := by
  unfold CreateOrderTransaction
  simp only [hb, hc, deferred]
  cases s.commitErr <;> simp

/-- A successful `UpdateInventoryBatch` maps the rows of `variants` through a
function that keeps identifiers and names, and touches no other table. -/
theorem update_ok_shape (ext : Ext) (s : TxScript) (tx tx1 : Store) (items : List OrderItem)
    (h : UpdateInventoryBatch ext s tx items = .ok tx1) :
    ∃ g : VariantRow → VariantRow, (∀ v, (g v).ID = v.ID) ∧
      tx1 = { tx with variants := tx.variants.map g } := by
  unfold UpdateInventoryBatch at h
  by_cases h0 : items.length = 0
  · simp only [h0, if_true, Except.ok.injEq] at h
    exact ⟨id, fun _ => rfl, by rw [← h]; simp⟩
  · simp only [h0, if_false] at h
    cases hb : batchArgs ext items with
    | error e => simp [hb] at h
    | ok args =>
      simp only [hb] at h
      cases he : s.updateExecErr with
      | some e => simp [he] at h
      | none =>
        simp only [he, Except.ok.injEq] at h
        exact ⟨applyDecrement s.joinPick args, fun v => (applyDecrement_ID _ _ v).1, h.symm⟩

theorem itemRows_eq (ext : Ext) (oid : String) (items : List OrderItem)
    (rows : List OrderItemRow) (h : itemRows ext oid items = some rows)
    (hoid : ext.pgUuid oid = some oid)
    (hitems : ∀ item ∈ items, ext.pgUuid item.VariantID = some item.VariantID) :
    rows = items.map (fun it => ⟨oid, it.VariantID, it.Quantity, it.Price⟩) := by
  induction items generalizing rows with
  | nil =>
    simp only [itemRows, Option.some.injEq] at h
    rw [← h]
    rfl
  | cons it rest ih =>
    unfold itemRows at h
    rw [hoid, hitems it (List.mem_cons_self _ _)] at h
    cases hr : itemRows ext oid rest with
    | none => simp [hr] at h
    | some rows1 =>
      simp only [hr, Option.some.injEq] at h
      rw [← h, ih rows1 hr (fun item hi => hitems item (List.mem_cons_of_mem _ hi))]
      rfl

/-- What a run that returns an identifier leaves in the store when its
`Commit` succeeds. -/
theorem run_ok_store (ext : Ext) (s : TxScript) (db : Store) (order : Order) (oid : String)
    (h : (CreateOrderTransaction ext s db order).result = .ok oid)
    (hcm : s.commitErr = none) :
    oid = s.newOrderID ∧
      CheckInventoryAvailability ext s.checkQueryErr db order.Items = .ok true ∧
      ∃ tx1 rows, UpdateInventoryBatch ext s db order.Items = .ok tx1 ∧
        itemRows ext s.newOrderID order.Items = some rows ∧
        (CreateOrderTransaction ext s db order).store =
          { tx1 with
            orders := tx1.orders ++ [⟨s.newOrderID, OrderStatusAccepted, order.Total⟩],
            orderItems := tx1.orderItems ++ rows } := by
  unfold CreateOrderTransaction at h ⊢
  cases hb : s.beginErr with
  | some e => simp [hb] at h
  | none =>
    simp only [hb] at h ⊢
    cases hc : CheckInventoryAvailability ext s.checkQueryErr db order.Items with
    | error e => simp [hc] at h
    | ok b =>
      cases b with
      | false => simp [hc] at h
      | true =>
        simp only [hc] at h ⊢
        cases hu : UpdateInventoryBatch ext s db order.Items with
        | error e => simp [hu] at h
        | ok tx1 =>
          simp only [hu] at h ⊢
          unfold InsertOrder at h ⊢
          cases hi : s.insertOrderErr with
          | some e => simp [hi] at h
          | none =>
            simp only [hi] at h ⊢
            unfold InsertOrderItemsBatch at h ⊢
            by_cases h0 : order.Items.length = 0
            · simp only [h0, if_true, Except.ok.injEq] at h ⊢
              have hnil : order.Items = [] := List.length_eq_zero.mp h0
              refine ⟨h.symm, trivial, tx1, [], rfl, by rw [hnil]; rfl, ?_⟩
              simp [deferred, hcm]
            · simp only [h0, if_false] at h ⊢
              cases hit : s.insertItemsErr with
              | some e => simp [hit] at h
              | none =>
                simp only [hit] at h ⊢
                cases hr : itemRows ext s.newOrderID order.Items with
                | none => simp [hr] at h
                | some rows =>
                  simp only [hr, Except.ok.injEq] at h ⊢
                  refine ⟨h.symm, trivial, tx1, rows, rfl, rfl, ?_⟩
                  simp [deferred, hcm]

/-- An order line whose variant exists once and is mapped to one product that
exists once is read back as one item with the line's identifier, quantity and
price. -/
theorem enrich_single (st : Store) (oi : OrderItemRow) (w : VariantRow) (m : MappingRow)
    (p : ProductRow)
    (hw : st.variants.filter (fun v => decide (oi.VariantID = v.ID)) = [w])
    (hm : st.mapping.filter (fun pvm => decide (w.ID = pvm.VariantID)) = [m])
    (hp : st.products.filter (fun q => decide (m.ProductID = q.ID)) = [p]) :
    enrich st oi =
      [{ VariantID := oi.VariantID, Quantity := oi.Quantity, Price := oi.Price,
         VariantName := w.Name, ProductName := p.Name }] := by
  unfold enrich
  simp [hw, hm, hp]

/-- A verdict of `true` from `CheckInventoryAvailability` means that every line
names a row of the ledger, by the text of its identifier, that holds at least
the requested quantity. -/
theorem check_true_sound (ext : Ext) (q : Option GoError) (db : Store) (items : List OrderItem)
    (h : CheckInventoryAvailability ext q db items = .ok true) :
    ∀ item ∈ items, ∃ v ∈ db.variants, v.ID = item.VariantID ∧ item.Quantity ≤ v.Quantity := by
  unfold CheckInventoryAvailability at h
  cases hq : q with
  | some e => simp [hq] at h
  | none =>
    simp only [hq] at h
    cases hids : castAll ext.pgUuid (items.map (fun item => item.VariantID)) with
    | none => simp [hids] at h
    | some ids =>
      simp only [hids, Except.ok.injEq] at h
      exact verdict_true_sound ids db.variants items h

theorem enrich_lines (st : Store) (oid : String) (items : List OrderItem)
    (h : ∀ item ∈ items, ∃ w m p,
      st.variants.filter (fun v => decide (item.VariantID = v.ID)) = [w] ∧
      st.mapping.filter (fun pvm => decide (w.ID = pvm.VariantID)) = [m] ∧
      st.products.filter (fun q => decide (m.ProductID = q.ID)) = [p]) :
    (((items.map (fun it => (⟨oid, it.VariantID, it.Quantity, it.Price⟩ : OrderItemRow))).flatMap
      (enrich st)).map lineOf) = items.map lineOf := by
  induction items with
  | nil => rfl
  | cons it rest ih =>
    obtain ⟨w, m, p, hw, hm, hp⟩ := h it (List.mem_cons_self _ _)
    simp only [List.map_cons, List.flatMap_cons, List.map_append]
    rw [ih (fun item hi => h item (List.mem_cons_of_mem _ hi))]
    rw [enrich_single st ⟨oid, it.VariantID, it.Quantity, it.Price⟩ w m p hw hm hp]
    rfl

theorem forall2_map_right {α : Type} (R : α → α → Prop) (f : α → α) (l : List α)
    (h : ∀ a ∈ l, R a (f a)) : List.Forall₂ R l (l.map f) := by
  induction l with
  | nil => exact List.Forall₂.nil
  | cons a rest ih =>
    exact List.Forall₂.cons (h a (List.mem_cons_self _ _))
      (ih (fun b hb => h b (List.mem_cons_of_mem _ hb)))

/-- Row by row, what a batched update that executes does, with the row's
membership in the ledger kept at hand. -/
theorem update_applies_rows (ext : Ext) (s : TxScript) (tx : Store)
    (items : List OrderItem) (args : List (String × Int))
    (hargs : batchArgs ext items = .ok args) (hexec : s.updateExecErr = none) :
    ∃ tx1, UpdateInventoryBatch ext s tx items = .ok tx1 ∧
      tx1.products = tx.products ∧ tx1.mapping = tx.mapping ∧
      tx1.orders = tx.orders ∧ tx1.orderItems = tx.orderItems ∧
      List.Forall₂
        (fun v w => v ∈ tx.variants ∧
          ((w = v ∧ ∀ item ∈ items, ext.uuidParse item.VariantID = some v.ID →
              v.Quantity < item.Quantity) ∨
          (∃ item ∈ items, ext.uuidParse item.VariantID = some v.ID ∧
              item.Quantity ≤ v.Quantity ∧
              w = { v with Quantity := v.Quantity - item.Quantity })))
        tx.variants tx1.variants := by
  unfold UpdateInventoryBatch
  by_cases h0 : items.length = 0
  · have hnil : items = [] := List.length_eq_zero.mp h0
    subst hnil
    refine ⟨tx, by simp, rfl, rfl, rfl, rfl, ?_⟩
    have := forall2_map_right
      (fun v w : VariantRow => v ∈ tx.variants ∧
        ((w = v ∧ ∀ item ∈ ([] : List OrderItem), ext.uuidParse item.VariantID = some v.ID →
            v.Quantity < item.Quantity) ∨
        (∃ item ∈ ([] : List OrderItem), ext.uuidParse item.VariantID = some v.ID ∧
            item.Quantity ≤ v.Quantity ∧
            w = { v with Quantity := v.Quantity - item.Quantity }))) id tx.variants
      (fun v hv => ⟨hv, Or.inl ⟨rfl, fun item hi => absurd hi (List.not_mem_nil _)⟩⟩)
    rw [List.map_id] at this
    exact this
  · simp only [h0, if_false, hargs, hexec]
    refine ⟨_, rfl, rfl, rfl, rfl, rfl, ?_⟩
    apply forall2_map_right
    intro v hv
    refine ⟨hv, ?_⟩
    rcases applyDecrement_cases s.joinPick args v with ⟨h2, hj⟩ | ⟨t, ht, hid, hle, h2⟩
    · exact Or.inl ⟨h2, joinRows_nil_guard ext items args hargs v hj⟩
    · right
      obtain ⟨item, hi, hp, hq⟩ := batchArgs_mem ext items args hargs t ht
      refine ⟨item, hi, by rw [hp, hid], by rw [hq]; exact hle, ?_⟩
      rw [h2, hq]

/-! ## Lemmas about `validateOrderData` -/

theorem add_validation_code (e : errortools.Error) (field code : String) (args : List String)
    (h : validationState e) :
    (errortools.AddValidationError e field code args).Code = errortools.ValidationFailure := by
  rcases h with ⟨h1, _⟩ | h1
  · simp only [errortools.AddValidationError, if_pos h1]
  · have : e.Code ≠ "" := by rw [h1]; decide
    simp only [errortools.AddValidationError, if_neg this]
    exact h1

theorem validateItems_code (e : errortools.Error) (items : List OrderItem)
    (h : e.Code = errortools.ValidationFailure) :
    (validateItems e items).Code = errortools.ValidationFailure := by
  induction items generalizing e with
  | nil => exact h
  | cons item rest ih =>
    unfold validateItems
    apply ih
    by_cases hq : item.Quantity ≤ 0 <;> by_cases hp : item.Price ≤ 0 <;>
      simp only [hq, hp, if_true, if_false]
    · exact add_validation_code _ _ _ _ (Or.inr (add_validation_code _ _ _ _ (Or.inr h)))
    · exact add_validation_code _ _ _ _ (Or.inr h)
    · exact add_validation_code _ _ _ _ (Or.inr h)
    · exact h

theorem validateItems_valid (e : errortools.Error) (items : List OrderItem)
    (h : ∀ item ∈ items, 0 < item.Quantity ∧ 0 < item.Price) :
    validateItems e items = e := by
  induction items generalizing e with
  | nil => rfl
  | cons item rest ih =>
    unfold validateItems
    obtain ⟨hq, hp⟩ := h item (List.mem_cons_self _ _)
    simp only [not_le.mpr hq, not_le.mpr hp, if_false]
    exact ih e (fun it hi => h it (List.mem_cons_of_mem _ hi))

theorem validateItems_invalid (e : errortools.Error) (items : List OrderItem)
    (hs : validationState e)
    (h : ¬ ∀ item ∈ items, 0 < item.Quantity ∧ 0 < item.Price) :
    (validateItems e items).Code = errortools.ValidationFailure := by
  induction items generalizing e with
  | nil => exact absurd (fun item hi => absurd hi (List.not_mem_nil _)) h
  | cons item rest ih =>
    unfold validateItems
    by_cases hq : item.Quantity ≤ 0
    · apply validateItems_code
      by_cases hp : item.Price ≤ 0 <;> simp only [hq, hp, if_true, if_false]
      · exact add_validation_code _ _ _ _ (Or.inr (add_validation_code _ _ _ _ hs))
      · exact add_validation_code _ _ _ _ hs
    · by_cases hp : item.Price ≤ 0
      · apply validateItems_code
        simp only [hq, hp, if_true, if_false]
        exact add_validation_code _ _ _ _ hs
      · simp only [hq, hp, if_false]
        apply ih e hs
        intro hall
        apply h
        intro it hi
        rcases List.mem_cons.mp hi with h1 | h1
        · subst h1
          exact ⟨not_le.mp hq, not_le.mp hp⟩
        · exact hall it h1

theorem nil_of_code (e : errortools.Error) (h : e.Code = errortools.ValidationFailure) :
    errortools.Nil e = false := by
  unfold errortools.Nil
  have : e.Code ≠ "" := by rw [h]; decide
  simp [this]

/-- An order that breaks a rule gives `validationErr` the validation code. -/
theorem buildValidationErr_invalid (order : Order)
    (hneg : ¬ (order.Items ≠ [] ∧ 0 < order.Total ∧
      ∀ item ∈ order.Items, 0 < item.Quantity ∧ 0 < item.Price)) :
    (buildValidationErr order).Code = errortools.ValidationFailure := by
  have hinit : validationState errortools.Init := Or.inl ⟨rfl, rfl⟩
  unfold buildValidationErr
  by_cases h0 : order.Items.length = 0
  · apply validateItems_code
    by_cases ht : order.Total ≤ 0 <;> simp only [h0, ht, if_true, if_false]
    · exact add_validation_code _ _ _ _ (Or.inr (add_validation_code _ _ _ _ hinit))
    · exact add_validation_code _ _ _ _ hinit
  · by_cases ht : order.Total ≤ 0
    · apply validateItems_code
      simp only [h0, ht, if_true, if_false]
      exact add_validation_code _ _ _ _ hinit
    · simp only [h0, ht, if_false]
      apply validateItems_invalid _ _ hinit
      intro hall
      apply hneg
      refine ⟨?_, not_le.mp ht, hall⟩
      intro hnil
      apply h0
      rw [hnil]
      rfl

/-- An order that breaks no rule leaves `validationErr` as `Init` made it. -/
theorem buildValidationErr_valid (order : Order)
    (h : order.Items ≠ [] ∧ 0 < order.Total ∧
      ∀ item ∈ order.Items, 0 < item.Quantity ∧ 0 < item.Price) :
    buildValidationErr order = errortools.Init := by
  obtain ⟨hne, ht, hall⟩ := h
  have h0 : order.Items.length ≠ 0 := by
    intro h
    exact hne (List.length_eq_zero.mp h)
  unfold buildValidationErr
  simp only [h0, not_le.mpr ht, if_false, validateItems_valid _ _ hall]

/-- An order passes `validateOrderData` exactly when it has an item, a positive
total, and a positive quantity and price on every item. -/
theorem validateOrderData_none_iff (order : Order) :
    validateOrderData order = none ↔
      (order.Items ≠ [] ∧ 0 < order.Total ∧
        ∀ item ∈ order.Items, 0 < item.Quantity ∧ 0 < item.Price) := by
  unfold validateOrderData
  constructor
  · intro h
    by_contra hneg
    rw [nil_of_code _ (buildValidationErr_invalid order hneg)] at h
    simp at h
  · intro hv
    rw [buildValidationErr_valid order hv]
    rfl

/-- An error returned by `validateOrderData` carries the validation code. -/
theorem validateOrderData_some_code (order : Order) (verr : errortools.Error)
    (h : validateOrderData order = some verr) :
    verr.Code = errortools.ValidationFailure := by
  by_cases hv : (order.Items ≠ [] ∧ 0 < order.Total ∧
      ∀ item ∈ order.Items, 0 < item.Quantity ∧ 0 < item.Price)
  · rw [(validateOrderData_none_iff order).mpr hv] at h
    exact absurd h (by simp)
  · unfold validateOrderData at h
    rw [nil_of_code _ (buildValidationErr_invalid order hv)] at h
    simp only [Bool.not_false, if_true, Option.some.injEq] at h
    rw [← h]
    exact buildValidationErr_invalid order hv

/-! ## Lemmas about the use case and the handler -/

/-- A run that returns an identifier returns the one the store assigned. -/
theorem run_ok_id (ext : Ext) (s : TxScript) (db : Store) (order : Order) (oid : String)
    (h : (CreateOrderTransaction ext s db order).result = .ok oid) : oid = s.newOrderID := by
  unfold CreateOrderTransaction at h
  cases hb : s.beginErr with
  | some e => simp [hb] at h
  | none =>
    simp only [hb] at h
    cases hc : CheckInventoryAvailability ext s.checkQueryErr db order.Items with
    | error e => simp [hc] at h
    | ok b =>
      cases b with
      | false => simp [hc] at h
      | true =>
        simp only [hc] at h
        cases hu : UpdateInventoryBatch ext s db order.Items with
        | error e => simp [hu] at h
        | ok tx1 =>
          simp only [hu] at h
          unfold InsertOrder at h
          cases hi : s.insertOrderErr with
          | some e => simp [hi] at h
          | none =>
            simp only [hi] at h
            cases hit : InsertOrderItemsBatch ext s
                { tx1 with
                  orders := tx1.orders ++ [⟨s.newOrderID, OrderStatusAccepted, order.Total⟩] }
                s.newOrderID order.Items with
            | error e => simp [hit] at h
            | ok tx3 =>
              simp only [hit, Except.ok.injEq] at h
              exact h.symm

/-- Whether `InsertOrderItemsBatch` fails, and with which error, does not
depend on the working copy it is given. -/
theorem insertItems_error_ignores_tx (ext : Ext) (s : TxScript) (tx tx0 : Store)
    (orderID : String) (items : List OrderItem) :
    (match InsertOrderItemsBatch ext s tx orderID items with
      | .error e => some e
      | .ok _ => none) =
    (match InsertOrderItemsBatch ext s tx0 orderID items with
      | .error e => some e
      | .ok _ => none) := by
  unfold InsertOrderItemsBatch
  by_cases h0 : items.length = 0
  · simp [h0]
  · simp only [h0, if_false]
    cases s.insertItemsErr with
    | some e => rfl
    | none =>
      cases itemRows ext orderID items with
      | none => rfl
      | some rows => rfl

/-- The results of `CreateOrderTransaction` do not depend on the total of the
order. -/
theorem run_result_ignores_total (ext : Ext) (s : TxScript) (db : Store) (order : Order)
    (t : Rat) :
    (CreateOrderTransaction ext s db { order with Total := t }).result =
      (CreateOrderTransaction ext s db order).result := by
  unfold CreateOrderTransaction
  cases hb : s.beginErr with
  | some e => rfl
  | none =>
    simp only
    cases hc : CheckInventoryAvailability ext s.checkQueryErr db order.Items with
    | error e => rfl
    | ok b =>
      cases b with
      | false => rfl
      | true =>
        simp only
        cases hu : UpdateInventoryBatch ext s db order.Items with
        | error e => rfl
        | ok tx1 =>
          simp only
          unfold InsertOrder
          cases hi : s.insertOrderErr with
          | some e => rfl
          | none =>
            simp only
            have hkey := insertItems_error_ignores_tx ext s
              { tx1 with orders := tx1.orders ++ [⟨s.newOrderID, OrderStatusAccepted, t⟩] }
              { tx1 with
                orders := tx1.orders ++ [⟨s.newOrderID, OrderStatusAccepted, order.Total⟩] }
              s.newOrderID order.Items
            cases h1 : InsertOrderItemsBatch ext s
                { tx1 with orders := tx1.orders ++ [⟨s.newOrderID, OrderStatusAccepted, t⟩] }
                s.newOrderID order.Items with
            | error e1 =>
              cases h2 : InsertOrderItemsBatch ext s
                  { tx1 with
                    orders := tx1.orders ++ [⟨s.newOrderID, OrderStatusAccepted, order.Total⟩] }
                  s.newOrderID order.Items with
              | error e2 =>
                rw [h1, h2] at hkey
                simp only [Option.some.injEq] at hkey
                simp only [hkey]
              | ok tx3 =>
                rw [h1, h2] at hkey
                exact absurd hkey (by simp)
            | ok tx3 =>
              cases h2 : InsertOrderItemsBatch ext s
                  { tx1 with
                    orders := tx1.orders ++ [⟨s.newOrderID, OrderStatusAccepted, order.Total⟩] }
                  s.newOrderID order.Items with
              | error e2 =>
                rw [h1, h2] at hkey
                exact absurd hkey (by simp)
              | ok tx4 => rfl

/-! ## Lemmas about pagination -/

theorem wrap64_id (x : Int) (h1 : -(2 ^ 63) ≤ x) (h2 : x < 2 ^ 63) : wrap64 x = x := by
  unfold wrap64
  rw [Int.emod_eq_of_lt (by omega) (by omega)]
  omega

theorem paginate_bounds_aux (page limit : Int) :
    1 ≤ (Paginate page limit consts.DefaultLimit).1 ∧
      1 ≤ (Paginate page limit consts.DefaultLimit).2 := by
  unfold Paginate
  simp only [consts.DefaultPage, consts.DefaultLimit, consts.MaxLimit]
  by_cases hp : page ≤ 0 <;> by_cases hl : limit ≤ 0 <;> by_cases hm : limit > 100 <;>
    simp [hp, hl, hm] <;> omega

/-! ## Lemmas about `ApiVersioning` -/

theorem asciiUpper_dot : asciiUpper '.' = '.' ∧ ∀ c, asciiUpper c = '.' → c = '.' := by
  refine ⟨by decide, ?_⟩
  intro c h
  unfold asciiUpper at h
  split at h <;> first | exact h | exact absurd h (by decide)

/-- The loop stores no index exactly when nothing was stored before and no
accepted version matches. -/
theorem versionLoop_none (upper : Char → Char) (a : String) (start : Nat) (l : List String)
    (found : Option Nat) :
    versionLoop upper a start l found = none ↔
      found = none ∧ ∀ s ∈ l, ToUpper upper s ≠ a := by
  induction l generalizing start found with
  | nil => simp [versionLoop]
  | cons v rest ih =>
    unfold versionLoop
    by_cases hm : ToUpper upper v = a
    · simp only [hm, if_true, ih]
      constructor
      · rintro ⟨h, _⟩
        exact absurd h (by simp)
      · rintro ⟨_, h⟩
        exact absurd hm (h v (List.mem_cons_self _ _))
    · simp only [hm, if_false, ih, List.mem_cons, forall_eq_or_imp]
      constructor
      · rintro ⟨h1, h2⟩
        exact ⟨h1, hm, h2⟩
      · rintro ⟨h1, _, h2⟩
        exact ⟨h1, h2⟩

/-- The index the loop stores last is the index of the last accepted version
that matches, or the one stored before when none matches. -/
theorem versionLoop_some (upper : Char → Char) (a : String) (start : Nat) (l : List String)
    (found : Option Nat) (i : Nat) (h : versionLoop upper a start l found = some i) :
    (found = some i ∧ ∀ s ∈ l, ToUpper upper s ≠ a) ∨
      ∃ k s, i = start + k ∧ l[k]? = some s ∧ ToUpper upper s = a ∧
        ∀ j t, k < j → l[j]? = some t → ToUpper upper t ≠ a := by
  induction l generalizing start found with
  | nil =>
    left
    exact ⟨h, fun s hs => absurd hs (List.not_mem_nil _)⟩
  | cons v rest ih =>
    unfold versionLoop at h
    by_cases hm : ToUpper upper v = a
    · simp only [hm, if_true] at h
      right
      rcases ih (start + 1) (some start) h with ⟨h1, h2⟩ | ⟨k, s, hk, hs, hms, hlast⟩
      · refine ⟨0, v, ?_, by simp, hm, ?_⟩
        · simp only [Option.some.injEq] at h1
          omega
        · intro j t hj ht
          cases j with
          | zero => omega
          | succ j =>
            simp only [List.getElem?_cons_succ] at ht
            exact h2 t (List.getElem?_mem ht)
      · refine ⟨k + 1, s, by omega, by simpa using hs, hms, ?_⟩
        intro j t hj ht
        cases j with
        | zero => omega
        | succ j =>
          simp only [List.getElem?_cons_succ] at ht
          exact hlast j t (by omega) ht
    · simp only [hm, if_false] at h
      rcases ih (start + 1) found h with ⟨h1, h2⟩ | ⟨k, s, hk, hs, hms, hlast⟩
      · left
        refine ⟨h1, ?_⟩
        intro s hs
        rcases List.mem_cons.mp hs with h3 | h3
        · rw [h3]
          exact hm
        · exact h2 s h3
      · right
        refine ⟨k + 1, s, by omega, by simpa using hs, hms, ?_⟩
        intro j t hj ht
        cases j with
        | zero => omega
        | succ j =>
          simp only [List.getElem?_cons_succ] at ht
          exact hlast j t (by omega) ht

/-- The prepared version name holds no `'.'`. -/
theorem prepared_has_no_dot (version : String) : '.' ∉ (PrepareVersionName version).data := by
  unfold PrepareVersionName
  simp only [List.mem_map, not_exists, not_and]
  intro c _ h
  by_cases hc : c = '.'
  · simp [hc] at h
  · simp [hc] at h

/-- An accepted version that holds a `'.'` matches no prepared version name. -/
theorem dotted_version_never_matches (upper : Char → Char)
    (hdot : upper '.' = '.' ∧ ∀ c, upper c = '.' → c = '.') (s version : String)
    (hs : '.' ∈ s.data) :
    ToUpper upper s ≠ ToUpper upper (PrepareVersionName version) := by
  intro h
  have h1 : '.' ∈ (ToUpper upper s).data := by
    unfold ToUpper
    exact List.mem_map.mpr ⟨'.', hs, hdot.1⟩
  rw [h] at h1
  unfold ToUpper at h1
  obtain ⟨c, hc, hup⟩ := List.mem_map.mp h1
  have := hdot.2 c hup
  rw [this] at hc
  exact prepared_has_no_dot version hc

/-! ## Lemmas about the records of a validation error -/

theorem lookup_appendRecord (fails : List (String × List errortools.errRecord))
    (f : String) (rec : errortools.errRecord) (k : String) :
    (((errortools.appendRecord fails f rec).find? (fun kv => decide (kv.1 = k))).map
        (fun kv => kv.2)).getD [] =
      ((fails.find? (fun kv => decide (kv.1 = k))).map (fun kv => kv.2)).getD [] ++
        (if k = f then [rec] else []) := by
  unfold errortools.appendRecord
  by_cases hany : fails.any (fun kv => decide (kv.1 = f)) = true
  · rw [if_pos hany, List.find?_map]
    have hfun : ((fun kv : String × List errortools.errRecord => decide (kv.1 = k)) ∘
        fun kv => if kv.1 = f then (kv.1, kv.2 ++ [rec]) else kv) =
        fun kv => decide (kv.1 = k) := by
      funext kv
      by_cases hk : kv.1 = f <;> simp [Function.comp, hk]
    rw [hfun]
    cases hfind : fails.find? (fun kv => decide (kv.1 = k)) with
    | none =>
      have hkf : k ≠ f := by
        intro h
        subst h
        rw [List.any_eq_true] at hany
        obtain ⟨kv, hkv, hd⟩ := hany
        have := List.find?_eq_none.mp hfind kv hkv
        exact this hd
      simp [hkf]
    | some kv =>
      have hkey : kv.1 = k := by
        have := List.find?_some hfind
        simpa using this
      by_cases hkf : k = f
      · have : kv.1 = f := hkey.trans hkf
        simp [this, hkf]
      · have : ¬ kv.1 = f := fun h => hkf (hkey.symm.trans h)
        simp [this, hkf]
  · rw [if_neg hany, List.find?_append]
    cases hfind : fails.find? (fun kv => decide (kv.1 = k)) with
    | none =>
      by_cases hkf : k = f
      · subst hkf
        simp
      · have : ¬ f = k := fun h => hkf h.symm
        simp [hkf, this]
    | some kv =>
      have hkf : k ≠ f := by
        intro h
        apply hany
        rw [List.any_eq_true]
        have hkey : kv.1 = k := by
          have := List.find?_some hfind
          simpa using this
        exact ⟨kv, List.mem_of_find?_eq_some hfind, by simp [hkey, h]⟩
      simp [hkf]

theorem keys_appendRecord (fails : List (String × List errortools.errRecord))
    (f : String) (rec : errortools.errRecord) (h : (fails.map Prod.fst).Nodup) :
    ((errortools.appendRecord fails f rec).map Prod.fst).Nodup := by
  unfold errortools.appendRecord
  by_cases hany : fails.any (fun kv => decide (kv.1 = f)) = true
  · rw [if_pos hany, List.map_map]
    have hfun : (Prod.fst ∘ fun kv : String × List errortools.errRecord =>
        if kv.1 = f then (kv.1, kv.2 ++ [rec]) else kv) = Prod.fst := by
      funext kv
      by_cases hk : kv.1 = f <;> simp [Function.comp, hk]
    rw [hfun]
    exact h
  · rw [if_neg hany, List.map_append, List.nodup_append]
    refine ⟨h, List.nodup_singleton _, ?_⟩
    intro a ha hb
    simp only [List.map_cons, List.map_nil, List.mem_singleton] at hb
    subst hb
    apply hany
    rw [List.any_eq_true]
    obtain ⟨kv, hkv, hk⟩ := List.mem_map.mp ha
    exact ⟨kv, hkv, by simp [hk]⟩

theorem count_map_absent (fails : List (String × List errortools.errRecord))
    (f : String) (rec : errortools.errRecord) (h : f ∉ fails.map Prod.fst) :
    fails.map (fun kv => if kv.1 = f then (kv.1, kv.2 ++ [rec]) else kv) = fails := by
  induction fails with
  | nil => rfl
  | cons a rest ih =>
    simp only [List.map_cons, List.mem_cons, not_or] at h
    have ha : ¬ a.1 = f := fun hEq => h.1 hEq.symm
    simp only [List.map_cons, ha, if_false, ih h.2]

theorem count_map_present (fails : List (String × List errortools.errRecord))
    (f : String) (rec : errortools.errRecord) (h : (fails.map Prod.fst).Nodup)
    (hmem : f ∈ fails.map Prod.fst) :
    ((fails.map (fun kv => if kv.1 = f then (kv.1, kv.2 ++ [rec]) else kv)).map
        (fun kv => kv.2.length)).sum =
      (fails.map (fun kv => kv.2.length)).sum + 1 := by
  induction fails with
  | nil => exact absurd hmem (List.not_mem_nil _)
  | cons a rest ih =>
    simp only [List.map_cons, List.nodup_cons] at h
    by_cases ha : a.1 = f
    · have hrest : f ∉ rest.map Prod.fst := by
        rw [← ha]
        exact h.1
      simp only [List.map_cons, ha, if_true, count_map_absent rest f rec hrest,
        List.sum_cons, List.length_append, List.length_singleton]
      omega
    · have hin : f ∈ rest.map Prod.fst := by
        simp only [List.map_cons, List.mem_cons] at hmem
        rcases hmem with h1 | h1
        · exact absurd h1.symm ha
        · exact h1
      simp only [List.map_cons, ha, if_false, List.sum_cons, ih h.2 hin]
      omega

theorem count_appendRecord (fails : List (String × List errortools.errRecord))
    (f : String) (rec : errortools.errRecord) (h : (fails.map Prod.fst).Nodup) :
    ((errortools.appendRecord fails f rec).map (fun kv => kv.2.length)).sum =
      (fails.map (fun kv => kv.2.length)).sum + 1 := by
  unfold errortools.appendRecord
  by_cases hany : fails.any (fun kv => decide (kv.1 = f)) = true
  · rw [if_pos hany]
    apply count_map_present fails f rec h
    rw [List.any_eq_true] at hany
    obtain ⟨kv, hkv, hk⟩ := hany
    exact List.mem_map.mpr ⟨kv, hkv, by simpa using hk⟩
  · rw [if_neg hany]
    simp only [List.map_append, List.map_cons, List.map_nil, List.sum_append,
      List.sum_cons, List.sum_nil, List.length_singleton, Nat.add_zero]

/-! ## Lemmas about the keys of `validateOrderData` -/

theorem last_char_append (v sfx : String) (c : Char) (h : sfx.data.getLast? = some c) :
    (v ++ sfx).data.getLast? = some c := by
  rw [String.data_append, List.getLast?_append, h]
  rfl

/-- Two strings that end in different characters are different. -/
theorem ne_of_last_char (a b : String) (ca cb : Char) (ha : a.data.getLast? = some ca)
    (hb : b.data.getLast? = some cb) (hne : ca ≠ cb) : a ≠ b := by
  intro h
  rw [h, hb] at ha
  exact hne (Option.some.inj ha).symm

theorem append_right_cancel (v w sfx : String) (h : v ++ sfx = w ++ sfx) : v = w := by
  have hd := congrArg String.data h
  rw [String.data_append, String.data_append] at hd
  exact String.ext (List.append_cancel_right hd)

theorem quantity_key (v : String) :
    v ++ "." ++ consts.OrderQuantity = v ++ ".order quantity" := by
  rw [String.append_assoc]
  rfl

theorem price_key (v : String) : v ++ "." ++ consts.OrderPrice = v ++ ".order price" := by
  rw [String.append_assoc]
  rfl

theorem quantity_key_last (v : String) : (v ++ ".order quantity").data.getLast? = some 'y' :=
  last_char_append v ".order quantity" 'y' (by decide)

theorem price_key_last (v : String) : (v ++ ".order price").data.getLast? = some 'e' :=
  last_char_append v ".order price" 'e' (by decide)

/-! ## Lemmas about the records `validateOrderData` builds -/

theorem add_validation_fails (e : errortools.Error) (f code arg : String) :
    (errortools.AddValidationError e f code [arg]).ValidationFails =
      errortools.appendRecord e.ValidationFails f (recordOf code arg) := by
  unfold errortools.AddValidationError recordOf
  by_cases hc : e.Code = "" <;> simp [hc]

theorem recordsAt_add (e : errortools.Error) (f code arg k : String) :
    recordsAt (errortools.AddValidationError e f code [arg]) k =
      recordsAt e k ++ (if k = f then [recordOf code arg] else []) := by
  unfold recordsAt
  rw [add_validation_fails]
  exact lookup_appendRecord _ _ _ _

theorem keys_add (e : errortools.Error) (f code arg : String)
    (h : (e.ValidationFails.map Prod.fst).Nodup) :
    ((errortools.AddValidationError e f code [arg]).ValidationFails.map Prod.fst).Nodup := by
  rw [add_validation_fails]
  exact keys_appendRecord _ _ _ h

theorem count_add (e : errortools.Error) (f code arg : String)
    (h : (e.ValidationFails.map Prod.fst).Nodup) :
    recordCount (errortools.AddValidationError e f code [arg]) = recordCount e + 1 := by
  unfold recordCount
  rw [add_validation_fails]
  exact count_appendRecord _ _ _ h

/-- What the loop over the items adds to an error: under each key the records
of the items in item order, one key per identifier and rule, one record per
violation. -/
theorem validateItems_records (e : errortools.Error) (items : List OrderItem)
    (h : (e.ValidationFails.map Prod.fst).Nodup) :
    (∀ k, recordsAt (validateItems e items) k =
        recordsAt e k ++ items.flatMap (itemRecordsAt k)) ∧
      ((validateItems e items).ValidationFails.map Prod.fst).Nodup ∧
      recordCount (validateItems e items) =
        recordCount e +
          (items.map (fun item =>
            (if item.Quantity ≤ 0 then 1 else 0) + (if item.Price ≤ 0 then 1 else 0))).sum := by
  induction items generalizing e with
  | nil =>
    refine ⟨fun k => ?_, h, ?_⟩
    · simp [validateItems]
    · simp [validateItems]
  | cons item rest ih =>
    unfold validateItems
    by_cases hq : item.Quantity ≤ 0 <;> by_cases hp : item.Price ≤ 0
    · simp only [hq, hp, if_true]
      have hn1 := keys_add e (item.VariantID ++ "." ++ consts.OrderQuantity)
        errortools.Invalid consts.OrderQuantity h
      have hn2 := keys_add _ (item.VariantID ++ "." ++ consts.OrderPrice)
        errortools.Invalid consts.OrderPrice hn1
      obtain ⟨h1, h2, h3⟩ := ih _ hn2
      refine ⟨fun k => ?_, h2, ?_⟩
      · rw [h1 k, recordsAt_add, recordsAt_add]
        simp only [List.flatMap_cons, itemRecordsAt, hq, hp, true_and, List.append_assoc]
      · rw [h3, count_add _ _ _ _ hn1, count_add _ _ _ _ h]
        simp only [List.map_cons, List.sum_cons, hq, hp, if_true]
        omega
    · simp only [hq, hp, if_true, if_false]
      have hn1 := keys_add e (item.VariantID ++ "." ++ consts.OrderQuantity)
        errortools.Invalid consts.OrderQuantity h
      obtain ⟨h1, h2, h3⟩ := ih _ hn1
      refine ⟨fun k => ?_, h2, ?_⟩
      · rw [h1 k, recordsAt_add]
        simp only [List.flatMap_cons, itemRecordsAt, hq, hp, true_and, false_and, if_false,
          List.append_nil, List.append_assoc]
      · rw [h3, count_add _ _ _ _ h]
        simp only [List.map_cons, List.sum_cons, hq, hp, if_true, if_false]
        omega
    · simp only [hq, hp, if_true, if_false]
      have hn1 := keys_add e (item.VariantID ++ "." ++ consts.OrderPrice)
        errortools.Invalid consts.OrderPrice h
      obtain ⟨h1, h2, h3⟩ := ih _ hn1
      refine ⟨fun k => ?_, h2, ?_⟩
      · rw [h1 k, recordsAt_add]
        simp only [List.flatMap_cons, itemRecordsAt, hq, hp, true_and, false_and, if_false,
          List.nil_append, List.append_assoc]
      · rw [h3, count_add _ _ _ _ h]
        simp only [List.map_cons, List.sum_cons, hq, hp, if_true, if_false]
        omega
    · simp only [hq, hp, if_false]
      obtain ⟨h1, h2, h3⟩ := ih e h
      refine ⟨fun k => ?_, h2, ?_⟩
      · rw [h1 k]
        simp only [List.flatMap_cons, itemRecordsAt, hq, hp, false_and, if_false,
          List.append_nil, List.nil_append]
      · rw [h3]
        simp only [List.map_cons, List.sum_cons, hq, hp, if_false]
        omega

/-- The records of the error `validateOrderData` builds, key by key, and
their number. -/
theorem buildValidationErr_records (order : Order) :
    (∀ k, recordsAt (buildValidationErr order) k =
        (if order.Items = [] ∧ k = consts.OrderItems then
            [recordOf errortools.Required consts.OrderItems] else []) ++
          (if order.Total ≤ 0 ∧ k = consts.OrderTotal then
            [recordOf errortools.Invalid consts.OrderTotal] else []) ++
          order.Items.flatMap (itemRecordsAt k)) ∧
      ((buildValidationErr order).ValidationFails.map Prod.fst).Nodup ∧
      recordCount (buildValidationErr order) = violations order := by
  have hinit : (errortools.Init.ValidationFails.map Prod.fst).Nodup := List.nodup_nil
  have hlen : (order.Items.length = 0) ↔ order.Items = [] := List.length_eq_zero
  unfold buildValidationErr violations
  by_cases h0 : order.Items = [] <;> by_cases ht : order.Total ≤ 0
  · have h0l : order.Items.length = 0 := hlen.mpr h0
    simp only [h0l, ht, if_true]
    have hn1 := keys_add errortools.Init consts.OrderItems errortools.Required
      consts.OrderItems hinit
    have hn2 := keys_add _ consts.OrderTotal errortools.Invalid consts.OrderTotal hn1
    obtain ⟨h1, h2, h3⟩ := validateItems_records _ order.Items hn2
    refine ⟨fun k => ?_, h2, ?_⟩
    · rw [h1 k, recordsAt_add, recordsAt_add]
      simp [h0, ht, recordsAt, errortools.Init]
    · rw [h3, count_add _ _ _ _ hn1, count_add _ _ _ _ hinit]
      simp [h0, recordCount, errortools.Init]
  · have h0l : order.Items.length = 0 := hlen.mpr h0
    simp only [h0l, ht, if_true, if_false]
    have hn1 := keys_add errortools.Init consts.OrderItems errortools.Required
      consts.OrderItems hinit
    obtain ⟨h1, h2, h3⟩ := validateItems_records _ order.Items hn1
    refine ⟨fun k => ?_, h2, ?_⟩
    · rw [h1 k, recordsAt_add]
      simp [h0, ht, recordsAt, errortools.Init]
    · rw [h3, count_add _ _ _ _ hinit]
      simp [h0, recordCount, errortools.Init]
  · have h0l : ¬ order.Items.length = 0 := fun h => h0 (hlen.mp h)
    simp only [h0l, ht, if_true, if_false]
    have hn1 := keys_add errortools.Init consts.OrderTotal errortools.Invalid
      consts.OrderTotal hinit
    obtain ⟨h1, h2, h3⟩ := validateItems_records _ order.Items hn1
    refine ⟨fun k => ?_, h2, ?_⟩
    · rw [h1 k, recordsAt_add]
      simp [h0, ht, recordsAt, errortools.Init]
    · rw [h3, count_add _ _ _ _ hinit]
      simp [h0, recordCount, errortools.Init]
  · have h0l : ¬ order.Items.length = 0 := fun h => h0 (hlen.mp h)
    simp only [h0l, ht, if_false]
    obtain ⟨h1, h2, h3⟩ := validateItems_records _ order.Items hinit
    refine ⟨fun k => ?_, h2, ?_⟩
    · rw [h1 k]
      simp [h0, ht, recordsAt, errortools.Init]
    · rw [h3]
      simp [h0, recordCount, errortools.Init]

/-! ## Lemmas about the records under each key -/

theorem itemRecords_at_header (k : String) (c : Char) (hk : k.data.getLast? = some c)
    (hy : c ≠ 'y') (he : c ≠ 'e') (items : List OrderItem) :
    items.flatMap (itemRecordsAt k) = [] := by
  induction items with
  | nil => rfl
  | cons item rest ih =>
    have h1 : k ≠ item.VariantID ++ "." ++ consts.OrderQuantity := by
      rw [quantity_key]
      exact ne_of_last_char _ _ c 'y' hk (quantity_key_last _) hy
    have h2 : k ≠ item.VariantID ++ "." ++ consts.OrderPrice := by
      rw [price_key]
      exact ne_of_last_char _ _ c 'e' hk (price_key_last _) he
    simp only [List.flatMap_cons, ih, itemRecordsAt, h1, h2, and_false, if_false,
      List.append_nil]

theorem itemRecords_at_quantity (v : String) (items : List OrderItem) :
    items.flatMap (itemRecordsAt (v ++ ".order quantity")) =
      (items.filter (fun item => decide (item.VariantID = v) && decide (item.Quantity ≤ 0))).map
        (fun _ => recordOf errortools.Invalid consts.OrderQuantity) := by
  induction items with
  | nil => rfl
  | cons item rest ih =>
    have h2 : v ++ ".order quantity" ≠ item.VariantID ++ "." ++ consts.OrderPrice := by
      rw [price_key]
      exact ne_of_last_char _ _ 'y' 'e' (quantity_key_last _) (price_key_last _) (by decide)
    have h1 : (v ++ ".order quantity" = item.VariantID ++ "." ++ consts.OrderQuantity) ↔
        item.VariantID = v := by
      rw [quantity_key]
      constructor
      · intro h
        exact (append_right_cancel _ _ _ h).symm
      · intro h
        rw [h]
    simp only [List.flatMap_cons, ih, itemRecordsAt, h1, h2, and_false, if_false,
      List.append_nil, List.filter_cons]
    by_cases hv : item.VariantID = v <;> by_cases hq : item.Quantity ≤ 0 <;> simp [hv, hq]

theorem itemRecords_at_price (v : String) (items : List OrderItem) :
    items.flatMap (itemRecordsAt (v ++ ".order price")) =
      (items.filter (fun item => decide (item.VariantID = v) && decide (item.Price ≤ 0))).map
        (fun _ => recordOf errortools.Invalid consts.OrderPrice) := by
  induction items with
  | nil => rfl
  | cons item rest ih =>
    have h2 : v ++ ".order price" ≠ item.VariantID ++ "." ++ consts.OrderQuantity := by
      rw [quantity_key]
      exact ne_of_last_char _ _ 'e' 'y' (price_key_last _) (quantity_key_last _) (by decide)
    have h1 : (v ++ ".order price" = item.VariantID ++ "." ++ consts.OrderPrice) ↔
        item.VariantID = v := by
      rw [price_key]
      constructor
      · intro h
        exact (append_right_cancel _ _ _ h).symm
      · intro h
        rw [h]
    simp only [List.flatMap_cons, ih, itemRecordsAt, h1, h2, and_false, if_false,
      List.nil_append, List.filter_cons]
    by_cases hv : item.VariantID = v <;> by_cases hp : item.Price ≤ 0 <;> simp [hv, hp]

theorem sum_eq_zero_iff_all (items : List OrderItem) (f : OrderItem → Nat) :
    (items.map f).sum = 0 ↔ ∀ item ∈ items, f item = 0 := by
  induction items with
  | nil => simp
  | cons item rest ih =>
    simp only [List.map_cons, List.sum_cons, List.mem_cons, forall_eq_or_imp, ← ih]
    omega

/-- An order violates no rule exactly when it passes `validateOrderData`. -/
theorem violations_zero_iff (order : Order) :
    violations order = 0 ↔
      (order.Items ≠ [] ∧ 0 < order.Total ∧
        ∀ item ∈ order.Items, 0 < item.Quantity ∧ 0 < item.Price) := by
  unfold violations
  constructor
  · intro h
    have h1 : (if order.Items = [] then 1 else 0) = 0 := by omega
    have h2 : (if order.Total ≤ 0 then 1 else 0) = 0 := by omega
    have h3 : (order.Items.map (fun item =>
        (if item.Quantity ≤ 0 then 1 else 0) + (if item.Price ≤ 0 then 1 else 0))).sum = 0 := by
      omega
    refine ⟨?_, ?_, ?_⟩
    · intro hnil
      simp [hnil] at h1
    · by_contra hle
      simp [not_lt.mp hle] at h2
    · intro item hi
      have := (sum_eq_zero_iff_all _ _).mp h3 item hi
      constructor
      · by_contra hle
        simp [not_lt.mp hle] at this
      · by_contra hle
        simp [not_lt.mp hle] at this
  · rintro ⟨hne, ht, hall⟩
    have h3 : (order.Items.map (fun item =>
        (if item.Quantity ≤ 0 then 1 else 0) + (if item.Price ≤ 0 then 1 else 0))).sum = 0 := by
      rw [sum_eq_zero_iff_all]
      intro item hi
      obtain ⟨hq, hp⟩ := hall item hi
      simp [not_le.mpr hq, not_le.mpr hp]
    simp [hne, not_le.mpr ht, h3]

/-! ## Lemmas about the listing -/

/-- `GROUP BY o.id` yields rows of its input with identifiers that are new and
pairwise distinct. -/
theorem groupByID_spec (seen : List String) (l : List OrderRow) :
    ((groupByID seen l).map (fun o => o.ID)).Nodup ∧
      ∀ o ∈ groupByID seen l, o.ID ∉ seen ∧ o ∈ l := by
  induction l generalizing seen with
  | nil => exact ⟨List.nodup_nil, fun o ho => absurd ho (List.not_mem_nil _)⟩
  | cons a rest ih =>
    unfold groupByID
    by_cases ha : a.ID ∈ seen
    · simp only [ha, if_true]
      obtain ⟨h1, h2⟩ := ih seen
      exact ⟨h1, fun o ho => ⟨(h2 o ho).1, List.mem_cons_of_mem _ (h2 o ho).2⟩⟩
    · simp only [ha, if_false]
      obtain ⟨h1, h2⟩ := ih (a.ID :: seen)
      constructor
      · rw [List.map_cons, List.nodup_cons]
        refine ⟨?_, h1⟩
        intro hmem
        obtain ⟨o, ho, hid⟩ := List.mem_map.mp hmem
        exact (h2 o ho).1 (by rw [hid]; exact List.mem_cons_self _ _)
      · intro o ho
        rcases List.mem_cons.mp ho with h | h
        · subst h
          exact ⟨ha, List.mem_cons_self _ _⟩
        · exact ⟨fun hs => (h2 o h).1 (List.mem_cons_of_mem _ hs),
            List.mem_cons_of_mem _ (h2 o h).2⟩

/-- Every identifier of the input that is new is the identifier of a group. -/
theorem groupByID_complete (seen : List String) (l : List OrderRow) :
    ∀ o ∈ l, o.ID ∉ seen → o.ID ∈ (groupByID seen l).map (fun o => o.ID) := by
  induction l generalizing seen with
  | nil => intro o ho; exact absurd ho (List.not_mem_nil _)
  | cons a rest ih =>
    intro o ho hns
    unfold groupByID
    by_cases ha : a.ID ∈ seen
    · simp only [ha, if_true]
      rcases List.mem_cons.mp ho with h | h
      · subst h
        exact absurd ha hns
      · exact ih seen o h hns
    · simp only [ha, if_false, List.map_cons, List.mem_cons]
      rcases List.mem_cons.mp ho with h | h
      · subst h
        exact Or.inl rfl
      · by_cases hoa : o.ID = a.ID
        · exact Or.inl hoa
        · right
          apply ih (a.ID :: seen) o h
          intro hmem
          rcases List.mem_cons.mp hmem with h1 | h1
          · exact hoa h1
          · exact hns h1

/-- The number of groups is the number of distinct identifiers. -/
theorem groupByID_length (l : List OrderRow) :
    (groupByID [] l).length = (l.map (fun o => o.ID)).dedup.length := by
  have hnodup := (groupByID_spec [] l).1
  have hsub := (groupByID_spec [] l).2
  rw [← List.length_map (groupByID [] l) (fun o => o.ID)]
  rw [← List.toFinset_card_of_nodup hnodup, ← List.card_toFinset]
  congr 1
  ext x
  simp only [List.mem_toFinset]
  constructor
  · intro hx
    obtain ⟨o, ho, hid⟩ := List.mem_map.mp hx
    exact List.mem_map.mpr ⟨o, (hsub o ho).2, hid⟩
  · intro hx
    obtain ⟨o, ho, hid⟩ := List.mem_map.mp hx
    rw [← hid]
    exact groupByID_complete [] l o ho (List.not_mem_nil _)

theorem assignItems_ids (rows : List (String × OrderItem)) (page : List OrderRow) :
    (assignItems rows page).map (fun o => o.ID) = page.map (fun o => o.ID) := by
  induction page with
  | nil => rfl
  | cons a rest ih =>
    unfold assignItems
    rw [List.map_cons, List.map_cons, ih]

theorem assignItems_items (rows : List (String × OrderItem)) (page : List OrderRow) :
    ∀ o ∈ assignItems rows page, ∀ item ∈ o.Items, (o.ID, item) ∈ rows := by
  induction page with
  | nil => intro o ho; exact absurd ho (List.not_mem_nil _)
  | cons a rest ih =>
    intro o ho item hitem
    unfold assignItems at ho
    rcases List.mem_cons.mp ho with h | h
    · subst h
      by_cases hany : (rest.any (fun r => decide (r.ID = a.ID))) = true
      · simp only [hany, if_true] at hitem
        exact absurd hitem (List.not_mem_nil _)
      · simp only [hany] at hitem
        simp only [Bool.false_eq_true, if_false, List.mem_map, List.mem_filter,
          decide_eq_true_eq] at hitem
        obtain ⟨r, ⟨hr, hid⟩, hri⟩ := hitem
        have : r = (a.ID, item) := by
          cases r with
          | mk x y =>
            simp only at hid hri
            rw [hid, hri]
        rw [← this]
        exact hr
    · exact ih o h item hitem

theorem mem_itemsOfOrders (db : Store) (ids : List String) (id : String) (item : OrderItem)
    (h : (id, item) ∈ itemsOfOrders db ids) :
    ∃ oi ∈ db.orderItems, oi.OrderID = id ∧ item ∈ enrich db oi := by
  unfold itemsOfOrders at h
  simp only [List.mem_flatMap, List.mem_filter, List.mem_map, Prod.mk.injEq] at h
  obtain ⟨oi, ⟨hoi, _⟩, it, hit, hid, hitem⟩ := h
  exact ⟨oi, hoi, hid, by rw [← hitem]; exact hit⟩

/-! ## Lemmas about the statements of the batched writes -/

theorem insertItemsLoop_length (orderID : String) (start : Nat) (items : List OrderItem) :
    (insertItemsLoop orderID start items).1.length = items.length ∧
      (insertItemsLoop orderID start items).2.length = 4 * items.length := by
  induction items generalizing start with
  | nil => exact ⟨rfl, rfl⟩
  | cons item rest ih =>
    obtain ⟨h1, h2⟩ := ih (start + 1)
    constructor
    · simp only [insertItemsLoop, List.length_cons, h1]
    · simp only [insertItemsLoop, List.length_append, List.length_cons, List.length_nil, h2]
      omega

theorem insertItemsLoop_get (orderID : String) (start : Nat) (items : List OrderItem)
    (k : Nat) (item : OrderItem) (h : items[k]? = some item) :
    (insertItemsLoop orderID start items).1[k]? = some (itemPlaceholders (start + k)) ∧
      (insertItemsLoop orderID start items).2[4 * k]? = some (.text orderID) ∧
      (insertItemsLoop orderID start items).2[4 * k + 1]? = some (.text item.VariantID) ∧
      (insertItemsLoop orderID start items).2[4 * k + 2]? = some (.int item.Quantity) ∧
      (insertItemsLoop orderID start items).2[4 * k + 3]? = some (.float item.Price) := by
  induction items generalizing start k with
  | nil => simp at h
  | cons it rest ih =>
    cases k with
    | zero =>
      simp only [List.getElem?_cons_zero, Option.some.injEq] at h
      subst h
      simp [insertItemsLoop]
    | succ k =>
      simp only [List.getElem?_cons_succ] at h
      obtain ⟨h1, h2, h3, h4, h5⟩ := ih (start + 1) k h
      have e0 : 4 * (k + 1) = (4 * k) + 1 + 1 + 1 + 1 := by omega
      have e1 : 4 * (k + 1) + 1 = (4 * k + 1) + 1 + 1 + 1 + 1 := by omega
      have e2 : 4 * (k + 1) + 2 = (4 * k + 2) + 1 + 1 + 1 + 1 := by omega
      have e3 : 4 * (k + 1) + 3 = (4 * k + 3) + 1 + 1 + 1 + 1 := by omega
      have es : start + (k + 1) = start + 1 + k := by omega
      refine ⟨?_, ?_, ?_, ?_, ?_⟩
      · simp only [insertItemsLoop, List.getElem?_cons_succ, h1, es]
      · rw [e0]
        simp only [insertItemsLoop, List.cons_append, List.nil_append,
          List.getElem?_cons_succ, h2]
      · rw [e1]
        simp only [insertItemsLoop, List.cons_append, List.nil_append,
          List.getElem?_cons_succ, h3]
      · rw [e2]
        simp only [insertItemsLoop, List.cons_append, List.nil_append,
          List.getElem?_cons_succ, h4]
      · rw [e3]
        simp only [insertItemsLoop, List.cons_append, List.nil_append,
          List.getElem?_cons_succ, h5]

/-- The rows of a batched insert that executes keep the order, the quantities
and the prices of the items, and carry the order identifier. -/
theorem itemRows_shape (ext : Ext) (orderID : String) (items : List OrderItem)
    (rows : List OrderItemRow) (h : itemRows ext orderID items = some rows) :
    rows.map (fun r => (r.Quantity, r.Price)) = items.map (fun it => (it.Quantity, it.Price)) ∧
      ∀ r ∈ rows, ext.pgUuid orderID = some r.OrderID := by
  induction items generalizing rows with
  | nil =>
    simp only [itemRows, Option.some.injEq] at h
    subst h
    exact ⟨rfl, fun r hr => absurd hr (List.not_mem_nil _)⟩
  | cons it rest ih =>
    unfold itemRows at h
    cases ho : ext.pgUuid orderID with
    | none => simp [ho] at h
    | some oid =>
      cases hv : ext.pgUuid it.VariantID with
      | none => simp [ho, hv] at h
      | some vid =>
        cases hr : itemRows ext orderID rest with
        | none => simp [ho, hv, hr] at h
        | some rows1 =>
          simp only [ho, hv, hr, Option.some.injEq] at h
          subst h
          obtain ⟨h1, h2⟩ := ih rows1 hr
          constructor
          · simp only [List.map_cons, h1]
          · intro r hmem
            rcases List.mem_cons.mp hmem with h3 | h3
            · subst h3
              rfl
            · rw [← ho]
              exact h2 r h3

theorem updateInventoryLoop_ok (ext : Ext) (start : Nat) (items : List OrderItem)
    (hparse : ∀ item ∈ items, ∃ id, ext.uuidParse item.VariantID = some id) :
    ∃ r, updateInventoryLoop ext start items = .ok r ∧
      r.1.length = items.length ∧ r.2.length = 2 * items.length ∧
      ∀ k item, items[k]? = some item →
        r.1[k]? = some (inventoryPlaceholders (start + k)) ∧
        ∃ id, ext.uuidParse item.VariantID = some id ∧
          r.2[2 * k]? = some (.uuid id) ∧ r.2[2 * k + 1]? = some (.int item.Quantity) := by
  induction items generalizing start with
  | nil =>
    refine ⟨([], []), rfl, rfl, rfl, ?_⟩
    intro k item h
    simp at h
  | cons it rest ih =>
    obtain ⟨id, hid⟩ := hparse it (List.mem_cons_self _ _)
    obtain ⟨r, hr, hl1, hl2, hget⟩ :=
      ih (start + 1) (fun item hi => hparse item (List.mem_cons_of_mem _ hi))
    refine ⟨(inventoryPlaceholders start :: r.1, [.uuid id, .int it.Quantity] ++ r.2),
      by simp [updateInventoryLoop, hid, hr], by simp [hl1], ?_, ?_⟩
    · simp only [List.length_append, List.length_cons, List.length_nil, hl2]
      omega
    · intro k item h
      cases k with
      | zero =>
        simp only [List.getElem?_cons_zero, Option.some.injEq] at h
        subst h
        exact ⟨by simp, id, hid, by simp, by simp⟩
      | succ k =>
        simp only [List.getElem?_cons_succ] at h
        obtain ⟨h1, id1, hid1, h2, h3⟩ := hget k item h
        have e0 : 2 * (k + 1) = (2 * k) + 1 + 1 := by omega
        have e1 : 2 * (k + 1) + 1 = (2 * k + 1) + 1 + 1 := by omega
        have es : start + (k + 1) = start + 1 + k := by omega
        refine ⟨?_, id1, hid1, ?_, ?_⟩
        · simp only [List.getElem?_cons_succ, h1, es]
        · rw [e0]
          simp only [List.cons_append, List.nil_append, List.getElem?_cons_succ, h2]
        · rw [e1]
          simp only [List.cons_append, List.nil_append, List.getElem?_cons_succ, h3]

/-! ## The availability evaluator -/

/-- C10. When the query of `CheckInventoryAvailability` succeeds (on a ledger
keyed by variant identifier), the call returns a verdict and no error, and the
verdict is `true` if and only if every line of the basket names a variant
present in the rows read whose remaining quantity is at least the requested
quantity; so one failing line makes the verdict `false`. -/
theorem check_verdict_iff_every_line_satisfiable (ext : Ext) (db : Store)
    (items : List OrderItem) (ids : List String)
    (hcast : castAll ext.pgUuid (items.map (fun item => item.VariantID)) = some ids)
    (hkey : (db.variants.map (fun v => v.ID)).Nodup) :
    ∃ b, CheckInventoryAvailability ext none db items = .ok b ∧
      (b = true ↔ ∀ item ∈ items, ∃ r ∈ selectInventory ids db.variants,
        r.1 = item.VariantID ∧ item.Quantity ≤ r.2) := by
  refine ⟨availabilityVerdict (selectInventory ids db.variants) items, ?_, ?_⟩
  · simp only [CheckInventoryAvailability, hcast]
  · unfold availabilityVerdict
    rw [checkLines_iff]
    constructor
    · intro h item hi
      obtain ⟨q, hq, hle⟩ := h item hi
      exact ⟨(item.VariantID, q), buildInventory_some _ _ _ hq, rfl, hle⟩
    · intro h item hi
      obtain ⟨r, hr, hk, hle⟩ := h item hi
      refine ⟨r.2, ?_, hle⟩
      apply buildInventory_nodup _ _ _ (selectInventory_keys_nodup ids db.variants hkey)
      rw [← hk]
      exact hr

/-- C10, at a concrete basket: one satisfiable line on the two-variant ledger. -/
theorem check_verdict_iff_every_line_satisfiable_witness :
    ∃ b, CheckInventoryAvailability stdExt none ledgerAB
        [{ VariantID := variantA, Quantity := 2, Price := 10 }] = .ok b ∧
      (b = true ↔ ∀ item ∈ [({ VariantID := variantA, Quantity := 2, Price := 10 } : OrderItem)],
        ∃ r ∈ selectInventory [variantA] ledgerAB.variants,
          r.1 = item.VariantID ∧ item.Quantity ≤ r.2) :=
  check_verdict_iff_every_line_satisfiable stdExt ledgerAB
    [{ VariantID := variantA, Quantity := 2, Price := 10 }] [variantA] (by decide) (by decide)

/-! ## The transaction coordinator -/

/-- C1: the run the atomicity property describes. On the two-variant ledger,
for the basket of 2 units of the first variant, the availability check passes,
the decrement and the header insert succeed and the insert of the lines fails.
The `err` tested by the deferred function is still `nil`, so the transaction
is committed: the caller gets an error, while the store keeps the decrement
(3 becomes 1) and an order header that has no lines. -/
theorem items_failure_is_committed :
    CheckInventoryAvailability stdExt itemsFaultRun.checkQueryErr ledgerAB basketA2.Items
        = .ok true ∧
      (∃ tx1 tx2 e, UpdateInventoryBatch stdExt itemsFaultRun ledgerAB basketA2.Items = .ok tx1 ∧
        InsertOrder itemsFaultRun tx1 basketA2 = .ok (orderOne, tx2) ∧
        InsertOrderItemsBatch stdExt itemsFaultRun tx2 orderOne basketA2.Items = .error e) ∧
      (CreateOrderTransaction stdExt itemsFaultRun ledgerAB basketA2).result =
        .error (.wrapf "could not batch insert order items" (.lib "connection reset by peer")) ∧
      (CreateOrderTransaction stdExt itemsFaultRun ledgerAB basketA2).finish = .commit ∧
      remaining ledgerAB variantA = some 3 ∧
      remaining (CreateOrderTransaction stdExt itemsFaultRun ledgerAB basketA2).store variantA
        = some 1 ∧
      (CreateOrderTransaction stdExt itemsFaultRun ledgerAB basketA2).store.orders =
        [⟨orderOne, "Accepted", 20⟩] ∧
      (CreateOrderTransaction stdExt itemsFaultRun ledgerAB basketA2).store.orderItems = [] ∧
      (CreateOrderTransaction stdExt itemsFaultRun ledgerAB basketA2).store ≠ ledgerAB :=
  ⟨rfl, ⟨_, _, _, rfl, rfl, rfl⟩, rfl, rfl, by decide, by decide, by decide, by decide,
    by decide⟩

/-- C2: a run in which the four steps succeed and `Commit` fails. The results
of `CreateOrderTransaction` are unnamed, so the deferred `err = tx.Commit()`
does not reach the caller: the call returns the new identifier with a `nil`
error although nothing was committed. -/
theorem commit_failure_is_reported_as_success :
    commitFaultRun.commitErr ≠ none ∧
      (CreateOrderTransaction stdExt commitFaultRun ledgerAB basketA2).result = .ok orderOne ∧
      (CreateOrderTransaction stdExt commitFaultRun ledgerAB basketA2).finish = .commit ∧
      (CreateOrderTransaction stdExt commitFaultRun ledgerAB basketA2).store = ledgerAB :=
  ⟨by decide, rfl, rfl, by decide⟩

/-- C3: one order on the two-variant ledger whose basket names the first
variant on two lines of 2 units each. Each line alone passes the availability
check against the 3 units in stock, and the batched update uses a single join
row for the variant (whichever one the store picks). The order is committed
with both lines, 4 units in all, while the ledger goes from 3 to 1. -/
theorem repeated_variant_is_decremented_once (pick : String → Nat) :
    (CreateOrderTransaction stdExt { newOrderID := orderOne, joinPick := pick } ledgerAB
        basketTwice).result = .ok orderOne ∧
      ((CreateOrderTransaction stdExt { newOrderID := orderOne, joinPick := pick } ledgerAB
        basketTwice).store.orderItems.map (fun r => (r.OrderID, r.VariantID, r.Quantity))
          = [(orderOne, variantA, 2), (orderOne, variantA, 2)]) ∧
      remaining ledgerAB variantA = some 3 ∧
      remaining (CreateOrderTransaction stdExt { newOrderID := orderOne, joinPick := pick }
        ledgerAB basketTwice).store variantA = some 1 := by
  have hupd : UpdateInventoryBatch stdExt { newOrderID := orderOne, joinPick := pick } ledgerAB
      basketTwice.Items =
        .ok { ledgerAB with
          variants := [⟨variantA, "A", 10, 1, true⟩, ⟨variantB, "B", 5, 1, true⟩] } := by
    have hargs : batchArgs stdExt basketTwice.Items = .ok [(variantA, 2), (variantA, 2)] := rfl
    have hlen : basketTwice.Items.length ≠ 0 := by decide
    have hjA : joinRows [(variantA, 2), (variantA, 2)] ⟨variantA, "A", 10, 3, true⟩
        = [(variantA, 2), (variantA, 2)] := by decide
    have hjB : joinRows [(variantA, 2), (variantA, 2)] ⟨variantB, "B", 5, 1, true⟩ = [] := by
      decide
    have hA : applyDecrement pick [(variantA, 2), (variantA, 2)] ⟨variantA, "A", 10, 3, true⟩
        = ⟨variantA, "A", 10, 1, true⟩ := by
      unfold applyDecrement
      simp only [hjA, List.length_cons, List.length_nil]
      have h2 : pick variantA % 2 = 0 ∨ pick variantA % 2 = 1 := by omega
      rcases h2 with h2 | h2 <;> simp [h2]
    have hB : applyDecrement pick [(variantA, 2), (variantA, 2)] ⟨variantB, "B", 5, 1, true⟩
        = ⟨variantB, "B", 5, 1, true⟩ := by
      unfold applyDecrement
      simp [hjB]
    unfold UpdateInventoryBatch
    simp only [hlen, if_false, hargs]
    simp only [ledgerAB, List.map_cons, List.map_nil, hA, hB]
  have hcheck : CheckInventoryAvailability stdExt none ledgerAB basketTwice.Items = .ok true :=
    rfl
  have hrun : CreateOrderTransaction stdExt { newOrderID := orderOne, joinPick := pick } ledgerAB
      basketTwice =
        ⟨.ok orderOne,
          { variants := [⟨variantA, "A", 10, 1, true⟩, ⟨variantB, "B", 5, 1, true⟩],
            products := [], mapping := [],
            orders := [⟨orderOne, "Accepted", 40⟩],
            orderItems := [⟨orderOne, variantA, 2, 10⟩, ⟨orderOne, variantA, 2, 10⟩] },
          .commit⟩ := by
    unfold CreateOrderTransaction
    simp only [hcheck, hupd]
    rfl
  rw [hrun]
  exact ⟨rfl, by decide, by decide, by decide⟩

/-- C7: runs in which an internal step fails and the transaction is ended by
`Commit`. The availability check reporting insufficient stock, the
availability query failing, the batched update failing and the batched insert
of the lines failing all leave the outer `err` equal to `nil`; only a failure
of `InsertOrder` leads to `Rollback`. -/
theorem failed_steps_end_in_commit :
    ((CreateOrderTransaction stdExt quietRun ledgerAB basketB3).result =
        .error (.errorf "insufficient inventory for one or more items") ∧
      (CreateOrderTransaction stdExt quietRun ledgerAB basketB3).finish = .commit) ∧
    ((CreateOrderTransaction stdExt queryFaultRun ledgerAB basketA2).result =
        .error (.wrapf "could not check inventory availability"
          (.lib "connection reset by peer")) ∧
      (CreateOrderTransaction stdExt queryFaultRun ledgerAB basketA2).finish = .commit) ∧
    ((CreateOrderTransaction stdExt updateFaultRun ledgerAB basketA2).result =
        .error (.wrapf "could not batch update inventory" (.lib "connection reset by peer")) ∧
      (CreateOrderTransaction stdExt updateFaultRun ledgerAB basketA2).finish = .commit) ∧
    ((CreateOrderTransaction stdExt itemsFaultRun ledgerAB basketA2).result =
        .error (.wrapf "could not batch insert order items" (.lib "connection reset by peer")) ∧
      (CreateOrderTransaction stdExt itemsFaultRun ledgerAB basketA2).finish = .commit) ∧
    ((CreateOrderTransaction stdExt headerFaultRun ledgerAB basketA2).result =
        .error (.wrapf "could not insert order" (.lib "connection reset by peer")) ∧
      (CreateOrderTransaction stdExt headerFaultRun ledgerAB basketA2).finish = .rollback) :=
  ⟨⟨rfl, rfl⟩, ⟨rfl, rfl⟩, ⟨rfl, rfl⟩, ⟨rfl, rfl⟩, ⟨rfl, rfl⟩⟩

/-- C4. A basket with a line that the ledger cannot satisfy (no row of the
ledger carries the line's identifier with at least the requested quantity)
makes `CreateOrderTransaction` return an error and leaves the store exactly as
it was: no quantity changes, no order header and no order line is created. -/
theorem unsatisfiable_basket_changes_nothing (ext : Ext) (s : TxScript) (db : Store)
    (order : Order)
    (h : ∃ item ∈ order.Items, ∀ v ∈ db.variants,
      v.ID = item.VariantID → v.Quantity < item.Quantity) :
    (∃ e, (CreateOrderTransaction ext s db order).result = .error e) ∧
      (CreateOrderTransaction ext s db order).store = db := by
  obtain ⟨item, hi, hbad⟩ := h
  unfold CreateOrderTransaction
  cases hb : s.beginErr with
  | some e => exact ⟨⟨_, rfl⟩, rfl⟩
  | none =>
    simp only
    cases hc : CheckInventoryAvailability ext s.checkQueryErr db order.Items with
    | error e =>
      simp only [deferred]
      cases s.commitErr <;> exact ⟨⟨_, rfl⟩, rfl⟩
    | ok b =>
      cases b with
      | false =>
        simp only [deferred]
        cases s.commitErr <;> exact ⟨⟨_, rfl⟩, rfl⟩
      | true =>
        exfalso
        unfold CheckInventoryAvailability at hc
        cases hq : s.checkQueryErr with
        | some e => simp [hq] at hc
        | none =>
          simp only [hq] at hc
          cases hids : castAll ext.pgUuid (order.Items.map (fun item => item.VariantID)) with
          | none => simp [hids] at hc
          | some ids =>
            simp only [hids, Except.ok.injEq] at hc
            obtain ⟨v, hv, hk, hle⟩ := verdict_true_sound ids db.variants order.Items hc item hi
            exact absurd (hbad v hv hk) (not_lt.mpr hle)

/-- C4, at a concrete basket: the first line is satisfiable, the second asks
for 3 units of a variant of which 1 remains. -/
theorem unsatisfiable_basket_changes_nothing_witness :
    (∃ e, (CreateOrderTransaction stdExt quietRun ledgerAB
        { Items := [{ VariantID := variantA, Quantity := 2, Price := 10 },
                    { VariantID := variantB, Quantity := 3, Price := 5 }],
          Total := 35 }).result = .error e) ∧
      (CreateOrderTransaction stdExt quietRun ledgerAB
        { Items := [{ VariantID := variantA, Quantity := 2, Price := 10 },
                    { VariantID := variantB, Quantity := 3, Price := 5 }],
          Total := 35 }).store = ledgerAB :=
  unsatisfiable_basket_changes_nothing stdExt quietRun ledgerAB _
    ⟨{ VariantID := variantB, Quantity := 3, Price := 5 }, by decide, by decide⟩

/-- C5. On a ledger keyed by variant identifier, a fault-free run for the
single line that asks for exactly the remaining quantity `q > 0` of a variant
is committed (the call returns the new identifier, and the header and the line
are in the store) and leaves 0 units of the variant; the next order with a
line asking for 1 or more units of that variant, once its inventory query has
been answered, fails with the insufficient-inventory error and leaves the
store as it was. -/
theorem exact_stock_then_insufficient (ext : Ext) (s1 s2 : TxScript) (db : Store)
    (v : VariantRow) (price total : Rat) (order2 : Order) (ids2 : List String)
    (hv : v ∈ db.variants) (hkey : (db.variants.map (fun u => u.ID)).Nodup)
    (_hq : 0 < v.Quantity)
    (hparse : ext.uuidParse v.ID = some v.ID) (hcast : ext.pgUuid v.ID = some v.ID)
    (hnew : ext.pgUuid s1.newOrderID = some s1.newOrderID)
    (hquiet : s1.beginErr = none ∧ s1.checkQueryErr = none ∧ s1.updateExecErr = none ∧
      s1.insertOrderErr = none ∧ s1.insertItemsErr = none ∧ s1.commitErr = none)
    (hread : s2.beginErr = none ∧ s2.checkQueryErr = none ∧
      castAll ext.pgUuid (order2.Items.map (fun item => item.VariantID)) = some ids2)
    (hline : ∃ item ∈ order2.Items, item.VariantID = v.ID ∧ 1 ≤ item.Quantity) :
    (CreateOrderTransaction ext s1 db
        { Items := [{ VariantID := v.ID, Quantity := v.Quantity, Price := price }],
          Total := total }).result = .ok s1.newOrderID ∧
      (CreateOrderTransaction ext s1 db
        { Items := [{ VariantID := v.ID, Quantity := v.Quantity, Price := price }],
          Total := total }).finish = .commit ∧
      (CreateOrderTransaction ext s1 db
        { Items := [{ VariantID := v.ID, Quantity := v.Quantity, Price := price }],
          Total := total }).store.orders
          = db.orders ++ [⟨s1.newOrderID, OrderStatusAccepted, total⟩] ∧
      (CreateOrderTransaction ext s1 db
        { Items := [{ VariantID := v.ID, Quantity := v.Quantity, Price := price }],
          Total := total }).store.orderItems
          = db.orderItems ++ [⟨s1.newOrderID, v.ID, v.Quantity, price⟩] ∧
      remaining (CreateOrderTransaction ext s1 db
        { Items := [{ VariantID := v.ID, Quantity := v.Quantity, Price := price }],
          Total := total }).store v.ID = some 0 ∧
      (CreateOrderTransaction ext s2 (CreateOrderTransaction ext s1 db
        { Items := [{ VariantID := v.ID, Quantity := v.Quantity, Price := price }],
          Total := total }).store order2).result
          = .error (.errorf "insufficient inventory for one or more items") ∧
      (CreateOrderTransaction ext s2 (CreateOrderTransaction ext s1 db
        { Items := [{ VariantID := v.ID, Quantity := v.Quantity, Price := price }],
          Total := total }).store order2).store
          = (CreateOrderTransaction ext s1 db
        { Items := [{ VariantID := v.ID, Quantity := v.Quantity, Price := price }],
          Total := total }).store := by
  obtain ⟨hb1, hc1, hu1, hi1, hit1, hcm1⟩ := hquiet
  obtain ⟨hb2, hc2, hids2⟩ := hread
  have hcheck : CheckInventoryAvailability ext s1.checkQueryErr db
      [{ VariantID := v.ID, Quantity := v.Quantity, Price := price }] = .ok true := by
    unfold CheckInventoryAvailability
    simp only [hc1, List.map_cons, List.map_nil, castAll, hcast]
    congr 1
    unfold availabilityVerdict
    rw [checkLines_iff]
    intro item hi
    rw [List.mem_singleton] at hi
    subst hi
    refine ⟨v.Quantity, ?_, le_refl _⟩
    apply buildInventory_nodup _ _ _ (selectInventory_keys_nodup _ _ hkey)
    rw [mem_selectInventory]
    exact ⟨v, hv, List.mem_singleton.mpr rfl, rfl, rfl⟩
  have hupd : UpdateInventoryBatch ext s1 db
      [{ VariantID := v.ID, Quantity := v.Quantity, Price := price }] =
        .ok { db with
          variants := db.variants.map (applyDecrement s1.joinPick [(v.ID, v.Quantity)]) } := by
    unfold UpdateInventoryBatch
    simp [batchArgs, hparse, hu1]
  have hrun : CreateOrderTransaction ext s1 db
      { Items := [{ VariantID := v.ID, Quantity := v.Quantity, Price := price }],
        Total := total } =
        ⟨.ok s1.newOrderID,
          { variants := db.variants.map (applyDecrement s1.joinPick [(v.ID, v.Quantity)]),
            products := db.products, mapping := db.mapping,
            orders := db.orders ++ [⟨s1.newOrderID, OrderStatusAccepted, total⟩],
            orderItems := db.orderItems ++ [⟨s1.newOrderID, v.ID, v.Quantity, price⟩] },
          .commit⟩ := by
    unfold CreateOrderTransaction
    simp only [hb1, hcheck, hupd, InsertOrder, hi1, InsertOrderItemsBatch, hit1, itemRows,
      hnew, hcast, deferred, hcm1]
    simp
  rw [hrun]
  have hzero : ∀ w ∈ db.variants.map (applyDecrement s1.joinPick [(v.ID, v.Quantity)]),
      w.ID = v.ID → w.Quantity = 0 := by
    intro w hw hid
    obtain ⟨u, hu, hfu⟩ := List.mem_map.mp hw
    have huid : u.ID = v.ID := by
      rw [← hid, ← hfu]
      exact (applyDecrement_ID _ _ u).1.symm
    have huv : u = v := key_unique db.variants hkey u v hu hv huid
    rw [← hfu, huv, applyDecrement_exact]
  have hrem : remaining
      { variants := db.variants.map (applyDecrement s1.joinPick [(v.ID, v.Quantity)]),
        products := db.products, mapping := db.mapping,
        orders := db.orders ++ [⟨s1.newOrderID, OrderStatusAccepted, total⟩],
        orderItems := db.orderItems ++ [⟨s1.newOrderID, v.ID, v.Quantity, price⟩] } v.ID
        = some 0 := by
    unfold remaining
    simp only [List.find?_map]
    have hfun : ((fun u : VariantRow => decide (u.ID = v.ID)) ∘
        applyDecrement s1.joinPick [(v.ID, v.Quantity)]) = fun u => decide (u.ID = v.ID) := by
      funext u
      simp only [Function.comp, (applyDecrement_ID _ _ u).1]
    rw [hfun, find_key db.variants hkey v hv]
    simp [applyDecrement_exact]
  have hcheck2 : CheckInventoryAvailability ext s2.checkQueryErr
      { variants := db.variants.map (applyDecrement s1.joinPick [(v.ID, v.Quantity)]),
        products := db.products, mapping := db.mapping,
        orders := db.orders ++ [⟨s1.newOrderID, OrderStatusAccepted, total⟩],
        orderItems := db.orderItems ++ [⟨s1.newOrderID, v.ID, v.Quantity, price⟩] }
      order2.Items = .ok false := by
    unfold CheckInventoryAvailability
    simp only [hc2, hids2]
    congr 1
    cases hb : availabilityVerdict (selectInventory ids2
        (db.variants.map (applyDecrement s1.joinPick [(v.ID, v.Quantity)]))) order2.Items with
    | false => rfl
    | true =>
      exfalso
      obtain ⟨item, hi, hid, hone⟩ := hline
      obtain ⟨w, hw, hwid, hle⟩ := verdict_true_sound _ _ _ hb item hi
      have := hzero w hw (by rw [hwid, hid])
      omega
  obtain ⟨hres2, hst2⟩ := run_insufficient ext s2 _ order2 hb2 hcheck2
  exact ⟨rfl, rfl, rfl, rfl, hrem, hres2, hst2⟩

/-- C5, with the numbers of the specification: 3 units remain and 3 are
ordered; the next order asks for 1 unit. -/
theorem exact_stock_then_insufficient_witness :
    (CreateOrderTransaction stdExt quietRun ledgerAB
        { Items := [{ VariantID := variantA, Quantity := 3, Price := 10 }],
          Total := 30 }).result = .ok orderOne ∧
      remaining (CreateOrderTransaction stdExt quietRun ledgerAB
        { Items := [{ VariantID := variantA, Quantity := 3, Price := 10 }],
          Total := 30 }).store variantA = some 0 ∧
      (CreateOrderTransaction stdExt quietRun (CreateOrderTransaction stdExt quietRun ledgerAB
        { Items := [{ VariantID := variantA, Quantity := 3, Price := 10 }],
          Total := 30 }).store
        { Items := [{ VariantID := variantA, Quantity := 1, Price := 10 }],
          Total := 10 }).result
          = .error (.errorf "insufficient inventory for one or more items") :=
  have h := exact_stock_then_insufficient stdExt quietRun quietRun ledgerAB
    ⟨variantA, "A", 10, 3, true⟩ 10 30
    { Items := [{ VariantID := variantA, Quantity := 1, Price := 10 }], Total := 10 }
    [variantA] (by decide) (by decide) (by decide) (by decide) (by decide) (by decide)
    (by decide) (by decide)
    ⟨{ VariantID := variantA, Quantity := 1, Price := 10 }, by decide, by decide⟩
  ⟨h.1, h.2.2.2.2.1, h.2.2.2.2.2.1⟩

/-! ## The conditional decrement executor -/

/-- C9 as stated fails: on the two-variant ledger (3 units of the first
variant) the item list asks for 5 and for 2 units of the first variant. The
variant has fewer units than the first line requests, and fewer than the two
lines request together, yet the guard is tested per line: the line of 2 joins
and the variant goes from 3 to 1, whichever join row the store picks. -/
theorem guard_is_per_line_counterexample :
    remaining ledgerAB variantA = some 3 ∧
      (∃ item ∈ itemsOverAndFit,
        stdExt.uuidParse item.VariantID = some variantA ∧ 3 < item.Quantity) ∧
      (3 : Int) < (itemsOverAndFit.map (fun item => item.Quantity)).sum ∧
      ∀ pick : String → Nat,
        UpdateInventoryBatch stdExt { newOrderID := orderOne, joinPick := pick } ledgerAB
            itemsOverAndFit =
          .ok { ledgerAB with
            variants := [⟨variantA, "A", 10, 1, true⟩, ⟨variantB, "B", 5, 1, true⟩] } := by
  refine ⟨by decide,
    ⟨{ VariantID := variantA, Quantity := 5, Price := 10 }, by decide, by decide, by decide⟩,
    by decide, ?_⟩
  intro pick
  have hargs : batchArgs stdExt itemsOverAndFit = .ok [(variantA, 5), (variantA, 2)] := rfl
  have hlen : itemsOverAndFit.length ≠ 0 := by decide
  have hjA : joinRows [(variantA, 5), (variantA, 2)] ⟨variantA, "A", 10, 3, true⟩
      = [(variantA, 2)] := by decide
  have hjB : joinRows [(variantA, 5), (variantA, 2)] ⟨variantB, "B", 5, 1, true⟩ = [] := by
    decide
  have hA : applyDecrement pick [(variantA, 5), (variantA, 2)] ⟨variantA, "A", 10, 3, true⟩
      = ⟨variantA, "A", 10, 1, true⟩ := by
    unfold applyDecrement
    simp [hjA, Nat.mod_one]
  have hB : applyDecrement pick [(variantA, 5), (variantA, 2)] ⟨variantB, "B", 5, 1, true⟩
      = ⟨variantB, "B", 5, 1, true⟩ := by
    unfold applyDecrement
    simp [hjB]
  unfold UpdateInventoryBatch
  simp only [hlen, if_false, hargs]
  simp only [ledgerAB, List.map_cons, List.map_nil, hA, hB]

/-- C9, amended. On a ledger whose quantities are all non-negative, and for any
item list (line quantities of either sign), the ledger after
`UpdateInventoryBatch` corresponds row by row to the ledger before it, every
quantity is still non-negative, a variant of which every line naming it
requests more than remains keeps its row unchanged, and any other row is
unchanged or reduced by the quantity of one line that names it and requests no
more than remains. -/
theorem update_keeps_quantities_nonnegative (ext : Ext) (s : TxScript) (tx : Store)
    (items : List OrderItem) (h : ∀ v ∈ tx.variants, 0 ≤ v.Quantity) :
    List.Forall₂
      (fun v w => 0 ≤ w.Quantity ∧
        ((∀ item ∈ items, ext.uuidParse item.VariantID = some v.ID →
            v.Quantity < item.Quantity) → w = v) ∧
        (w = v ∨ ∃ item ∈ items, ext.uuidParse item.VariantID = some v.ID ∧
          item.Quantity ≤ v.Quantity ∧
          w = { v with Quantity := v.Quantity - item.Quantity }))
      tx.variants (afterUpdate ext s tx items).variants := by
  rcases afterUpdate_variants ext s tx items with h1 | ⟨args, hargs, h1⟩
  · rw [h1]
    have := forall2_map_right
      (fun v w : VariantRow => 0 ≤ w.Quantity ∧
        ((∀ item ∈ items, ext.uuidParse item.VariantID = some v.ID →
            v.Quantity < item.Quantity) → w = v) ∧
        (w = v ∨ ∃ item ∈ items, ext.uuidParse item.VariantID = some v.ID ∧
          item.Quantity ≤ v.Quantity ∧
          w = { v with Quantity := v.Quantity - item.Quantity })) id tx.variants
      (fun v hv => ⟨h v hv, fun _ => rfl, Or.inl rfl⟩)
    simpa using this
  · rw [h1]
    apply forall2_map_right
    intro v hv
    rcases applyDecrement_cases s.joinPick args v with ⟨h2, _⟩ | ⟨t, ht, hid, hle, h2⟩
    · rw [h2]
      exact ⟨h v hv, fun _ => rfl, Or.inl rfl⟩
    · rw [h2]
      obtain ⟨item, hi, hp, hq⟩ := batchArgs_mem ext items args hargs t ht
      refine ⟨by simpa using hle, ?_, Or.inr ⟨item, hi, by rw [hp, hid], by rw [hq]; exact hle,
        by rw [hq]⟩⟩
      intro hall
      have := hall item hi (by rw [hp, hid])
      rw [hq] at this
      exact absurd hle (not_le.mpr this)

/-- C9 amended, on the two-variant ledger (3 and 1 units) with lines of 5 and 2
units of the first variant and 3 units of the second: the first variant is
reduced by the line of 2, the second keeps its unit. -/
theorem update_keeps_quantities_nonnegative_witness :
    List.Forall₂
        (fun v w => 0 ≤ w.Quantity ∧
          ((∀ item ∈ itemsOverAndFit ++ [{ VariantID := variantB, Quantity := 3, Price := 5 }],
              stdExt.uuidParse item.VariantID = some v.ID → v.Quantity < item.Quantity) →
            w = v) ∧
          (w = v ∨
            ∃ item ∈ itemsOverAndFit ++ [{ VariantID := variantB, Quantity := 3, Price := 5 }],
              stdExt.uuidParse item.VariantID = some v.ID ∧ item.Quantity ≤ v.Quantity ∧
              w = { v with Quantity := v.Quantity - item.Quantity }))
        ledgerAB.variants
        (afterUpdate stdExt quietRun ledgerAB
          (itemsOverAndFit ++ [{ VariantID := variantB, Quantity := 3, Price := 5 }])).variants ∧
      (afterUpdate stdExt quietRun ledgerAB
          (itemsOverAndFit ++ [{ VariantID := variantB, Quantity := 3, Price := 5 }])).variants =
        [⟨variantA, "A", 10, 1, true⟩, ⟨variantB, "B", 5, 1, true⟩] :=
  ⟨update_keeps_quantities_nonnegative stdExt quietRun ledgerAB _ (by decide), by decide⟩

/-- C8 as stated fails: on the two-variant ledger (3 and 1 units) the basket
that asks for 2 of the first variant and 3 of the second has a line whose
guard is false, yet `UpdateInventoryBatch` returns no error and applies the
other line, leaving 1 and 1. -/
theorem update_partial_success_counterexample :
    (∃ v ∈ ledgerAB.variants, v.ID = variantB ∧ ¬ (v.Quantity ≥ 3)) ∧
      ∃ tx1, UpdateInventoryBatch stdExt quietRun ledgerAB
          [{ VariantID := variantA, Quantity := 2, Price := 10 },
           { VariantID := variantB, Quantity := 3, Price := 5 }] = .ok tx1 ∧
        tx1.variants.map (fun v => v.Quantity) = [1, 1] ∧
        ledgerAB.variants.map (fun v => v.Quantity) = [3, 1] :=
  ⟨by decide, _, rfl, by decide, by decide⟩

/-- C8, amended. When every identifier of the basket parses and the statement
executes, `UpdateInventoryBatch` returns no error whether or not every guard
holds, and it treats each variant separately: a row for which the guard of
every line naming it is false is unchanged, and any other row has the quantity
of one line naming it, whose guard holds, subtracted; the other tables are
untouched. -/
theorem update_applies_each_row_separately (ext : Ext) (s : TxScript) (tx : Store)
    (items : List OrderItem) (args : List (String × Int))
    (hargs : batchArgs ext items = .ok args) (hexec : s.updateExecErr = none) :
    ∃ tx1, UpdateInventoryBatch ext s tx items = .ok tx1 ∧
      tx1.products = tx.products ∧ tx1.mapping = tx.mapping ∧
      tx1.orders = tx.orders ∧ tx1.orderItems = tx.orderItems ∧
      List.Forall₂
        (fun v w =>
          (w = v ∧ ∀ item ∈ items, ext.uuidParse item.VariantID = some v.ID →
              v.Quantity < item.Quantity) ∨
          (∃ item ∈ items, ext.uuidParse item.VariantID = some v.ID ∧
              item.Quantity ≤ v.Quantity ∧
              w = { v with Quantity := v.Quantity - item.Quantity }))
        tx.variants tx1.variants := by
  unfold UpdateInventoryBatch
  by_cases h0 : items.length = 0
  · have hnil : items = [] := List.length_eq_zero.mp h0
    subst hnil
    refine ⟨tx, by simp, rfl, rfl, rfl, rfl, ?_⟩
    simp
  · simp only [h0, if_false, hargs, hexec]
    refine ⟨_, rfl, rfl, rfl, rfl, rfl, ?_⟩
    apply forall2_map_right
    intro v _
    rcases applyDecrement_cases s.joinPick args v with ⟨h2, hj⟩ | ⟨t, ht, hid, hle, h2⟩
    · exact Or.inl ⟨h2, joinRows_nil_guard ext items args hargs v hj⟩
    · right
      obtain ⟨item, hi, hp, hq⟩ := batchArgs_mem ext items args hargs t ht
      refine ⟨item, hi, by rw [hp, hid], by rw [hq]; exact hle, ?_⟩
      rw [h2, hq]

/-- C8 amended, on the basket of the counterexample. -/
theorem update_applies_each_row_separately_witness :
    ∃ tx1, UpdateInventoryBatch stdExt quietRun ledgerAB
        [{ VariantID := variantA, Quantity := 2, Price := 10 },
         { VariantID := variantB, Quantity := 3, Price := 5 }] = .ok tx1 ∧
      tx1.products = ledgerAB.products ∧ tx1.mapping = ledgerAB.mapping ∧
      tx1.orders = ledgerAB.orders ∧ tx1.orderItems = ledgerAB.orderItems ∧
      List.Forall₂
        (fun v w =>
          (w = v ∧ ∀ item ∈ [({ VariantID := variantA, Quantity := 2, Price := 10 } : OrderItem),
                             { VariantID := variantB, Quantity := 3, Price := 5 }],
              stdExt.uuidParse item.VariantID = some v.ID → v.Quantity < item.Quantity) ∨
          (∃ item ∈ [({ VariantID := variantA, Quantity := 2, Price := 10 } : OrderItem),
                     { VariantID := variantB, Quantity := 3, Price := 5 }],
              stdExt.uuidParse item.VariantID = some v.ID ∧ item.Quantity ≤ v.Quantity ∧
              w = { v with Quantity := v.Quantity - item.Quantity }))
        ledgerAB.variants tx1.variants :=
  update_applies_each_row_separately stdExt quietRun ledgerAB _
    [(variantA, 2), (variantB, 3)] rfl rfl

/-- C11. When the lines of a basket name pairwise distinct, existing variants,
each with at least the requested quantity remaining, and the statement
executes, `UpdateInventoryBatch` returns no error and changes the ledger row by
row: a variant named by a line loses exactly the quantity of that line, a
variant named by no line keeps its whole row, every row keeps its identifier,
name, price and active flag, and the other tables are untouched. -/
theorem update_decrements_named_variants_only (ext : Ext) (s : TxScript) (tx : Store)
    (items : List OrderItem)
    (hdistinct : (items.map (fun item => ext.uuidParse item.VariantID)).Nodup)
    (hlines : ∀ item ∈ items, ∃ id, ext.uuidParse item.VariantID = some id ∧
      (∃ v ∈ tx.variants, v.ID = id) ∧
      ∀ v ∈ tx.variants, v.ID = id → item.Quantity ≤ v.Quantity)
    (hexec : s.updateExecErr = none) :
    ∃ tx1, UpdateInventoryBatch ext s tx items = .ok tx1 ∧
      tx1.products = tx.products ∧ tx1.mapping = tx.mapping ∧
      tx1.orders = tx.orders ∧ tx1.orderItems = tx.orderItems ∧
      List.Forall₂
        (fun v w =>
          w.ID = v.ID ∧ w.Name = v.Name ∧ w.MRP = v.MRP ∧ w.IsActive = v.IsActive ∧
          (∀ item ∈ items, ext.uuidParse item.VariantID = some v.ID →
            w.Quantity = v.Quantity - item.Quantity) ∧
          ((∀ item ∈ items, ext.uuidParse item.VariantID ≠ some v.ID) → w = v))
        tx.variants tx1.variants := by
  have hargs : ∃ args, batchArgs ext items = .ok args := by
    clear hdistinct
    induction items with
    | nil => exact ⟨[], rfl⟩
    | cons it rest ih =>
      obtain ⟨id, hp, _⟩ := hlines it (List.mem_cons_self _ _)
      obtain ⟨args1, h1⟩ := ih (fun item hi => hlines item (List.mem_cons_of_mem _ hi))
      exact ⟨(id, it.Quantity) :: args1, by simp [batchArgs, hp, h1]⟩
  obtain ⟨args, hargs⟩ := hargs
  obtain ⟨tx1, hok, hp, hm, ho, hoi, hrows⟩ :=
    update_applies_rows ext s tx items args hargs hexec
  refine ⟨tx1, hok, hp, hm, ho, hoi, ?_⟩
  refine List.Forall₂.imp ?_ hrows
  intro v w hvw
  obtain ⟨hv, hcase⟩ := hvw
  rcases hcase with ⟨hwv, hnone⟩ | ⟨item0, hi0, hp0, hle0, hw⟩
  · subst hwv
    refine ⟨rfl, rfl, rfl, rfl, ?_, fun _ => rfl⟩
    intro item hi hpi
    obtain ⟨id, hpid, _, hguard⟩ := hlines item hi
    have hid : w.ID = id := Option.some.inj (hpi.symm.trans hpid)
    exact absurd (hguard w hv hid) (not_le.mpr (hnone item hi hpi))
  · subst hw
    refine ⟨rfl, rfl, rfl, rfl, ?_, ?_⟩
    · intro item hi hpi
      have : item = item0 :=
        List.inj_on_of_nodup_map hdistinct hi hi0 (hpi.trans hp0.symm)
      rw [this]
    · intro hnone
      exact absurd hp0 (hnone item0 hi0)

/-- C11, on the two-variant ledger with a basket of 2 units of the first
variant and 1 unit of the second. -/
theorem update_decrements_named_variants_only_witness :
    ∃ tx1, UpdateInventoryBatch stdExt quietRun ledgerAB basketRoundTrip.Items = .ok tx1 ∧
      tx1.products = ledgerAB.products ∧ tx1.mapping = ledgerAB.mapping ∧
      tx1.orders = ledgerAB.orders ∧ tx1.orderItems = ledgerAB.orderItems ∧
      List.Forall₂
        (fun v w =>
          w.ID = v.ID ∧ w.Name = v.Name ∧ w.MRP = v.MRP ∧ w.IsActive = v.IsActive ∧
          (∀ item ∈ basketRoundTrip.Items, stdExt.uuidParse item.VariantID = some v.ID →
            w.Quantity = v.Quantity - item.Quantity) ∧
          ((∀ item ∈ basketRoundTrip.Items, stdExt.uuidParse item.VariantID ≠ some v.ID) →
            w = v))
        ledgerAB.variants tx1.variants :=
  update_decrements_named_variants_only stdExt quietRun ledgerAB basketRoundTrip.Items
    (by decide)
    (by
      intro item hi
      simp only [basketRoundTrip, List.mem_cons, List.mem_singleton, List.not_mem_nil,
        or_false] at hi
      rcases hi with h | h <;> subst h
      · exact ⟨variantA, by decide, by decide, by decide⟩
      · exact ⟨variantB, by decide, by decide, by decide⟩)
    rfl

/-! ## The order reader -/

/-- C6 as stated fails: the basket with 2 units of the first variant at 10 and
1 unit of the second at 5, total 25, is committed with both lines on the
two-variant ledger, where neither variant is mapped to a product; the inner
joins of the items query then drop both lines, and the order read back by the
returned identifier has total 25 and no items. -/
theorem round_trip_unmapped_variant_counterexample :
    (CreateOrderTransaction stdExt quietRun ledgerAB basketRoundTrip).result = .ok orderOne ∧
      (CreateOrderTransaction stdExt quietRun ledgerAB basketRoundTrip).finish = .commit ∧
      (CreateOrderTransaction stdExt quietRun ledgerAB basketRoundTrip).store.orderItems =
        [⟨orderOne, variantA, 2, 10⟩, ⟨orderOne, variantB, 1, 5⟩] ∧
      FetchOrderWithDetails stdExt quietFetch
        (CreateOrderTransaction stdExt quietRun ledgerAB basketRoundTrip).store orderOne =
          .ok { ID := orderOne, Status := "Accepted", Items := [], Total := 25 } :=
  ⟨rfl, rfl, by decide, rfl⟩

/-- C6, amended. On a ledger keyed by variant identifier, when
`CreateOrderTransaction` returns an identifier and its `Commit` succeeded, and
every line of the order names a variant that is mapped to exactly one product,
`FetchOrderWithDetails` called with the returned identifier on the resulting
store yields the order with that identifier, status `Accepted`, the total
supplied at creation, and one item per committed line, in order, with the
line's variant identifier, quantity and price. -/
theorem committed_order_round_trip (ext : Ext) (s : TxScript) (f : FetchScript) (db : Store)
    (order : Order) (oid : String)
    (hres : (CreateOrderTransaction ext s db order).result = .ok oid)
    (hcommit : s.commitErr = none)
    (hkey : (db.variants.map (fun v => v.ID)).Nodup)
    (hcanon : ∀ v ∈ db.variants, ext.pgUuid v.ID = some v.ID)
    (hnew : ext.pgUuid s.newOrderID = some s.newOrderID)
    (hfresh : (∀ o ∈ db.orders, o.ID ≠ s.newOrderID) ∧
      ∀ oi ∈ db.orderItems, oi.OrderID ≠ s.newOrderID)
    (hmap : ∀ item ∈ order.Items, ∃ m p,
      db.mapping.filter (fun pvm => decide (item.VariantID = pvm.VariantID)) = [m] ∧
      db.products.filter (fun q => decide (m.ProductID = q.ID)) = [p])
    (hfetch : f.orderQueryErr = none ∧ f.itemsQueryErr = none ∧ f.rowsErr = none) :
    ∃ o, FetchOrderWithDetails ext f (CreateOrderTransaction ext s db order).store oid = .ok o ∧
      o.ID = oid ∧ o.Status = OrderStatusAccepted ∧ o.Total = order.Total ∧
      o.Items.map lineOf = order.Items.map lineOf := by
  obtain ⟨hoid, hcheck, tx1, rows, hupd, hrows, hstore⟩ :=
    run_ok_store ext s db order oid hres hcommit
  obtain ⟨g, hg, htx1⟩ := update_ok_shape ext s db tx1 order.Items hupd
  have hlines := check_true_sound ext _ db order.Items hcheck
  have hcanonItems : ∀ item ∈ order.Items, ext.pgUuid item.VariantID = some item.VariantID := by
    intro item hi
    obtain ⟨v, hv, hid, _⟩ := hlines item hi
    rw [← hid]
    exact hcanon v hv
  have hrowsEq := itemRows_eq ext s.newOrderID order.Items rows hrows hnew hcanonItems
  obtain ⟨hf1, hf2, hf3⟩ := hfetch
  have hst : (CreateOrderTransaction ext s db order).store =
      (⟨db.variants.map g, db.products, db.mapping,
        db.orders ++ [⟨s.newOrderID, OrderStatusAccepted, order.Total⟩],
        db.orderItems ++ rows⟩ : Store) := by
    rw [hstore, htx1]
  rw [hst, hoid]
  have hfind : (db.orders ++ [(⟨s.newOrderID, OrderStatusAccepted, order.Total⟩ : OrderRow)]).find?
      (fun o => decide (o.ID = s.newOrderID))
        = some ⟨s.newOrderID, OrderStatusAccepted, order.Total⟩ := by
    rw [List.find?_append]
    have hnone : db.orders.find? (fun o => decide (o.ID = s.newOrderID)) = none := by
      rw [List.find?_eq_none]
      intro o ho
      simp only [decide_eq_true_eq]
      exact hfresh.1 o ho
    rw [hnone]
    simp
  have hfilter : (db.orderItems ++ rows).filter (fun oi => decide (oi.OrderID = s.newOrderID))
      = rows := by
    rw [List.filter_append]
    have hold : db.orderItems.filter (fun oi => decide (oi.OrderID = s.newOrderID)) = [] := by
      rw [List.filter_eq_nil_iff]
      intro oi hoi
      simp only [decide_eq_true_eq]
      exact hfresh.2 oi hoi
    have hnewRows : rows.filter (fun oi => decide (oi.OrderID = s.newOrderID)) = rows := by
      rw [List.filter_eq_self]
      intro oi hoi
      rw [hrowsEq] at hoi
      obtain ⟨it, _, hit⟩ := List.mem_map.mp hoi
      rw [← hit]
      simp
    rw [hold, hnewRows, List.nil_append]
  refine ⟨⟨s.newOrderID, OrderStatusAccepted,
    joinedItems (⟨db.variants.map g, db.products, db.mapping,
        db.orders ++ [⟨s.newOrderID, OrderStatusAccepted, order.Total⟩],
        db.orderItems ++ rows⟩ : Store) s.newOrderID, order.Total⟩, ?_, rfl, rfl, rfl, ?_⟩
  · unfold FetchOrderWithDetails
    simp only [hf1, hf2, hf3, hnew, hfind]
  · simp only [joinedItems, hfilter]
    rw [hrowsEq]
    apply enrich_lines
    intro item hi
    obtain ⟨v, hv, hid, _⟩ := hlines item hi
    obtain ⟨m, p, hm, hp⟩ := hmap item hi
    refine ⟨g v, m, p, ?_, ?_, hp⟩
    · simp only [List.filter_map]
      have hfun : ((fun u : VariantRow => decide (item.VariantID = u.ID)) ∘ g)
          = fun u => decide (v.ID = u.ID) := by
        funext u
        simp only [Function.comp, hg u, hid]
      rw [hfun, filter_key db.variants hkey v hv]
      rfl
    · simp only [hg v, hid]
      exact hm

/-- C6 amended, with the order of the specification on a catalog that maps
both variants to a product. -/
theorem committed_order_round_trip_witness :
    ∃ o, FetchOrderWithDetails stdExt quietFetch
        (CreateOrderTransaction stdExt quietRun catalogAB basketRoundTrip).store orderOne = .ok o ∧
      o.ID = orderOne ∧ o.Status = OrderStatusAccepted ∧ o.Total = basketRoundTrip.Total ∧
      o.Items.map lineOf = basketRoundTrip.Items.map lineOf :=
  committed_order_round_trip stdExt quietRun quietFetch catalogAB basketRoundTrip orderOne
    rfl rfl (by decide) (by decide) (by decide) (by decide)
    (by
      intro item hi
      simp only [basketRoundTrip, List.mem_cons, List.mem_singleton, List.not_mem_nil,
        or_false] at hi
      rcases hi with h | h <;> subst h
      · exact ⟨⟨productP, variantA⟩, ⟨productP, "P"⟩, by decide, by decide⟩
      · exact ⟨⟨productP, variantB⟩, ⟨productP, "P"⟩, by decide, by decide⟩)
    (by decide)

/-! ## The use case and the handler -/

/-- C13. For an order accepted by `validateOrderData`, whatever the relation
between its total and the sum of quantity times price over its items,
`InsertOrder` writes a header that stores exactly `order.Total`; replacing the
items leaves the header the same, and replacing the total by any other
positive total leaves the order accepted and the results of
`CreateOrderTransaction` the same. -/
theorem header_stores_supplied_total (ext : Ext) (s : TxScript) (db tx : Store) (order : Order)
    (items : List OrderItem) (t : Rat)
    (hvalid : validateOrderData order = none) (hins : s.insertOrderErr = none)
    (ht : 0 < t) :
    InsertOrder s tx order =
        .ok (s.newOrderID,
          { tx with
            orders := tx.orders ++ [⟨s.newOrderID, OrderStatusAccepted, order.Total⟩] }) ∧
      InsertOrder s tx { order with Items := items } = InsertOrder s tx order ∧
      validateOrderData { order with Total := t } = none ∧
      (CreateOrderTransaction ext s db { order with Total := t }).result =
        (CreateOrderTransaction ext s db order).result := by
  refine ⟨by simp [InsertOrder, hins], rfl, ?_, run_result_ignores_total ext s db order t⟩
  obtain ⟨hne, _, hall⟩ := (validateOrderData_none_iff order).mp hvalid
  exact (validateOrderData_none_iff _).mpr ⟨hne, ht, hall⟩

/-- C13, for an order whose total (999) differs from the sum over its items
(20). -/
theorem header_stores_supplied_total_witness :
    basketMismatch.Total ≠ lineSum basketMismatch.Items ∧
      InsertOrder quietRun ledgerAB basketMismatch =
        .ok (orderOne,
          { ledgerAB with orders := ledgerAB.orders ++ [⟨orderOne, OrderStatusAccepted, 999⟩] }) :=
  ⟨by norm_num [basketMismatch, lineSum],
    (header_stores_supplied_total stdExt quietRun ledgerAB ledgerAB basketMismatch [] 20
      (by decide) rfl (by decide)).1⟩

/-- C14. A header written by `InsertOrder` has status `Accepted` whatever `ID`
and `Status` the request carried, and when the use case returns an identifier
the handler `CreateOrder` answers 201 with the request in which `ID` is the
identifier the store assigned and `Status` is `Accepted`. -/
theorem created_order_is_accepted (ext : Ext) (s : TxScript) (db tx : Store) (order : Order)
    (id status oid : String)
    (hok : (usecases.CreateOrder ext s db order).result = .ok oid) :
    (∀ e, s.insertOrderErr ≠ some e) ∧
      InsertOrder s tx { order with ID := id, Status := status } =
        .ok (s.newOrderID,
          { tx with orders := tx.orders ++ [⟨s.newOrderID, "Accepted", order.Total⟩] }) ∧
      oid = s.newOrderID ∧
      (controllers.CreateOrder ext s db order).status = 201 ∧
      (controllers.CreateOrder ext s db order).body =
        { Status := "success", Message := "Order created successfully",
          Data := [("order", { order with ID := s.newOrderID, Status := "Accepted" })] } := by
  have hrun : (CreateOrderTransaction ext s db order).result = .ok oid := by
    unfold usecases.CreateOrder at hok
    cases hv : validateOrderData order with
    | some verr => simp [hv] at hok
    | none =>
      simp only [hv] at hok
      cases hr : (CreateOrderTransaction ext s db order).result with
      | error e => simp [hr] at hok
      | ok o =>
        simp only [hr, Except.ok.injEq] at hok
        rw [hok]
  have hid := run_ok_id ext s db order oid hrun
  have hins : s.insertOrderErr = none := by
    unfold CreateOrderTransaction at hrun
    cases hb : s.beginErr with
    | some e => simp [hb] at hrun
    | none =>
      simp only [hb] at hrun
      cases hc : CheckInventoryAvailability ext s.checkQueryErr db order.Items with
      | error e => simp [hc] at hrun
      | ok b =>
        cases b with
        | false => simp [hc] at hrun
        | true =>
          simp only [hc] at hrun
          cases hu : UpdateInventoryBatch ext s db order.Items with
          | error e => simp [hu] at hrun
          | ok tx1 =>
            simp only [hu] at hrun
            unfold InsertOrder at hrun
            cases hi : s.insertOrderErr with
            | some e => simp [hi] at hrun
            | none => rfl
  refine ⟨by simp [hins], by simp [InsertOrder, hins, OrderStatusAccepted], hid, ?_, ?_⟩
  · unfold controllers.CreateOrder
    simp only [hok]
  · unfold controllers.CreateOrder
    simp only [hok, hid]
    rfl

/-- C14, for a request that carries an identifier and a status of its own. -/
theorem created_order_is_accepted_witness :
    (controllers.CreateOrder stdExt quietRun ledgerAB
        { basketA2 with ID := "mine", Status := "Shipped" }).status = 201 ∧
      (controllers.CreateOrder stdExt quietRun ledgerAB
        { basketA2 with ID := "mine", Status := "Shipped" }).body =
        { Status := "success", Message := "Order created successfully",
          Data := [("order", { basketA2 with ID := orderOne, Status := "Accepted" })] } :=
  have h := created_order_is_accepted stdExt quietRun ledgerAB ledgerAB
    { basketA2 with ID := "mine", Status := "Shipped" } "mine" "Shipped" orderOne rfl
  ⟨h.2.2.2.1, h.2.2.2.2⟩

/-- C15. The use case `CreateOrder` invokes `CreateOrderTransaction` when the
order has an item, a positive total, and a positive quantity and price on every
item; in every other case `validateOrderData` returns an error with code
`ECM400`, and the use case returns that error (and no identifier) without
invoking the repository, the store being left as it was. -/
theorem create_order_validates_before_store (ext : Ext) (s : TxScript) (db : Store)
    (order : Order) :
    ((order.Items ≠ [] ∧ 0 < order.Total ∧
        ∀ item ∈ order.Items, 0 < item.Quantity ∧ 0 < item.Price) →
      (usecases.CreateOrder ext s db order).repoCall =
        some (CreateOrderTransaction ext s db order)) ∧
    (¬ (order.Items ≠ [] ∧ 0 < order.Total ∧
        ∀ item ∈ order.Items, 0 < item.Quantity ∧ 0 < item.Price) →
      ∃ verr, validateOrderData order = some verr ∧ verr.Code = "ECM400" ∧
        (usecases.CreateOrder ext s db order).result = .error (.typed verr) ∧
        (usecases.CreateOrder ext s db order).repoCall = none ∧
        (usecases.CreateOrder ext s db order).store = db) := by
  constructor
  · intro hv
    unfold usecases.CreateOrder
    rw [(validateOrderData_none_iff order).mpr hv]
    simp only
    cases (CreateOrderTransaction ext s db order).result <;> rfl
  · intro hneg
    cases hv : validateOrderData order with
    | none => exact absurd ((validateOrderData_none_iff order).mp hv) hneg
    | some verr =>
      refine ⟨verr, rfl, validateOrderData_some_code order verr hv, ?_, ?_, ?_⟩ <;>
        simp only [usecases.CreateOrder, hv]

/-- C16: the errors the use cases return for business outcomes. For
insufficient stock and for an order that does not exist they are chains of
`fmt.Errorf` values, like the errors returned for storage faults: none of the
four is or wraps a `*errortools.Error`, none carries a code, and the only
difference between a business outcome and a fault is the text. -/
theorem business_outcomes_are_untyped :
    ((usecases.CreateOrder stdExt quietRun ledgerAB basketB3).result =
        .error (.plain (.wrapf "could not create order"
          (.errorf "insufficient inventory for one or more items"))) ∧
      (AppError.plain (.wrapf "could not create order"
          (.errorf "insufficient inventory for one or more items"))).asServerError = none) ∧
    ((usecases.CreateOrder stdExt updateFaultRun ledgerAB basketA2).result =
        .error (.plain (.wrapf "could not create order"
          (.wrapf "could not batch update inventory" (.lib "connection reset by peer")))) ∧
      (AppError.plain (.wrapf "could not create order"
          (.wrapf "could not batch update inventory"
            (.lib "connection reset by peer")))).asServerError = none) ∧
    (usecases.GetOrderByID stdExt quietFetch ledgerAB orderOne =
        .error (.plain (.wrapf "could not fetch order" (.errorf "order not found"))) ∧
      (AppError.plain (.wrapf "could not fetch order"
          (.errorf "order not found"))).asServerError = none) ∧
    (usecases.GetOrderByID stdExt headerQueryFaultFetch ledgerAB orderOne =
        .error (.plain (.wrapf "could not fetch order"
          (.wrapf "could not fetch order" (.lib "connection reset by peer")))) ∧
      (AppError.plain (.wrapf "could not fetch order"
          (.wrapf "could not fetch order"
            (.lib "connection reset by peer")))).asServerError = none) :=
  ⟨⟨rfl, rfl⟩, ⟨rfl, rfl⟩, ⟨rfl, rfl⟩, ⟨rfl, rfl⟩⟩

/-- C17: the status `ErrorGenerator` selects for the two business outcomes. The
error for insufficient stock and the error for an order that does not exist are
not `*errortools.Error` values, so both take the branch for other errors and
are answered with 500, by the handlers as well. -/
theorem business_outcomes_answered_with_500 :
    (ErrorGenerator Order (.plain (.wrapf "could not create order"
        (.errorf "insufficient inventory for one or more items")))).1 = 500 ∧
      (ErrorGenerator Order (.plain (.wrapf "could not fetch order"
        (.errorf "order not found")))).1 = 500 ∧
      (controllers.CreateOrder stdExt quietRun ledgerAB basketB3).status = 500 ∧
      (controllers.GetOrderByID stdExt quietFetch ledgerAB orderOne).status = 500 :=
  ⟨rfl, rfl, rfl, rfl⟩

/-- C18 as stated fails: two storage faults whose texts differ get different
bodies, and the body carries the whole text of the fault, the driver's message
included. -/
theorem fault_body_carries_error_text_counterexample :
    (ErrorGenerator Order (.plain deadlockFault)).1 = 500 ∧
      (ErrorGenerator Order (.plain refusedFault)).1 = 500 ∧
      (ErrorGenerator Order (.plain deadlockFault)).2 ≠
        (ErrorGenerator Order (.plain refusedFault)).2 ∧
      (ErrorGenerator Order (.plain deadlockFault)).2.Error =
        some { Code := "internal_error",
               Msg := "could not create order: could not batch update inventory: pq: deadlock detected",
               Detail := "could not create order: could not batch update inventory: pq: deadlock detected" } :=
  ⟨rfl, rfl, by decide, by decide⟩

/-- C18, amended. For every error that is not a `*errortools.Error`, storage
and transaction faults among them, `ErrorGenerator` answers with status 500 and
a body with status `failure` whose error object has code `internal_error` and
carries the full text of the error in both `msg` and `details`. -/
theorem fault_body_is_error_text (e : GoError) :
    ErrorGenerator Order (.plain e) =
      (500, { Status := "failure",
              Error := some { Code := "internal_error", Msg := e.Error, Detail := e.Error } }) := by
  have hname : errortools.Name "internal_error" = "" := by decide
  simp [ErrorGenerator, errortools.New, errortools.Option.apply, hname]

/-! ## Pagination metadata -/

/-- C19 as stated fails: for page 92233720368547759 with 100 orders per page
and 2 orders in all, the product computed in `int` wraps to a negative number,
so `MetaDataInfo` sets `Next` to the following page although the page times the
page size is not below the total. The use case `GetAllOrders` passes these
values on from the handler unchanged. -/
theorem metadata_next_overflow_counterexample :
    Paginate 92233720368547759 100 consts.DefaultLimit = (92233720368547759, 100) ∧
      ¬ ((92233720368547759 : Int) * 100 < 2) ∧
      MetaDataInfo { Total := 2, PerPage := 100, CurrentPage := 92233720368547759 } =
        some { Total := 2, PerPage := 100, CurrentPage := 92233720368547759,
               Next := 92233720368547760, Prev := 92233720368547758 } ∧
      usecases.GetAllOrders quietList shopAB "" 100 92233720368547759 =
        .ok ([], some { Total := 2, PerPage := 100, CurrentPage := 92233720368547759,
                        Next := 92233720368547760, Prev := 92233720368547758 }) :=
  ⟨by decide, by decide, by decide, by rfl⟩

/-- C19, amended. For a total of at least 1 (and within `int`), a page of at
least 1 and a page size of at least 1 whose product is within `int`,
`MetaDataInfo` applied to the metadata that `GetAllOrders` builds keeps the
total, the page size and the page, sets `Next` to the page plus 1 exactly when
page times page size is below the total (0 otherwise), and sets `Prev` to the
page minus 1 exactly when the page is above 1 (0 otherwise). -/
theorem metadata_next_prev (total page perPage : Int)
    (ht : 1 ≤ total) (htmax : total < 2 ^ 63) (hp : 1 ≤ page) (hpp : 1 ≤ perPage)
    (hprod : page * perPage < 2 ^ 63) :
    MetaDataInfo { Total := total, PerPage := perPage, CurrentPage := page } =
      some { Total := total, PerPage := perPage, CurrentPage := page,
             Next := if page * perPage < total then page + 1 else 0,
             Prev := if 1 < page then page - 1 else 0 } := by
  have hle : page ≤ page * perPage := by nlinarith
  have hpos : 0 ≤ page * perPage := by nlinarith
  have hw : wrap64 (page * perPage) = page * perPage := wrap64_id _ (by omega) hprod
  unfold MetaDataInfo
  simp only [not_lt.mpr ht, if_false, hw]
  by_cases hn : page * perPage < total
  · have hw1 : wrap64 (page + 1) = page + 1 := wrap64_id _ (by omega) (by omega)
    by_cases h1 : 1 < page
    · have hw2 : wrap64 (page - 1) = page - 1 := wrap64_id _ (by omega) (by omega)
      simp [hn, h1, hw1, hw2]
    · simp [hn, h1, hw1]
  · by_cases h1 : 1 < page
    · have hw2 : wrap64 (page - 1) = page - 1 := wrap64_id _ (by omega) (by omega)
      simp [hn, h1, hw2]
    · simp [hn, h1]

/-- C19 amended, with the numbers of the specification: 15 orders, 10 per
page, pages 1 and 2. -/
theorem metadata_next_prev_witness :
    MetaDataInfo { Total := 15, PerPage := 10, CurrentPage := 1 } =
        some { Total := 15, PerPage := 10, CurrentPage := 1, Next := 2, Prev := 0 } ∧
      MetaDataInfo { Total := 15, PerPage := 10, CurrentPage := 2 } =
        some { Total := 15, PerPage := 10, CurrentPage := 2, Next := 0, Prev := 1 } :=
  ⟨metadata_next_prev 15 1 10 (by decide) (by decide) (by decide) (by decide) (by decide),
    metadata_next_prev 15 2 10 (by decide) (by decide) (by decide) (by decide) (by decide)⟩

/-! ## The listing -/

/-- C20. When the three queries of `FetchOrdersWithDetails` succeed and the
store returns each group once (in an order of its choosing): with a negative
limit or offset the call returns an error; otherwise it returns a page and a
total, where the total is the number of distinct identifiers of the orders
matching the filter (of all orders when the filter is empty), an expression in
which limit and offset do not occur, and the page has at most `limit` orders,
no identifier twice, and on each order only items that come from rows of
`order_items` whose `order_id` is the order's identifier. -/
theorem listing_total_and_page (s : ListScript) (db : Store) (searchQuery : String)
    (limit offset : Int)
    (hperm : ∀ l, (s.arrange l).Perm l)
    (hquiet : s.countErr = none ∧ s.ordersQueryErr = none ∧ s.itemsQueryErr = none) :
    ((limit < 0 ∨ offset < 0) →
        ∃ e, FetchOrdersWithDetails s db searchQuery limit offset = .error e) ∧
    (0 ≤ limit → 0 ≤ offset →
      ∃ orders, FetchOrdersWithDetails s db searchQuery limit offset =
          .ok (orders,
            (((db.orders.filter (fun o =>
              decide (searchQuery = "") || matchesSearch s db searchQuery o)).map
                (fun o => o.ID)).dedup.length : Int)) ∧
        (orders.length : Int) ≤ limit ∧
        (orders.map (fun o => o.ID)).Nodup ∧
        ∀ o ∈ orders, ∀ item ∈ o.Items,
          ∃ oi ∈ db.orderItems, oi.OrderID = o.ID ∧ item ∈ enrich db oi) := by
  obtain ⟨hc, ho, hi⟩ := hquiet
  constructor
  · intro hneg
    unfold FetchOrdersWithDetails
    simp only [hc, ho]
    by_cases hl : limit < 0
    · exact ⟨_, by simp only [hl, if_true]; rfl⟩
    · have hoff : offset < 0 := by
        rcases hneg with h | h
        · exact absurd h hl
        · exact h
      exact ⟨_, by simp only [hl, hoff, if_true, if_false]; rfl⟩
  · intro hl hoff
    have hmatch : matchingOrders s db searchQuery =
        db.orders.filter (fun o =>
          decide (searchQuery = "") || matchesSearch s db searchQuery o) := by
      unfold matchingOrders
      by_cases hq : searchQuery = ""
      · simp [hq]
      · simp [hq]
    have htotal : ((groupByID [] (matchingOrders s db searchQuery)).length : Int) =
        (((db.orders.filter (fun o =>
          decide (searchQuery = "") || matchesSearch s db searchQuery o)).map
            (fun o => o.ID)).dedup.length : Int) := by
      rw [groupByID_length, hmatch]
    have hpageNodup : ((((s.arrange (groupByID [] (matchingOrders s db searchQuery))).drop
        offset.toNat).take limit.toNat).map (fun o => o.ID)).Nodup := by
      have h1 : ((s.arrange (groupByID [] (matchingOrders s db searchQuery))).map
          (fun o => o.ID)).Nodup :=
        ((hperm _).map _).nodup_iff.mpr (groupByID_spec [] _).1
      exact List.Nodup.sublist
        (((List.take_sublist _ _).trans (List.drop_sublist _ _)).map _) h1
    have hpageLen : ((((s.arrange (groupByID [] (matchingOrders s db searchQuery))).drop
        offset.toNat).take limit.toNat).length : Int) ≤ limit := by
      have h1 : (((s.arrange (groupByID [] (matchingOrders s db searchQuery))).drop
          offset.toNat).take limit.toNat).length ≤ limit.toNat := List.length_take_le _ _
      omega
    unfold FetchOrdersWithDetails
    simp only [hc, ho, hi, not_lt.mpr hl, not_lt.mpr hoff, if_false, htotal]
    by_cases hempty : (((s.arrange (groupByID [] (matchingOrders s db searchQuery))).drop
        offset.toNat).take limit.toNat).length = 0
    · simp only [hempty, if_true]
      refine ⟨[], rfl, ?_, List.nodup_nil, fun o ho => absurd ho (List.not_mem_nil _)⟩
      simpa using hl
    · simp only [hempty, if_false]
      refine ⟨_, rfl, ?_, ?_, ?_⟩
      · have hlen := congrArg List.length (assignItems_ids
          (itemsOfOrders db ((((s.arrange (groupByID [] (matchingOrders s db searchQuery))).drop
            offset.toNat).take limit.toNat).map (fun o => o.ID)))
          (((s.arrange (groupByID [] (matchingOrders s db searchQuery))).drop
            offset.toNat).take limit.toNat))
        simp only [List.length_map] at hlen
        rw [hlen]
        exact hpageLen
      · rw [assignItems_ids]
        exact hpageNodup
      · intro o ho item hitem
        exact mem_itemsOfOrders db _ o.ID item (assignItems_items _ _ o ho item hitem)

/-- C20, on the store with two orders, listing all of them with room for 10
and with room for 1. -/
theorem listing_total_and_page_witness :
    FetchOrdersWithDetails quietList shopAB "" 10 0 =
        .ok ([{ ID := orderOne, Status := "Accepted",
                Items := [{ VariantID := variantA, Quantity := 2, Price := 10,
                            VariantName := "A", ProductName := "P" },
                          { VariantID := variantB, Quantity := 1, Price := 5,
                            VariantName := "B", ProductName := "P" }],
                Total := 25 },
              { ID := orderTwo, Status := "Accepted", Items := [], Total := 7 }], 2) ∧
      ∃ orders, FetchOrdersWithDetails quietList shopAB "" 1 1 =
          .ok (orders,
            (((shopAB.orders.filter (fun o =>
              decide (("" : String) = "") || matchesSearch quietList shopAB "" o)).map
                (fun o => o.ID)).dedup.length : Int)) ∧
        (orders.length : Int) ≤ 1 ∧
        (orders.map (fun o => o.ID)).Nodup ∧
        ∀ o ∈ orders, ∀ item ∈ o.Items,
          ∃ oi ∈ shopAB.orderItems, oi.OrderID = o.ID ∧ item ∈ enrich shopAB oi :=
  ⟨by rfl,
    (listing_total_and_page quietList shopAB "" 1 1 (fun _ => List.Perm.refl _)
      ⟨rfl, rfl, rfl⟩).2 (by decide) (by decide)⟩

/-! ## The statements of the batched writes -/

/-- C23. For a non-empty item list of length `n`, `InsertOrderItemsBatch` hands
exactly one statement to `tx.ExecContext`: the insert into `order_items` whose
`VALUES` clause joins `n` tuples with `", "`, tuple `i` being
`($4i+1, $4i+2, $4i+3, $4i+4)`, with `4n` arguments of which positions `4i` to
`4i+3` are the order identifier and the variant identifier, quantity and price
of item `i`. The rows of a statement that executes keep the order of the items
and carry the order identifier. -/
theorem insert_items_is_one_statement (ext : Ext) (orderID : String) (items : List OrderItem)
    (hne : items ≠ []) :
    ∃ tuples args,
      insertItemsStatements orderID items =
        [{ query :=
            "\n        INSERT INTO order_items (order_id, variant_id, quantity, price)\n        VALUES "
              ++ ", ".intercalate tuples,
           args := args }] ∧
      tuples.length = items.length ∧ args.length = 4 * items.length ∧
      (∀ i item, items[i]? = some item →
        tuples[i]? = some ("($" ++ toString (i * 4 + 1) ++ ", $" ++ toString (i * 4 + 2) ++
          ", $" ++ toString (i * 4 + 3) ++ ", $" ++ toString (i * 4 + 4) ++ ")") ∧
        args[4 * i]? = some (.text orderID) ∧
        args[4 * i + 1]? = some (.text item.VariantID) ∧
        args[4 * i + 2]? = some (.int item.Quantity) ∧
        args[4 * i + 3]? = some (.float item.Price)) ∧
      (∀ rows, itemRows ext orderID items = some rows →
        rows.map (fun r => (r.Quantity, r.Price)) =
            items.map (fun it => (it.Quantity, it.Price)) ∧
          ∀ r ∈ rows, ext.pgUuid orderID = some r.OrderID) := by
  have h0 : items.length ≠ 0 := fun h => hne (List.length_eq_zero.mp h)
  refine ⟨(insertItemsLoop orderID 0 items).1, (insertItemsLoop orderID 0 items).2, ?_,
    (insertItemsLoop_length orderID 0 items).1, (insertItemsLoop_length orderID 0 items).2,
    ?_, fun rows hrows => itemRows_shape ext orderID items rows hrows⟩
  · simp only [insertItemsStatements, h0, if_false]
  · intro i item hi
    have h := insertItemsLoop_get orderID 0 items i item hi
    rw [Nat.zero_add] at h
    exact h

/-- C23, for the two-line basket of the round-trip example. -/
theorem insert_items_is_one_statement_witness :
    insertItemsStatements orderOne basketRoundTrip.Items =
      [{ query :=
          "\n        INSERT INTO order_items (order_id, variant_id, quantity, price)\n        VALUES ($1, $2, $3, $4), ($5, $6, $7, $8)",
         args := [.text orderOne, .text variantA, .int 2, .float 10,
                  .text orderOne, .text variantB, .int 1, .float 5] }] :=
  have h := insert_items_is_one_statement stdExt orderOne basketRoundTrip.Items (by decide)
  h.elim (fun _ _ => by decide)

/-- C24. For a non-empty item list of length `n` whose variant identifiers all
parse, `UpdateInventoryBatch` hands exactly one statement to `tx.ExecContext`:
the update of `variants` whose `VALUES` list joins `n` tuples with `", "`,
tuple `i` being `($2i+1::uuid, $2i+2::integer)`, with `2n` arguments of which
positions `2i` and `2i+1` are the parsed identifier and the quantity of item
`i`. -/
theorem update_inventory_is_one_statement (ext : Ext) (items : List OrderItem)
    (hne : items ≠ [])
    (hparse : ∀ item ∈ items, ∃ id, ext.uuidParse item.VariantID = some id) :
    ∃ tuples args,
      updateInventoryStatements ext items =
        .ok [{ query :=
                "\n        UPDATE variants\n        SET quantity = variants.quantity - tmp.quantity\n        FROM (VALUES "
                  ++ ", ".intercalate tuples ++
                  ") AS tmp(variant_id, quantity)\n              WHERE variants.id = tmp.variant_id AND variants.quantity >= tmp.quantity",
               args := args }] ∧
      tuples.length = items.length ∧ args.length = 2 * items.length ∧
      ∀ i item, items[i]? = some item →
        tuples[i]? = some ("($" ++ toString (i * 2 + 1) ++ "::uuid, $" ++
          toString (i * 2 + 2) ++ "::integer)") ∧
        ∃ id, ext.uuidParse item.VariantID = some id ∧
          args[2 * i]? = some (.uuid id) ∧ args[2 * i + 1]? = some (.int item.Quantity) := by
  have h0 : items.length ≠ 0 := fun h => hne (List.length_eq_zero.mp h)
  obtain ⟨r, hr, hl1, hl2, hget⟩ := updateInventoryLoop_ok ext 0 items hparse
  refine ⟨r.1, r.2, ?_, hl1, hl2, ?_⟩
  · simp only [updateInventoryStatements, h0, if_false, hr]
  · intro i item hi
    have h := hget i item hi
    rw [Nat.zero_add] at h
    exact h

/-- C24, for the two-line basket of the round-trip example. -/
theorem update_inventory_is_one_statement_witness :
    updateInventoryStatements stdExt basketRoundTrip.Items =
      .ok [{ query :=
              "\n        UPDATE variants\n        SET quantity = variants.quantity - tmp.quantity\n        FROM (VALUES ($1::uuid, $2::integer), ($3::uuid, $4::integer)) AS tmp(variant_id, quantity)\n              WHERE variants.id = tmp.variant_id AND variants.quantity >= tmp.quantity",
             args := [.uuid variantA, .int 2, .uuid variantB, .int 1] }] :=
  have h := update_inventory_is_one_statement stdExt basketRoundTrip.Items (by decide)
    (by
      intro item hi
      simp only [basketRoundTrip, List.mem_cons, List.mem_singleton, List.not_mem_nil,
        or_false] at hi
      rcases hi with h | h <;> subst h
      · exact ⟨variantA, by decide⟩
      · exact ⟨variantB, by decide⟩)
  h.elim (fun _ _ => by rfl)

/-- C25. When `CreateOrderTransaction` is given an order without items and no
call into the store fails, the availability check returns `true`,
`UpdateInventoryBatch` and `InsertOrderItemsBatch` return `nil` without handing
a statement to the store, and the transaction is committed with one new order
header, no new line and every row of `variants` as it was. -/
theorem empty_order_commits_header_only (ext : Ext) (s : TxScript) (db : Store) (order : Order)
    (hnil : order.Items = [])
    (hquiet : s.beginErr = none ∧ s.checkQueryErr = none ∧ s.updateExecErr = none ∧
      s.insertOrderErr = none ∧ s.insertItemsErr = none ∧ s.commitErr = none) :
    CheckInventoryAvailability ext s.checkQueryErr db order.Items = .ok true ∧
      UpdateInventoryBatch ext s db order.Items = .ok db ∧
      updateInventoryStatements ext order.Items = .ok [] ∧
      (∀ tx orderID, InsertOrderItemsBatch ext s tx orderID order.Items = .ok tx ∧
        insertItemsStatements orderID order.Items = []) ∧
      (CreateOrderTransaction ext s db order).result = .ok s.newOrderID ∧
      (CreateOrderTransaction ext s db order).finish = .commit ∧
      (CreateOrderTransaction ext s db order).store =
        { db with
          orders := db.orders ++ [⟨s.newOrderID, OrderStatusAccepted, order.Total⟩] } := by
  obtain ⟨hb, hc, _, hi, _, hcm⟩ := hquiet
  have hcheck : CheckInventoryAvailability ext s.checkQueryErr db order.Items = .ok true := by
    rw [hnil, hc]
    rfl
  have hupd : UpdateInventoryBatch ext s db order.Items = .ok db := by
    rw [hnil]
    rfl
  have hins : ∀ tx orderID, InsertOrderItemsBatch ext s tx orderID order.Items = .ok tx := by
    intro tx orderID
    rw [hnil]
    rfl
  refine ⟨hcheck, hupd, by rw [hnil]; rfl,
    fun tx orderID => ⟨hins tx orderID, by rw [hnil]; rfl⟩, ?_, ?_, ?_⟩ <;>
    simp only [CreateOrderTransaction, hb, hcheck, hupd, InsertOrder, hi, hins, deferred, hcm]

/-- C25, on the two-variant ledger. -/
theorem empty_order_commits_header_only_witness :
    (CreateOrderTransaction stdExt quietRun ledgerAB { Items := [], Total := 5 }).result =
        .ok orderOne ∧
      (CreateOrderTransaction stdExt quietRun ledgerAB { Items := [], Total := 5 }).store =
        { ledgerAB with orders := [⟨orderOne, OrderStatusAccepted, 5⟩] } :=
  have h := empty_order_commits_header_only stdExt quietRun ledgerAB
    { Items := [], Total := 5 } rfl ⟨rfl, rfl, rfl, rfl, rfl, rfl⟩
  ⟨h.2.2.2.2.1, h.2.2.2.2.2.2⟩

/-! ## Pagination parameters -/

/-- C26. For all integers `page` and `limit`, `Paginate(page, limit, 10)`
returns a page of at least 1 and a limit between 1 and 100: the page itself
when it is at least 1 and 1 otherwise, the limit itself when it is between 1
and 100 and 10 otherwise. -/
theorem paginate_bounds (page limit : Int) :
    1 ≤ (Paginate page limit 10).1 ∧
      1 ≤ (Paginate page limit 10).2 ∧ (Paginate page limit 10).2 ≤ 100 ∧
      (Paginate page limit 10).1 = (if 1 ≤ page then page else 1) ∧
      (Paginate page limit 10).2 = (if 1 ≤ limit ∧ limit ≤ 100 then limit else 10) := by
  unfold Paginate
  simp only [consts.DefaultPage, consts.DefaultLimit, consts.MaxLimit]
  by_cases hp : page ≤ 0 <;> by_cases hl : limit ≤ 0 <;> by_cases hm : limit > 100 <;>
    simp [hp, hl, hm] <;> omega

/-- C27 as stated fails: for page 9223372036854775807 and limit 100, values the
handler accepts and `Paginate` keeps, the offset `(page - 1) * limit` computed
in `int` is -200, not the product, and the store rejects it. -/
theorem page_offset_overflow_counterexample :
    Paginate 9223372036854775807 100 consts.DefaultLimit = (9223372036854775807, 100) ∧
      pageOffset 100 9223372036854775807 = -200 ∧
      ((9223372036854775807 : Int) - 1) * 100 = 922337203685477580600 ∧
      usecases.GetAllOrders quietList shopAB "" 100 9223372036854775807 =
        .error (.plain (.wrapf "could not fetch orders"
          (.wrapf "could not fetch orders" (.lib "OFFSET must not be negative")))) :=
  ⟨by decide, by decide, by decide, by rfl⟩

/-- C27, amended. For every page and limit the handler can pass (and indeed
for all integers), when the product of the paginated page minus 1 and the
paginated limit is within `int`, the offset that `GetAllOrders` hands to
`FetchOrdersWithDetails` is that product and is non-negative. -/
theorem page_offset_is_product (s : ListScript) (db : Store) (searchQuery : String)
    (limit page : Int)
    (hprod : ((Paginate page limit consts.DefaultLimit).1 - 1) *
      (Paginate page limit consts.DefaultLimit).2 < 2 ^ 63) :
    usecases.GetAllOrders s db searchQuery limit page =
        (match FetchOrdersWithDetails s db searchQuery
            (Paginate page limit consts.DefaultLimit).2 (pageOffset limit page) with
          | .error e => .error (.plain (.wrapf "could not fetch orders" e))
          | .ok (orders, total) =>
            .ok (orders, MetaDataInfo
              { Total := total, PerPage := (Paginate page limit consts.DefaultLimit).2,
                CurrentPage := (Paginate page limit consts.DefaultLimit).1 })) ∧
      pageOffset limit page =
        ((Paginate page limit consts.DefaultLimit).1 - 1) *
          (Paginate page limit consts.DefaultLimit).2 ∧
      0 ≤ pageOffset limit page := by
  have hb := paginate_bounds_aux page limit
  have hnn : 0 ≤ ((Paginate page limit consts.DefaultLimit).1 - 1) *
      (Paginate page limit consts.DefaultLimit).2 :=
    Int.mul_nonneg (by omega) (by omega)
  have hw : pageOffset limit page =
      ((Paginate page limit consts.DefaultLimit).1 - 1) *
        (Paginate page limit consts.DefaultLimit).2 := by
    unfold pageOffset
    exact wrap64_id _ (by omega) hprod
  refine ⟨rfl, hw, ?_⟩
  rw [hw]
  exact hnn

/-- C27 amended, for page 3 and limit 10. -/
theorem page_offset_is_product_witness :
    pageOffset 10 3 = (3 - 1) * 10 ∧ 0 ≤ pageOffset 10 3 :=
  have h := page_offset_is_product quietList shopAB "" 10 3 (by decide)
  ⟨h.2.1, h.2.2⟩

/-! ## Identifier matching and page order -/

/-- C29. `CheckInventoryAvailability` looks a line up by the text of its
`VariantID`: when the query succeeds and some line's `VariantID` differs, as a
string, from the identifier of every row read, the verdict is `false`,
whatever the identifier parses to. -/
theorem check_matches_identifier_text (ext : Ext) (db : Store) (items : List OrderItem)
    (ids : List String)
    (hcast : castAll ext.pgUuid (items.map (fun item => item.VariantID)) = some ids)
    (hline : ∃ item ∈ items, ∀ r ∈ selectInventory ids db.variants, r.1 ≠ item.VariantID) :
    CheckInventoryAvailability ext none db items = .ok false := by
  obtain ⟨item, hi, hdiff⟩ := hline
  simp only [CheckInventoryAvailability, hcast]
  congr 1
  cases hb : availabilityVerdict (selectInventory ids db.variants) items with
  | false => rfl
  | true =>
    exfalso
    unfold availabilityVerdict at hb
    obtain ⟨q, hq, _⟩ := (checkLines_iff _ _).mp hb item hi
    exact hdiff (item.VariantID, q) (buildInventory_some _ _ _ hq) rfl

/-- C29, for the upper-case spelling of a stored identifier: it parses (by
`uuid.Parse`, as `UpdateInventoryBatch` does) to the first variant, of which 3
units remain, the row of that variant is read, and the verdict for 1 unit is
`false`. -/
theorem check_matches_identifier_text_witness :
    stdExt.uuidParse variantAUpper = some variantA ∧
      remaining ledgerAB variantA = some 3 ∧
      selectInventory [variantA] ledgerAB.variants = [(variantA, 3)] ∧
      CheckInventoryAvailability stdExt none ledgerAB
        [{ VariantID := variantAUpper, Quantity := 1, Price := 10 }] = .ok false :=
  ⟨by decide, by decide, by decide,
    check_matches_identifier_text stdExt ledgerAB
      [{ VariantID := variantAUpper, Quantity := 1, Price := 10 }] [variantA] (by decide)
      ⟨{ VariantID := variantAUpper, Quantity := 1, Price := 10 }, by decide, by decide⟩⟩

/-- C21: two pages of size 1 over an unchanged store with two orders. The query
has no `ORDER BY`, so the store may return the groups in table order for the
first page (offset 0) and in reverse order for the second (offset 1); each is
an arrangement of the same groups. Both pages then hold the first order and
the second order is on neither. -/
theorem pages_without_order_overlap :
    (∀ l, (quietList.arrange l).Perm l) ∧ (∀ l, (reversedList.arrange l).Perm l) ∧
      pageIDs (FetchOrdersWithDetails quietList shopAB "" 1 0) = [orderOne] ∧
      pageIDs (FetchOrdersWithDetails reversedList shopAB "" 1 1) = [orderOne] ∧
      orderTwo ∈ shopAB.orders.map (fun o => o.ID) ∧
      orderTwo ∉ pageIDs (FetchOrdersWithDetails quietList shopAB "" 1 0) ++
        pageIDs (FetchOrdersWithDetails reversedList shopAB "" 1 1) :=
  ⟨fun _ => List.Perm.refl _, fun l => List.reverse_perm l, by decide, by decide, by decide,
    by decide⟩

/-! ## API versions -/

/-- C30. For a non-empty URL version `v` and a configuration that loads,
`ApiVersioning` passes the request on exactly when some accepted version `s`
has `ToUpper(s)` equal to `ToUpper` of `v` with every `'.'` replaced by `'_'`;
the index it records is that of the last such `s`; and, `unicode.ToUpper`
mapping `'.'` and nothing else to `'.'`, an accepted version that contains a
`'.'` is matched by no request version. -/
theorem api_versioning_accepts_iff_listed (upper : Char → Char) (versions : List String)
    (v : String) (hv : v ≠ "") :
    ((∃ ctx, ApiVersioning upper (some versions) v = .next ctx) ↔
        ∃ s ∈ versions, ToUpper upper s = ToUpper upper (PrepareVersionName v)) ∧
      (∀ ctx, ApiVersioning upper (some versions) v = .next ctx →
        ctx.acceptedVersion = ToUpper upper (PrepareVersionName v) ∧
        ∃ s, versions[ctx.acceptedVersionIndex]? = some s ∧
          ToUpper upper s = ToUpper upper (PrepareVersionName v) ∧
          ∀ j t, ctx.acceptedVersionIndex < j → versions[j]? = some t →
            ToUpper upper t ≠ ToUpper upper (PrepareVersionName v)) ∧
      ((upper '.' = '.' ∧ ∀ c, upper c = '.' → c = '.') →
        ∀ s, '.' ∈ s.data → ∀ w : String,
          ToUpper upper s ≠ ToUpper upper (PrepareVersionName w)) := by
  refine ⟨?_, ?_, fun hdot s hs w => dotted_version_never_matches upper hdot s w hs⟩
  · unfold ApiVersioning
    simp only [hv, if_false]
    cases hl : versionLoop upper (ToUpper upper (PrepareVersionName v)) 0 versions none with
    | none =>
      have hnone := (versionLoop_none upper _ 0 versions none).mp hl
      constructor
      · rintro ⟨ctx, h⟩
        exact absurd h (by simp)
      · rintro ⟨s, hs, hm⟩
        exact absurd hm (hnone.2 s hs)
    | some i =>
      constructor
      · intro _
        rcases versionLoop_some upper _ 0 versions none i hl with ⟨h1, _⟩ | ⟨k, s, _, hs, hm, _⟩
        · exact absurd h1 (by simp)
        · exact ⟨s, List.getElem?_mem hs, hm⟩
      · intro _
        exact ⟨_, rfl⟩
  · intro ctx h
    unfold ApiVersioning at h
    simp only [hv, if_false] at h
    cases hl : versionLoop upper (ToUpper upper (PrepareVersionName v)) 0 versions none with
    | none => simp [hl] at h
    | some i =>
      simp only [hl, VersioningResult.next.injEq] at h
      rw [← h]
      refine ⟨rfl, ?_⟩
      rcases versionLoop_some upper _ 0 versions none i hl with ⟨h1, _⟩ | ⟨k, s, hk, hs, hm, hlast⟩
      · exact absurd h1 (by simp)
      · have hik : i = k := by omega
        subst hik
        exact ⟨s, hs, hm, hlast⟩

/-- C30, for the configuration default `v1.0`, which no request matches, and
for a list in which the request `v1` matches two entries. -/
theorem api_versioning_accepts_iff_listed_witness :
    ApiVersioning asciiUpper (some ["v1.0"]) "v1.0" =
        .abort 400 "Given version is not supported by the system" ∧
      ApiVersioning asciiUpper (some ["v1", "V1", "v2"]) "v1" =
        .next ⟨"V1", ["v1", "V1", "v2"], 1⟩ ∧
      ∀ w : String, ToUpper asciiUpper "v1.0" ≠ ToUpper asciiUpper (PrepareVersionName w) :=
  ⟨by decide, by decide,
    (api_versioning_accepts_iff_listed asciiUpper ["v1.0"] "v1.0" (by decide)).2.2
      asciiUpper_dot "v1.0" (by decide)⟩

/-! ## Who writes the ledger -/

/-- C22 as stated fails: `UpdateVariant` sets the quantity of the first variant
from 3 to 100 with no condition on the quantity, and it is not the guarded
decrement. -/
theorem update_variant_overwrites_quantity_counterexample :
    remaining ledgerAB variantA = some 3 ∧
      remaining (RepoOp.run stdExt quietRun none ledgerAB
        (.UpdateVariant ⟨variantA, "A", 10, 100, true⟩)) variantA = some 100 :=
  ⟨by decide, by decide⟩

/-- C22, amended. Among the operations of the repository, those that do not
assign `variants.quantity` (all but `UpdateVariant`, `UpdateInventoryBatch` and
`CreateOrderTransaction`, which runs `UpdateInventoryBatch`) leave the
identifier and quantity of every existing variant as they were, adding rows at
most; and `UpdateVariant`, when it executes, writes the caller's quantity into
every active row with the given identifier whatever quantity the row held, and
leaves the other rows unchanged. -/
theorem quantity_writers (ext : Ext) (s : TxScript) (fault : Option GoError) (db : Store) :
    (∀ op : RepoOp, op.writesQuantity = false →
        quantities db <+: quantities (op.run ext s fault db)) ∧
      (∀ variant id, ext.pgUuid variant.ID = some id →
        List.Forall₂
          (fun v w =>
            (v.ID = id ∧ v.IsActive = true → w.ID = v.ID ∧ w.Quantity = variant.Quantity) ∧
            (¬ (v.ID = id ∧ v.IsActive = true) → w = v))
          db.variants (RepoOp.run ext s none db (.UpdateVariant variant)).variants) := by
  constructor
  · intro op hop
    cases op with
    | InsertCategory => exact List.prefix_refl _
    | UpdateCategory => exact List.prefix_refl _
    | DeleteCategory => exact List.prefix_refl _
    | InsertProduct newID name childVariants =>
      simp only [RepoOp.run, InsertProduct]
      cases fault with
      | some e => exact List.prefix_refl _
      | none =>
        cases castAll ext.pgUuid childVariants with
        | none => exact List.prefix_refl _
        | some ids => exact List.prefix_refl _
    | UpdateProduct productID name childVariants =>
      simp only [RepoOp.run, UpdateProduct]
      cases fault with
      | some e => exact List.prefix_refl _
      | none =>
        cases ext.pgUuid productID with
        | none => exact List.prefix_refl _
        | some id =>
          cases castAll ext.pgUuid childVariants with
          | none => exact List.prefix_refl _
          | some ids => exact List.prefix_refl _
    | DeleteProduct productID => exact List.prefix_refl _
    | InsertVariant newID variant =>
      simp only [RepoOp.run, InsertVariant]
      cases fault with
      | some e => exact List.prefix_refl _
      | none =>
        simp only [quantities, List.map_append]
        exact List.prefix_append _ _
    | UpdateVariant variant => simp [RepoOp.writesQuantity] at hop
    | DeleteVariant variantID =>
      simp only [RepoOp.run, DeleteVariant]
      cases fault with
      | some e => exact List.prefix_refl _
      | none =>
        cases ext.pgUuid variantID with
        | none => exact List.prefix_refl _
        | some id =>
          have : quantities
              { db with
                variants := db.variants.map fun v =>
                  if v.ID = id ∧ v.IsActive = true then { v with IsActive := false } else v }
              = quantities db := by
            simp only [quantities, List.map_map]
            apply List.map_congr_left
            intro v _
            by_cases hc : v.ID = id ∧ v.IsActive = true <;> simp [hc]
          simp only [this]
          exact List.prefix_refl _
    | UpdateInventoryBatch items => simp [RepoOp.writesQuantity] at hop
    | CreateOrderTransaction order => simp [RepoOp.writesQuantity] at hop
    | InsertOrder order =>
      simp only [RepoOp.run, InsertOrder]
      cases s.insertOrderErr with
      | some e => exact List.prefix_refl _
      | none => exact List.prefix_refl _
    | InsertOrderItemsBatch orderID items =>
      simp only [RepoOp.run, InsertOrderItemsBatch]
      by_cases h0 : items.length = 0
      · simp only [h0, if_true]
        exact List.prefix_refl _
      · simp only [h0, if_false]
        cases s.insertItemsErr with
        | some e => exact List.prefix_refl _
        | none =>
          cases itemRows ext orderID items with
          | none => exact List.prefix_refl _
          | some rows => exact List.prefix_refl _
    | query => exact List.prefix_refl _
  · intro variant id hid
    simp only [RepoOp.run, UpdateVariant, hid]
    apply forall2_map_right
    intro v _
    by_cases hc : v.ID = id ∧ v.IsActive = true
    · rw [if_pos hc]
      exact ⟨fun _ => ⟨rfl, rfl⟩, fun h => absurd hc h⟩
    · rw [if_neg hc]
      exact ⟨fun h => absurd h hc, fun _ => rfl⟩

/-- C22 amended, on the two-variant ledger: deleting a variant keeps every
quantity, and `UpdateVariant` writes 100 over the 3 units of the first
variant. -/
theorem quantity_writers_witness :
    quantities ledgerAB <+:
        quantities (RepoOp.run stdExt quietRun none ledgerAB (.DeleteVariant variantA)) ∧
      List.Forall₂
        (fun v w =>
          (v.ID = variantA ∧ v.IsActive = true → w.ID = v.ID ∧ w.Quantity = 100) ∧
          (¬ (v.ID = variantA ∧ v.IsActive = true) → w = v))
        ledgerAB.variants
        (RepoOp.run stdExt quietRun none ledgerAB
          (.UpdateVariant ⟨variantA, "A", 10, 100, true⟩)).variants :=
  ⟨(quantity_writers stdExt quietRun none ledgerAB).1 (.DeleteVariant variantA) rfl,
    (quantity_writers stdExt quietRun none ledgerAB).2 ⟨variantA, "A", 10, 100, true⟩ variantA
      (by decide)⟩

/-! ## The validation error -/

/-- C28. The error `validateOrderData` builds holds one record per violated
rule: under `order items` one record exactly when the item list is empty,
under `order total` one exactly when the total is `<= 0`, under
`<VariantID>.order quantity` one for each item with that identifier and a
quantity `<= 0`, and under `<VariantID>.order price` one for each item with
that identifier and a price `<= 0`, in item order; there is one entry per key,
the number of records is the number of violations, and `validateOrderData`
returns `nil` exactly when that number is 0 and the built error otherwise. -/
theorem validation_error_records (order : Order) :
    recordsAt (buildValidationErr order) "order items" =
        (if order.Items = [] then [⟨"ECM416", "Require the order items"⟩] else []) ∧
      recordsAt (buildValidationErr order) "order total" =
        (if order.Total ≤ 0 then [⟨"ECM411", "Invalid order total"⟩] else []) ∧
      (∀ v, recordsAt (buildValidationErr order) (v ++ ".order quantity") =
        (order.Items.filter
          (fun item => decide (item.VariantID = v) && decide (item.Quantity ≤ 0))).map
            (fun _ => ⟨"ECM411", "Invalid order quantity"⟩)) ∧
      (∀ v, recordsAt (buildValidationErr order) (v ++ ".order price") =
        (order.Items.filter
          (fun item => decide (item.VariantID = v) && decide (item.Price ≤ 0))).map
            (fun _ => ⟨"ECM411", "Invalid order price"⟩)) ∧
      ((buildValidationErr order).ValidationFails.map Prod.fst).Nodup ∧
      recordCount (buildValidationErr order) = violations order ∧
      (validateOrderData order = none ↔ violations order = 0) ∧
      (∀ verr, validateOrderData order = some verr → verr = buildValidationErr order) := by
  obtain ⟨hrec, hkeys, hcount⟩ := buildValidationErr_records order
  have hreq : recordOf errortools.Required consts.OrderItems =
      ⟨"ECM416", "Require the order items"⟩ := by decide
  have htot : recordOf errortools.Invalid consts.OrderTotal =
      ⟨"ECM411", "Invalid order total"⟩ := by decide
  have hqty : recordOf errortools.Invalid consts.OrderQuantity =
      ⟨"ECM411", "Invalid order quantity"⟩ := by decide
  have hprice : recordOf errortools.Invalid consts.OrderPrice =
      ⟨"ECM411", "Invalid order price"⟩ := by decide
  refine ⟨?_, ?_, ?_, ?_, hkeys, hcount, ?_, ?_⟩
  · rw [hrec, itemRecords_at_header "order items" 's' (by decide) (by decide) (by decide)]
    have h1 : (("order items" : String) = consts.OrderItems) = True := by decide
    have h2 : (("order items" : String) = consts.OrderTotal) = False := by decide
    simp only [h1, h2, and_true, and_false, if_false, List.append_nil, hreq]
  · rw [hrec, itemRecords_at_header "order total" 'l' (by decide) (by decide) (by decide)]
    have h1 : (("order total" : String) = consts.OrderTotal) = True := by decide
    have h2 : (("order total" : String) = consts.OrderItems) = False := by decide
    simp only [h2, h1, and_true, and_false, if_false, List.append_nil, List.nil_append, htot]
  · intro v
    have h1 : v ++ ".order quantity" ≠ consts.OrderItems :=
      ne_of_last_char _ _ 'y' 's' (quantity_key_last v) (by decide) (by decide)
    have h2 : v ++ ".order quantity" ≠ consts.OrderTotal :=
      ne_of_last_char _ _ 'y' 'l' (quantity_key_last v) (by decide) (by decide)
    rw [hrec, itemRecords_at_quantity]
    simp only [h1, h2, and_false, if_false, List.nil_append, hqty]
  · intro v
    have h1 : v ++ ".order price" ≠ consts.OrderItems :=
      ne_of_last_char _ _ 'e' 's' (price_key_last v) (by decide) (by decide)
    have h2 : v ++ ".order price" ≠ consts.OrderTotal :=
      ne_of_last_char _ _ 'e' 'l' (price_key_last v) (by decide) (by decide)
    rw [hrec, itemRecords_at_price]
    simp only [h1, h2, and_false, if_false, List.nil_append, hprice]
  · rw [validateOrderData_none_iff, violations_zero_iff]
  · intro verr h
    unfold validateOrderData at h
    by_cases hn : errortools.Nil (buildValidationErr order) = true
    · simp [hn] at h
    · simp only [hn] at h
      simp only [Bool.not_false, if_true, Option.some.injEq] at h
      exact h.symm

/-- C28, for the order with total 0 and two lines of the first variant, the
first with quantity 0 and the second with quantity -1 and price 0: two records
under the quantity key, one under the price key, one under `order total`, four
records for four violations, and the built error is returned. -/
theorem validation_error_records_witness :
    recordsAt (buildValidationErr orderFourViolations) (variantA ++ ".order quantity") =
        [⟨"ECM411", "Invalid order quantity"⟩, ⟨"ECM411", "Invalid order quantity"⟩] ∧
      recordsAt (buildValidationErr orderFourViolations) (variantA ++ ".order price") =
        [⟨"ECM411", "Invalid order price"⟩] ∧
      recordCount (buildValidationErr orderFourViolations) = 4 ∧
      validateOrderData orderFourViolations =
        some (buildValidationErr orderFourViolations) :=
  have h := validation_error_records orderFourViolations
  ⟨(h.2.2.1 variantA).trans (by decide), (h.2.2.2.1 variantA).trans (by decide),
    h.2.2.2.2.2.1.trans (by decide), by
      cases hv : validateOrderData orderFourViolations with
      | none => exact absurd (h.2.2.2.2.2.2.1.mp hv) (by decide)
      | some verr => rw [h.2.2.2.2.2.2.2 verr hv]⟩

end Ecommerce




